import Mathlib

/-!
# External links service (`pkg/externalLinks/ExternalLinkService.go`)

A shallow embedding of `ExternalLinkServiceImpl` (`Create`, `GetAllActiveTools`,
`FetchAllActiveLinks`, `Update`, `DeleteLink`) over an explicit relational store.

* Go `int` / `int32` values are `Int` (no arithmetic is performed on them).
* `time.Now()` reads a logical clock held in the environment and advances it.
* A Go `(value, error)` result is an `Except Error value`; the environment after
  the call is returned next to it, because a failing operation keeps the writes
  made before the failure.
* Go maps are association lists in first-insertion order.  Go leaves the iteration
  order of a map unspecified, so every statement below about a listing is a
  statement about membership or counting, never about positions.
-/

namespace ExternalLinks

/-! ## Data model -/

/-- The embedded `sql.AuditLog` struct. -/
structure AuditLog where
  CreatedOn : Nat
  CreatedBy : Int
  UpdatedOn : Nat
  UpdatedBy : Int
deriving DecidableEq, Repr, Inhabited

/-- Row of the link table (`ExternalLink`, with its embedded `AuditLog`). -/
structure ExternalLink extends AuditLog where
  Id : Int
  ExternalLinkMonitoringToolId : Int
  Name : String
  Url : String
  Active : Bool
deriving DecidableEq, Repr, Inhabited

/-- Row of the link-to-cluster mapping table (`ExternalLinkClusterMapping`).  The
ORM relation field `ExternalLinks` is not a column; it is the second component of
the pairs returned by `MappingRepository.FindAllActive`. -/
structure ExternalLinkClusterMapping extends AuditLog where
  Id : Int
  ExternalLinkId : Int
  ClusterId : Int
  Active : Bool
deriving DecidableEq, Repr, Inhabited

/-- Row of the monitoring tool table. -/
structure ExternalLinkMonitoringTool where
  Id : Int
  Name : String
  Icon : String
  Active : Bool
deriving DecidableEq, Repr, Inhabited

structure ExternalLinkMonitoringToolDto where
  Id : Int
  Name : String
  Icon : String
deriving DecidableEq, Repr, Inhabited

structure ExternalLinkDto where
  Id : Int
  Name : String
  Url : String
  Active : Bool
  MonitoringToolId : Int
  ClusterIds : List Int
  UpdatedOn : Nat
  UserId : Int
deriving DecidableEq, Repr, Inhabited

structure ExternalLinkApiResponse where
  Success : Bool
deriving DecidableEq, Repr, Inhabited

/-- Errors seen by a caller of the service: an error value handed back by a
repository call and passed through unchanged (`dbError` for a failed query,
`noRows` for a lookup that matched nothing), or a `util.ApiError` built by the
service with its two fixed messages. -/
inductive Error where
  | dbError
  | noRows
  | apiError (InternalMessage UserMessage : String)
deriving DecidableEq, Repr, Inhabited

/-- The three tables behind the repositories. -/
structure Store where
  links : List ExternalLink
  mappings : List ExternalLinkClusterMapping
  tools : List ExternalLinkMonitoringTool
deriving DecidableEq, Repr, Inhabited

/-- What a service call runs against: the store, the logical clock read by
`time.Now()`, and the scripted outcome of the coming repository calls (`true`: the
call fails at the persistence layer; an exhausted script means success). -/
structure Env where
  store : Store
  clock : Nat
  faults : List Bool
deriving DecidableEq, Repr, Inhabited

/-- The empty store. -/
def Store.empty : Store := ⟨[], [], []⟩

/-- `time.Now()`. -/
def timeNow (e : Env) : Nat × Env :=
  (e.clock, { e with clock := e.clock + 1 })

/-- Outcome of the next repository call according to the script. -/
def Env.nextCall (e : Env) : Bool × Env :=
  match e.faults with
  | [] => (false, e)
  | b :: rest => (b, { e with faults := rest })

/-- No scripted repository failure is pending. -/
def Env.NoFaults (e : Env) : Prop := ∀ b ∈ e.faults, b = false

instance (e : Env) : Decidable e.NoFaults :=
  inferInstanceAs (Decidable (∀ b ∈ e.faults, b = false))

def Env.setLinks (e : Env) (ls : List ExternalLink) : Env :=
  { e with store := { e.store with links := ls } }

def Env.setMappings (e : Env) (ms : List ExternalLinkClusterMapping) : Env :=
  { e with store := { e.store with mappings := ms } }

/-! ## Repositories -/

/-- Modelled from the spec: the identity a store assigns to an inserted row (the
repository implementations are not part of the sources).  The spec only asks for
an identity; the model takes the successor of the largest identity in use, and at
least 1, which is fresh for the table whatever it holds. -/
def freshId (ids : List Int) : Int := ids.foldl max 0 + 1

/-- Modelled from the spec: `ExternalLinkRepository.Save`, "a link record is
inserted": the record receives a fresh identity and is appended to the link table;
the saved record (with its identity, as `t.Id` is read afterwards) is returned. -/
def LinkRepository.Save (t : ExternalLink) (e : Env) : Except Error ExternalLink × Env :=
  match e.nextCall with
  | (true, e1) => (.error .dbError, e1)
  | (false, e1) =>
    let t1 := { t with Id := freshId (e1.store.links.map (·.Id)) }
    (.ok t1, e1.setLinks (e1.store.links ++ [t1]))

/-- Modelled from the spec: `ExternalLinkRepository.FindOne`, "load the existing
link record by id; fail with a not-found condition if absent". -/
def LinkRepository.FindOne (id : Int) (e : Env) : Except Error ExternalLink × Env :=
  match e.nextCall with
  | (true, e1) => (.error .dbError, e1)
  | (false, e1) =>
    match e1.store.links.find? (fun l => l.Id == id) with
    | some l => (.ok l, e1)
    | none => (.error .noRows, e1)

/-- Modelled from the spec: `ExternalLinkRepository.Update`, overwrite by primary
key: every row carrying the identity of `t` takes the column values of `t`. -/
def LinkRepository.Update (t : ExternalLink) (e : Env) : Except Error Unit × Env :=
  match e.nextCall with
  | (true, e1) => (.error .dbError, e1)
  | (false, e1) =>
    (.ok (), e1.setLinks (e1.store.links.map (fun l => if l.Id = t.Id then t else l)))

/-- Modelled from the spec: `ExternalLinkRepository.FindAllFilterOutByIds`, the
links to list that are "not mapped to any clusters": the listing is one of active
links ("returns every active link exactly once, including links with zero
mappings"), so these are the active link records whose id is not among `ids`. -/
def LinkRepository.FindAllFilterOutByIds (ids : List Int) (e : Env) :
    Except Error (List ExternalLink) × Env :=
  match e.nextCall with
  | (true, e1) => (.error .dbError, e1)
  | (false, e1) =>
    (.ok (e1.store.links.filter (fun l => l.Active && !(ids.contains l.Id))), e1)

/-- Modelled from the spec: `ExternalLinkClusterMappingRepository.Save`, "insert a
new mapping row": fresh identity, appended to the mapping table. -/
def MappingRepository.Save (m : ExternalLinkClusterMapping) (e : Env) :
    Except Error ExternalLinkClusterMapping × Env :=
  match e.nextCall with
  | (true, e1) => (.error .dbError, e1)
  | (false, e1) =>
    let m1 := { m with Id := freshId (e1.store.mappings.map (·.Id)) }
    (.ok m1, e1.setMappings (e1.store.mappings ++ [m1]))

/-- Modelled from the spec: `ExternalLinkClusterMappingRepository.Update`,
overwrite by primary key. -/
def MappingRepository.Update (m : ExternalLinkClusterMapping) (e : Env) :
    Except Error Unit × Env :=
  match e.nextCall with
  | (true, e1) => (.error .dbError, e1)
  | (false, e1) =>
    (.ok (), e1.setMappings (e1.store.mappings.map (fun r => if r.Id = m.Id then m else r)))

/-- The link record joined to a mapping row by the ORM relation `ExternalLinks`;
the zero value when no link record carries the referenced id. -/
def joinLink (ls : List ExternalLink) (m : ExternalLinkClusterMapping) : ExternalLink :=
  match ls.find? (fun l => l.Id == m.ExternalLinkId) with
  | some l => l
  | none => default

/-- Modelled from the spec: `ExternalLinkClusterMappingRepository.FindAllActive`,
"gather all active mappings", each with its joined link record. -/
def MappingRepository.FindAllActive (e : Env) :
    Except Error (List (ExternalLinkClusterMapping × ExternalLink)) × Env :=
  match e.nextCall with
  | (true, e1) => (.error .dbError, e1)
  | (false, e1) =>
    (.ok ((e1.store.mappings.filter (fun m => m.Active)).map
      (fun m => (m, joinLink e1.store.links m))), e1)

/-- Modelled from the spec: `ExternalLinkClusterMappingRepository.FindAllByExternalLinkId`,
"load all existing mapping rows for this link", active or not. -/
def MappingRepository.FindAllByExternalLinkId (linkId : Int) (e : Env) :
    Except Error (List ExternalLinkClusterMapping) × Env :=
  match e.nextCall with
  | (true, e1) => (.error .dbError, e1)
  | (false, e1) =>
    (.ok (e1.store.mappings.filter (fun m => m.ExternalLinkId == linkId)), e1)

/-- Modelled from the spec: `ExternalLinkClusterMappingRepository.FindAllActiveByExternalLinkId`,
"all active mapping rows for the link". -/
def MappingRepository.FindAllActiveByExternalLinkId (linkId : Int) (e : Env) :
    Except Error (List ExternalLinkClusterMapping) × Env :=
  match e.nextCall with
  | (true, e1) => (.error .dbError, e1)
  | (false, e1) =>
    (.ok (e1.store.mappings.filter (fun m => m.ExternalLinkId == linkId && m.Active)), e1)

/-- Modelled from the spec: `ExternalLinkMonitoringToolRepository.FindAllActive`,
"fetch all active tool records". -/
def ToolRepository.FindAllActive (e : Env) :
    Except Error (List ExternalLinkMonitoringTool) × Env :=
  match e.nextCall with
  | (true, e1) => (.error .dbError, e1)
  | (false, e1) => (.ok (e1.store.tools.filter (fun t => t.Active)), e1)

/-! ## Go maps -/

/-- Assignment `m[k] = v` on a Go map held as an association list. -/
def mapSet {β : Type} : List (Int × β) → Int → β → List (Int × β)
  | [], k, v => [(k, v)]
  | (k1, v1) :: m, k, v => if k1 = k then (k, v) :: m else (k1, v1) :: mapSet m k v

/-- Lookup `v, ok := m[k]`. -/
def mapGet? {β : Type} : List (Int × β) → Int → Option β
  | [], _ => none
  | (k1, v1) :: m, k => if k1 = k then some v1 else mapGet? m k

/-! ## The service -/

/-- The fixed error of a failed mapping save (`Create` lines 103-106, `Update`
lines 265-268). -/
def clusterIdFailed : Error :=
  .apiError "cluster id failed to create in db" "cluster id failed to create in db"

/-- The fixed error of a failed link save (`Create` lines 86-89). -/
def linkFailed : Error :=
  .apiError "external link failed to create in db" "external link failed to create in db"

/-- Inner loop of `Create` (lines 93-109): one mapping row per cluster id of the
request, for the link saved just before. -/
def createMappings (linkId : Int) (userId : Int) :
    List Int → Env → Except Error Unit × Env
  | [], e => (.ok (), e)
  | clusterId :: rest, e =>
    let t1 := timeNow e
    let t2 := timeNow t1.2
    let externalLinksMapping : ExternalLinkClusterMapping :=
      { Id := 0, ExternalLinkId := linkId, ClusterId := clusterId, Active := true,
        CreatedOn := t1.1, CreatedBy := userId, UpdatedOn := t2.1, UpdatedBy := userId }
    match MappingRepository.Save externalLinksMapping t2.2 with
    | (.error _, e1) => (.error clusterIdFailed, e1)
    | (.ok _, e1) => createMappings linkId userId rest e1

/-- `ExternalLinkServiceImpl.Create` (lines 73-115). -/
def Create : List ExternalLinkDto → Int → Env → Except Error ExternalLinkApiResponse × Env
  | [], _, e => (.ok { Success := true }, e)
  | request :: rest, userId, e =>
    let t1 := timeNow e
    let t2 := timeNow t1.2
    let t : ExternalLink :=
      { Id := 0, Name := request.Name, Active := true,
        ExternalLinkMonitoringToolId := request.MonitoringToolId, Url := request.Url,
        CreatedOn := t1.1, CreatedBy := userId, UpdatedOn := t2.1, UpdatedBy := userId }
    match LinkRepository.Save t t2.2 with
    | (.error _, e1) => (.error linkFailed, e1)
    | (.ok saved, e1) =>
      match createMappings saved.Id userId request.ClusterIds e1 with
      | (.error err, e2) => (.error err, e2)
      | (.ok _, e2) => Create rest userId e2

/-- `ExternalLinkServiceImpl.GetAllActiveTools` (lines 117-134). -/
def GetAllActiveTools (e : Env) : Except Error (List ExternalLinkMonitoringToolDto) × Env :=
  match ToolRepository.FindAllActive e with
  | (.error err, e1) => (.error err, e1)
  | (.ok tools, e1) =>
    (.ok (tools.map (fun tool => { Id := tool.Id, Name := tool.Name, Icon := tool.Icon })), e1)

/-- Body of the loop of `FetchAllActiveLinks` over the active mappings (lines
152-171), on the pair of maps `(filterByCluster, response)`. -/
def listStep (clusterId : Int)
    (acc : List (Int × Int) × List (Int × ExternalLinkDto))
    (link : ExternalLinkClusterMapping × ExternalLink) :
    List (Int × Int) × List (Int × ExternalLinkDto) :=
  let filterByCluster :=
    if clusterId > 0 ∧ link.1.ClusterId = clusterId then
      mapSet acc.1 link.1.ExternalLinkId link.1.ExternalLinkId
    else acc.1
  let dto : ExternalLinkDto :=
    match mapGet? acc.2 link.1.ExternalLinkId with
    | some d => d
    | none =>
      { Id := link.1.ExternalLinkId, Name := link.2.Name, Url := link.2.Url,
        Active := link.2.Active, MonitoringToolId := link.2.ExternalLinkMonitoringToolId,
        ClusterIds := [], UpdatedOn := link.1.UpdatedOn, UserId := 0 }
  (filterByCluster,
    mapSet acc.2 link.1.ExternalLinkId { dto with ClusterIds := dto.ClusterIds ++ [link.1.ClusterId] })

/-- The entry of the listing for a link without mapping (lines 188-196). -/
def unmappedDto (link : ExternalLink) : ExternalLinkDto :=
  { Id := link.Id, Name := link.Name, Url := link.Url, Active := link.Active,
    MonitoringToolId := link.ExternalLinkMonitoringToolId, ClusterIds := [],
    UpdatedOn := link.UpdatedOn, UserId := 0 }

/-- `ExternalLinkServiceImpl.FetchAllActiveLinks` (lines 136-204).  The error of
`FindAllActive` is assigned to `err` and never examined before `err` is assigned
again at line 182; a failed `FindAllActive` leaves the nil slice. -/
def FetchAllActiveLinks (clusterId : Int) (e : Env) :
    Except Error (List ExternalLinkDto) × Env :=
  let r := MappingRepository.FindAllActive e
  let allActiveExternalLinks : List (ExternalLinkClusterMapping × ExternalLink) :=
    match r.1 with
    | .ok rows => rows
    | .error _ => []
  let externalLinksMap : List (Int × Int) :=
    allActiveExternalLinks.foldl
      (fun m link => mapSet m link.1.ExternalLinkId link.1.ExternalLinkId) []
  let mappedExternalLinksIds := externalLinksMap.map (·.2)
  let maps := allActiveExternalLinks.foldl (listStep clusterId) ([], [])
  let externalLinkResponse :=
    (maps.2.filter (fun kv => (mapGet? maps.1 kv.1).isSome || clusterId == 0)).map (·.2)
  match LinkRepository.FindAllFilterOutByIds mappedExternalLinksIds r.2 with
  | (.error err, e1) => (.error err, e1)
  | (.ok additionalExternalLinks, e1) =>
    (.ok (externalLinkResponse ++ additionalExternalLinks.map unmappedDto), e1)

/-- The tombstone loop of `Update` (lines 229-238) and of `DeleteLink` (lines
283-292): each fetched row is marked inactive, stamped and written back.  The rows
are pointers, so the fetched slice itself is changed; it is returned. -/
def deactivateAll (userId : Int) :
    List ExternalLinkClusterMapping → Env → Except Error (List ExternalLinkClusterMapping) × Env
  | [], e => (.ok [], e)
  | model :: rest, e =>
    let t := timeNow e
    let model1 := { model with Active := false, UpdatedBy := userId, UpdatedOn := t.1 }
    match MappingRepository.Update model1 t.2 with
    | (.error err, e1) => (.error err, e1)
    | (.ok _, e1) =>
      match deactivateAll userId rest e1 with
      | (.error err, e2) => (.error err, e2)
      | (.ok rest1, e2) => (.ok (model1 :: rest1), e2)

/-- In-place change of the first element of a slice of pointers that satisfies `p`. -/
def setFirst {α : Type} (p : α → Bool) (f : α → α) : List α → List α
  | [] => []
  | a :: as => if p a then f a :: as else a :: setFirst p f as

/-- The reconciliation loop of `Update` (lines 239-271) over the requested cluster
ids; `all` is the slice fetched at line 224, as left by the tombstone loop. -/
def reconcile (request : ExternalLinkDto) :
    List ExternalLinkClusterMapping → List Int → Env → Except Error Unit × Env
  | _, [], e => (.ok (), e)
  | all, requestedClusterId :: rest, e =>
    match all.find? (fun model => requestedClusterId == model.ClusterId) with
    | some model =>
      if model.Id > 0 then
        let t := timeNow e
        let externalLinkCluster :=
          { model with Active := true, UpdatedOn := t.1, UpdatedBy := request.UserId }
        match MappingRepository.Update externalLinkCluster t.2 with
        | (.error _, e1) => (.error clusterIdFailed, e1)
        | (.ok _, e1) =>
          reconcile request
            (setFirst (fun model => requestedClusterId == model.ClusterId)
              (fun _ => externalLinkCluster) all) rest e1
      else
        let t1 := timeNow e
        let t2 := timeNow t1.2
        let externalLinkCluster : ExternalLinkClusterMapping :=
          { Id := 0, ExternalLinkId := request.Id, ClusterId := requestedClusterId,
            Active := true, CreatedOn := t1.1, CreatedBy := request.UserId,
            UpdatedOn := t2.1, UpdatedBy := request.UserId }
        match MappingRepository.Save externalLinkCluster t2.2 with
        | (.error _, e1) => (.error clusterIdFailed, e1)
        | (.ok _, e1) => reconcile request all rest e1
    | none =>
      let t1 := timeNow e
      let t2 := timeNow t1.2
      let externalLinkCluster : ExternalLinkClusterMapping :=
        { Id := 0, ExternalLinkId := request.Id, ClusterId := requestedClusterId,
          Active := true, CreatedOn := t1.1, CreatedBy := request.UserId,
          UpdatedOn := t2.1, UpdatedBy := request.UserId }
      match MappingRepository.Save externalLinkCluster t2.2 with
      | (.error _, e1) => (.error clusterIdFailed, e1)
      | (.ok _, e1) => reconcile request all rest e1

/-- `ExternalLinkServiceImpl.Update` (lines 205-276). -/
def Update (request : ExternalLinkDto) (e : Env) : Except Error ExternalLinkApiResponse × Env :=
  match LinkRepository.FindOne request.Id e with
  | (.error err0, e1) => (.error err0, e1)
  | (.ok found, e1) =>
    let t := timeNow e1
    let externalLinks : ExternalLink :=
      { found with Name := request.Name, Url := request.Url, Active := true,
                   ExternalLinkMonitoringToolId := request.MonitoringToolId,
                   UpdatedBy := request.UserId, UpdatedOn := t.1 }
    match LinkRepository.Update externalLinks t.2 with
    | (.error err, e2) => (.error err, e2)
    | (.ok _, e2) =>
      match MappingRepository.FindAllByExternalLinkId request.Id e2 with
      | (.error err, e3) => (.error err, e3)
      | (.ok allExternalLinksMapping, e3) =>
        match deactivateAll request.UserId allExternalLinksMapping e3 with
        | (.error err, e4) => (.error err, e4)
        | (.ok all, e4) =>
          match reconcile request all request.ClusterIds e4 with
          | (.error err, e5) => (.error err, e5)
          | (.ok _, e5) => (.ok { Success := true }, e5)

/-- `ExternalLinkServiceImpl.DeleteLink` (lines 277-311). -/
def DeleteLink (id : Int) (userId : Int) (e : Env) : Except Error ExternalLinkApiResponse × Env :=
  match MappingRepository.FindAllActiveByExternalLinkId id e with
  | (.error err, e1) => (.error err, e1)
  | (.ok externalLinksMapping, e1) =>
    match deactivateAll userId externalLinksMapping e1 with
    | (.error err, e2) => (.error err, e2)
    | (.ok _, e2) =>
      match LinkRepository.FindOne id e2 with
      | (.error err, e3) => (.error err, e3)
      | (.ok found, e3) =>
        let t := timeNow e3
        let externalLinks : ExternalLink :=
          { found with Active := false, UpdatedOn := t.1, UpdatedBy := userId }
        match LinkRepository.Update externalLinks t.2 with
        | (.error err, e4) => (.error err, e4)
        | (.ok _, e4) => (.ok { Success := true }, e4)

/-! ## Vocabulary of the statements -/

/-- The script after one repository call has consumed its outcome. -/
def Env.pop (e : Env) : Env := { e with faults := e.faults.tail }

/-- The columns of a mapping row that no operation of the service rewrites. -/
def rowKey (m : ExternalLinkClusterMapping) : Int × Int × Int × Nat × Int :=
  (m.Id, m.ExternalLinkId, m.ClusterId, m.CreatedOn, m.CreatedBy)

/-- Identity of the fetched row that the reconciliation loop reactivates for the
requested cluster id `c`, if there is one (lines 242-249). -/
def reuseId (all : List ExternalLinkClusterMapping) (c : Int) : Option Int :=
  match all.find? (fun model => c == model.ClusterId) with
  | some model => if model.Id > 0 then some model.Id else none
  | none => none

/-- Primary keys: no two rows of the mapping table share an identity. -/
def Store.MappingKeys (s : Store) : Prop := (s.mappings.map (·.Id)).Nodup

/-- Primary keys: no two rows of the link table share an identity. -/
def Store.LinkKeys (s : Store) : Prop := (s.links.map (·.Id)).Nodup

instance (s : Store) : Decidable s.MappingKeys :=
  inferInstanceAs (Decidable (List.Nodup (List.map ExternalLinkClusterMapping.Id s.mappings)))

instance (s : Store) : Decidable s.LinkKeys :=
  inferInstanceAs (Decidable (List.Nodup (List.map ExternalLink.Id s.links)))

/-- A link with id 1 mapped to the clusters 10 and 30 (both mappings active). -/
def envAC : Env :=
  { store :=
      { links := [{ Id := 1, ExternalLinkMonitoringToolId := 1, Name := "Grafana",
                    Url := "http://g", Active := true,
                    CreatedOn := 0, CreatedBy := 7, UpdatedOn := 0, UpdatedBy := 7 }],
        mappings :=
          [{ Id := 1, ExternalLinkId := 1, ClusterId := 10, Active := true,
             CreatedOn := 1, CreatedBy := 7, UpdatedOn := 1, UpdatedBy := 7 },
           { Id := 2, ExternalLinkId := 1, ClusterId := 30, Active := true,
             CreatedOn := 2, CreatedBy := 7, UpdatedOn := 2, UpdatedBy := 7 }],
        tools := [] },
    clock := 3, faults := [] }

/-- The store of `envAC` after link 1 has been soft-deleted. -/
def envDeleted : Env :=
  { store :=
      { links := [{ Id := 1, ExternalLinkMonitoringToolId := 1, Name := "Grafana",
                    Url := "http://g", Active := false,
                    CreatedOn := 0, CreatedBy := 7, UpdatedOn := 5, UpdatedBy := 9 }],
        mappings :=
          [{ Id := 1, ExternalLinkId := 1, ClusterId := 10, Active := false,
             CreatedOn := 1, CreatedBy := 7, UpdatedOn := 3, UpdatedBy := 9 },
           { Id := 2, ExternalLinkId := 1, ClusterId := 30, Active := false,
             CreatedOn := 2, CreatedBy := 7, UpdatedOn := 4, UpdatedBy := 9 }],
        tools := [] },
    clock := 6, faults := [] }

/-- The empty store, clock at 0, no scripted failure. -/
def env0 : Env := { store := Store.empty, clock := 0, faults := [] }

/-- A create request that names cluster 1 twice. -/
def reqDup : ExternalLinkDto :=
  { Id := 0, Name := "Kibana", Url := "http://k", Active := true, MonitoringToolId := 2,
    ClusterIds := [1, 1], UpdatedOn := 0, UserId := 7 }

/-- The create request of the spec's scenario. -/
def reqGrafana : ExternalLinkDto :=
  { Id := 0, Name := "Grafana", Url := "http://g", Active := true, MonitoringToolId := 1,
    ClusterIds := [1, 2], UpdatedOn := 0, UserId := 7 }

/-- A request that moves link 1 to the clusters 10 and 20. -/
def reqAB : ExternalLinkDto :=
  { Id := 1, Name := "Grafana", Url := "http://g", Active := false, MonitoringToolId := 1,
    ClusterIds := [10, 20], UpdatedOn := 0, UserId := 7 }

/-- The store of `envAC`, with a script in which the next repository call fails and
the one after it succeeds. -/
def envACFault : Env := { envAC with faults := [true, false] }

/-- An active link mapped to the cluster id -1. -/
def envNegative : Env :=
  { store :=
      { links := [{ Id := 1, ExternalLinkMonitoringToolId := 1, Name := "Grafana",
                    Url := "http://g", Active := true,
                    CreatedOn := 0, CreatedBy := 7, UpdatedOn := 0, UpdatedBy := 7 }],
        mappings :=
          [{ Id := 1, ExternalLinkId := 1, ClusterId := -1, Active := true,
             CreatedOn := 1, CreatedBy := 7, UpdatedOn := 1, UpdatedBy := 7 }],
        tools := [] },
    clock := 2, faults := [] }

/-- The rows `FindAllActive` returns on a store: the active mappings, each with its
joined link record. -/
def activeRows (s : Store) : List (ExternalLinkClusterMapping × ExternalLink) :=
  (s.mappings.filter (fun m => m.Active)).map (fun m => (m, joinLink s.links m))

/-- The entry of the listing for the link id `k` assembled from the rows `rows`: the
link fields of the first row of `k`, and the cluster ids of all rows of `k`. -/
def groupDto (rows : List (ExternalLinkClusterMapping × ExternalLink)) (k : Int) :
    Option ExternalLinkDto :=
  match rows.find? (fun row => row.1.ExternalLinkId == k) with
  | some row =>
    some { Id := row.1.ExternalLinkId, Name := row.2.Name, Url := row.2.Url,
           Active := row.2.Active, MonitoringToolId := row.2.ExternalLinkMonitoringToolId,
           ClusterIds := (rows.filter (fun row => row.1.ExternalLinkId == k)).map (·.1.ClusterId),
           UpdatedOn := row.1.UpdatedOn, UserId := 0 }
  | none => none

/-- The environment with an empty script: every coming repository call succeeds. -/
def Env.calm (e : Env) : Env := { e with faults := [] }

/-- Foreign keys: every mapping row references the identity of a link record. -/
def Store.ForeignKeys (s : Store) : Prop :=
  ∀ r ∈ s.mappings, r.ExternalLinkId ∈ s.links.map (·.Id)

/-- Every active mapping row references a link record that exists and is active. -/
def Store.Referential (s : Store) : Prop :=
  ∀ r ∈ s.mappings, r.Active = true →
    ∃ l ∈ s.links, l.Id = r.ExternalLinkId ∧ l.Active = true

/-- The invariant of the data model: for every (link, cluster) pair there is at most
one active mapping row. -/
def Store.AtMostOneActive (s : Store) : Prop :=
  ∀ l c : Int,
    (s.mappings.filter
      (fun r => r.Active && r.ExternalLinkId == l && r.ClusterId == c)).length ≤ 1

/-- A store as a relational database holds it: primary keys on both tables and the
foreign key of the mapping table. -/
def Store.WellFormed (s : Store) : Prop :=
  s.LinkKeys ∧ s.MappingKeys ∧ s.ForeignKeys

instance (s : Store) : Decidable s.ForeignKeys :=
  inferInstanceAs (Decidable (∀ r ∈ s.mappings, r.ExternalLinkId ∈ List.map ExternalLink.Id s.links))

instance (s : Store) : Decidable s.Referential :=
  inferInstanceAs (Decidable (∀ r ∈ s.mappings, r.Active = true →
    ∃ l ∈ s.links, l.Id = r.ExternalLinkId ∧ l.Active = true))

instance (s : Store) : Decidable s.WellFormed :=
  inferInstanceAs (Decidable (s.LinkKeys ∧ s.MappingKeys ∧ s.ForeignKeys))

/-- The stores reached from the empty store by calls of `Create`, `Update` and
`DeleteLink`, at any time and whatever the repository calls answer during each call
(a call that fails midway still leaves a reached store). -/
inductive Reachable : Store → Prop where
  | empty : Reachable Store.empty
  | create (s : Store) (clock : Nat) (faults : List Bool)
      (requests : List ExternalLinkDto) (userId : Int) :
      Reachable s → Reachable (Create requests userId ⟨s, clock, faults⟩).2.store
  | update (s : Store) (clock : Nat) (faults : List Bool) (request : ExternalLinkDto) :
      Reachable s → Reachable (Update request ⟨s, clock, faults⟩).2.store
  | delete (s : Store) (clock : Nat) (faults : List Bool) (id userId : Int) :
      Reachable s → Reachable (DeleteLink id userId ⟨s, clock, faults⟩).2.store

/-- The store reached from the empty store by creating two links (the second one
with the clusters 1 and 1) and deleting the first one. -/
def envReached : Env :=
  { store := (DeleteLink 1 9 ⟨(Create [reqGrafana, reqDup] 7 env0).2.store, 10, []⟩).2.store,
    clock := 20, faults := [] }

/-- Number of repository `Save` calls that `Create` makes for a list of requests when
none of them fails: one for each link and one for each of its cluster ids. -/
def saveCount (requests : List ExternalLinkDto) : Nat :=
  (requests.map (fun r => 1 + r.ClusterIds.length)).sum

/-- The empty store with a script in which the first `Save` succeeds and the second
one fails. -/
def envSecondSaveFails : Env := { store := Store.empty, clock := 0, faults := [false, true] }

/-- The store of `envAC` with a script in which the third repository call fails. -/
def envACThirdFails : Env := { envAC with faults := [false, false, true] }

/-- The identities of the mapping rows are positive, as the sequence of the table
assigns them and as `MappingRepository.Save` assigns them here. -/
def Store.PositiveKeys (s : Store) : Prop := ∀ r ∈ s.mappings, 0 < r.Id

instance (s : Store) : Decidable s.PositiveKeys :=
  inferInstanceAs (Decidable (∀ r ∈ s.mappings, 0 < r.Id))

/-! ## Environment and repository lemmas -/

theorem foldl_max_ge (ids : List Int) (a : Int) :
    a ≤ ids.foldl max a ∧ ∀ x ∈ ids, x ≤ ids.foldl max a := by
  induction ids generalizing a with
  | nil => simp
  | cons y ys ih =>
    simp only [List.foldl_cons, List.mem_cons, forall_eq_or_imp]
    have h := ih (max a y)
    refine ⟨le_trans (le_max_left a y) h.1, le_trans (le_max_right a y) h.1, h.2⟩

theorem freshId_pos (ids : List Int) : 0 < freshId ids := by
  have := (foldl_max_ge ids 0).1
  unfold freshId; omega

theorem freshId_not_mem (ids : List Int) : freshId ids ∉ ids := by
  intro h
  have := (foldl_max_ge ids 0).2 _ h
  unfold freshId at this; omega

theorem nextCall_of_noFaults {e : Env} (h : e.NoFaults) : e.nextCall = (false, e.pop) := by
  obtain ⟨st, ck, fs⟩ := e
  cases fs with
  | nil => rfl
  | cons b rest =>
    have hb : b = false := h b (by simp)
    subst hb; rfl

theorem noFaults_pop {e : Env} (h : e.NoFaults) : e.pop.NoFaults := by
  intro b hb
  exact h b (List.mem_of_mem_tail hb)

theorem noFaults_timeNow {e : Env} (h : e.NoFaults) : (timeNow e).2.NoFaults := h

theorem noFaults_setMappings {e : Env} (h : e.NoFaults) (ms : List ExternalLinkClusterMapping) :
    (e.setMappings ms).NoFaults := h

theorem noFaults_setLinks {e : Env} (h : e.NoFaults) (ls : List ExternalLink) :
    (e.setLinks ls).NoFaults := h

@[simp] theorem store_pop (e : Env) : e.pop.store = e.store := rfl

@[simp] theorem store_timeNow (e : Env) : (timeNow e).2.store = e.store := rfl

@[simp] theorem mappings_setMappings (e : Env) (ms : List ExternalLinkClusterMapping) :
    (e.setMappings ms).store.mappings = ms := rfl

@[simp] theorem links_setMappings (e : Env) (ms : List ExternalLinkClusterMapping) :
    (e.setMappings ms).store.links = e.store.links := rfl

@[simp] theorem tools_setMappings (e : Env) (ms : List ExternalLinkClusterMapping) :
    (e.setMappings ms).store.tools = e.store.tools := rfl

@[simp] theorem links_setLinks (e : Env) (ls : List ExternalLink) :
    (e.setLinks ls).store.links = ls := rfl

@[simp] theorem mappings_setLinks (e : Env) (ls : List ExternalLink) :
    (e.setLinks ls).store.mappings = e.store.mappings := rfl

@[simp] theorem tools_setLinks (e : Env) (ls : List ExternalLink) :
    (e.setLinks ls).store.tools = e.store.tools := rfl

theorem mappingUpdate_ok {e : Env} (h : e.NoFaults) (m : ExternalLinkClusterMapping) :
    MappingRepository.Update m e =
      (.ok (), e.pop.setMappings (e.store.mappings.map (fun r => if r.Id = m.Id then m else r))) := by
  simp [MappingRepository.Update, nextCall_of_noFaults h]

theorem mappingSave_ok {e : Env} (h : e.NoFaults) (m : ExternalLinkClusterMapping) :
    MappingRepository.Save m e =
      (.ok { m with Id := freshId (e.store.mappings.map (·.Id)) },
        e.pop.setMappings
          (e.store.mappings ++ [{ m with Id := freshId (e.store.mappings.map (·.Id)) }])) := by
  simp [MappingRepository.Save, nextCall_of_noFaults h]

theorem linkUpdate_ok {e : Env} (h : e.NoFaults) (t : ExternalLink) :
    LinkRepository.Update t e =
      (.ok (), e.pop.setLinks (e.store.links.map (fun l => if l.Id = t.Id then t else l))) := by
  simp [LinkRepository.Update, nextCall_of_noFaults h]

theorem linkSave_ok {e : Env} (h : e.NoFaults) (t : ExternalLink) :
    LinkRepository.Save t e =
      (.ok { t with Id := freshId (e.store.links.map (·.Id)) },
        e.pop.setLinks (e.store.links ++ [{ t with Id := freshId (e.store.links.map (·.Id)) }])) := by
  simp [LinkRepository.Save, nextCall_of_noFaults h]

/-! ## The tombstone loop -/

/-- Effect of the tombstone loop when no repository call fails: the mapping table
is rewritten row by row by a function `G` that leaves alone every row whose
identity was not fetched and turns every other row into an inactive copy of a
fetched row of the same identity. -/
theorem deactivateAll_ok (userId : Int) (snap : List ExternalLinkClusterMapping) :
    ∀ e : Env, e.NoFaults →
    ∃ (G : ExternalLinkClusterMapping → ExternalLinkClusterMapping)
      (snap1 : List ExternalLinkClusterMapping) (e1 : Env),
      deactivateAll userId snap e = (.ok snap1, e1) ∧ e1.NoFaults ∧
      e1.store.links = e.store.links ∧ e1.store.tools = e.store.tools ∧
      e1.store.mappings = e.store.mappings.map G ∧
      snap1.map rowKey = snap.map rowKey ∧
      (∀ r, (∀ m ∈ snap, m.Id ≠ r.Id) → G r = r) ∧
      (∀ r, (∃ m ∈ snap, m.Id = r.Id) →
        ∃ m ∈ snap, m.Id = r.Id ∧ rowKey (G r) = rowKey m ∧ (G r).Active = false) := by
  induction snap with
  | nil =>
    intro e he
    exact ⟨id, [], e, rfl, he, rfl, rfl, by simp, rfl, by simp, by simp⟩
  | cons m rest ih =>
    intro e he
    have h1 : (timeNow e).2.NoFaults := noFaults_timeNow he
    obtain ⟨G, snap1, e1, hrun, hnf, hl, ht, hm, hk, hG1, hG2⟩ :=
      ih (((timeNow e).2.pop).setMappings
        ((timeNow e).2.store.mappings.map
          (fun r => if r.Id = m.Id then
            { m with Active := false, UpdatedBy := userId, UpdatedOn := (timeNow e).1 } else r)))
        (noFaults_setMappings (noFaults_pop h1) _)
    refine ⟨fun r => G (if r.Id = m.Id then
        { m with Active := false, UpdatedBy := userId, UpdatedOn := (timeNow e).1 } else r),
      { m with Active := false, UpdatedBy := userId, UpdatedOn := (timeNow e).1 } :: snap1,
      e1, ?_, hnf, ?_, ?_, ?_, ?_, ?_, ?_⟩
    · simp only [deactivateAll]
      rw [mappingUpdate_ok h1]
      simp only [hrun]
    · simpa using hl
    · simpa using ht
    · rw [hm]; simp [List.map_map, Function.comp_def]
    · simp [hk, rowKey]
    · intro r hr
      have hne : r.Id ≠ m.Id := fun h => hr m (by simp) h.symm
      simp only [hne, if_false]
      exact hG1 r (fun m1 hm1 => hr m1 (by simp [hm1]))
    · intro r hr
      by_cases hid : r.Id = m.Id
      · simp only [hid, if_true]
        by_cases hex : ∃ m1 ∈ rest, m1.Id = m.Id
        · obtain ⟨m1, hm1, hk1, hk2, hk3⟩ := hG2
            { m with Active := false, UpdatedBy := userId, UpdatedOn := (timeNow e).1 } hex
          exact ⟨m1, by simp [hm1], hk1, hk2, hk3⟩
        · have hfix := hG1
            { m with Active := false, UpdatedBy := userId, UpdatedOn := (timeNow e).1 }
            (fun m1 hm1 h => hex ⟨m1, hm1, h⟩)
          refine ⟨m, by simp, rfl, ?_, ?_⟩
          · rw [hfix]; rfl
          · rw [hfix]
      · simp only [hid, if_false]
        obtain ⟨m0, hm0, hm0id⟩ := hr
        have hm0r : m0 ∈ rest := by
          rcases List.mem_cons.1 hm0 with h | h
          · exact absurd (h ▸ hm0id).symm hid
          · exact h
        obtain ⟨m1, hm1, hk1, hk2, hk3⟩ := hG2 r ⟨m0, hm0r, hm0id⟩
        exact ⟨m1, by simp [hm1], hk1, hk2, hk3⟩

/-! ## The reconciliation loop -/

theorem reuseId_congr :
    ∀ (all1 all2 : List ExternalLinkClusterMapping), all1.map rowKey = all2.map rowKey →
      ∀ c, reuseId all1 c = reuseId all2 c := by
  intro all1
  induction all1 with
  | nil =>
    intro all2 h c
    cases all2 with
    | nil => rfl
    | cons b bs => simp at h
  | cons a as ih =>
    intro all2 h c
    cases all2 with
    | nil => simp at h
    | cons b bs =>
      simp only [List.map_cons, List.cons.injEq] at h
      obtain ⟨hab, hrest⟩ := h
      have hid : a.Id = b.Id := congrArg (·.1) hab
      have hcl : a.ClusterId = b.ClusterId := congrArg (·.2.2.1) hab
      have := ih bs hrest c
      unfold reuseId at this ⊢
      simp only [List.find?_cons, hcl, hid]
      by_cases hc : c = b.ClusterId
      · simp [hc, hid]
      · have hc1 : (c == b.ClusterId) = false := by simpa using hc
        simp only [hc1]
        exact this

theorem reuseId_some {all : List ExternalLinkClusterMapping} {c i : Int}
    (h : reuseId all c = some i) :
    ∃ m ∈ all, m.Id = i ∧ m.ClusterId = c ∧ 0 < i ∧
      all.find? (fun model => c == model.ClusterId) = some m := by
  unfold reuseId at h
  cases hf : all.find? (fun model => c == model.ClusterId) with
  | none => simp [hf] at h
  | some m =>
    simp only [hf] at h
    by_cases hp : m.Id > 0
    · simp only [hp, if_true, Option.some.injEq] at h
      have hc := List.find?_some hf
      simp only [beq_iff_eq] at hc
      exact ⟨m, List.mem_of_find?_eq_some hf, h, hc.symm, h ▸ hp, rfl⟩
    · simp [hp] at h

theorem setFirst_rowKey {all : List ExternalLinkClusterMapping}
    {p : ExternalLinkClusterMapping → Bool} {model model1 : ExternalLinkClusterMapping}
    (hf : all.find? p = some model) (hk : rowKey model1 = rowKey model) :
    (setFirst p (fun _ => model1) all).map rowKey = all.map rowKey := by
  induction all with
  | nil => rfl
  | cons a as ih =>
    by_cases hp : p a
    · simp only [List.find?_cons, hp, Option.some.injEq] at hf
      subst hf
      simp [setFirst, hp, hk]
    · simp only [List.find?_cons, hp] at hf
      simp [setFirst, hp, ih hf]

theorem reconcile_cons_reuse (request : ExternalLinkDto)
    (all : List ExternalLinkClusterMapping) (c : Int) (rest : List Int) (e : Env)
    (model : ExternalLinkClusterMapping)
    (hf : all.find? (fun model => c == model.ClusterId) = some model) (hid : 0 < model.Id) :
    reconcile request all (c :: rest) e =
      match MappingRepository.Update
          { model with Active := true, UpdatedOn := (timeNow e).1, UpdatedBy := request.UserId }
          (timeNow e).2 with
      | (.error _, e1) => (.error clusterIdFailed, e1)
      | (.ok _, e1) =>
        reconcile request
          (setFirst (fun model => c == model.ClusterId)
            (fun _ => { model with Active := true, UpdatedOn := (timeNow e).1,
                                   UpdatedBy := request.UserId }) all) rest e1 := by
  rw [reconcile]
  simp only [hf]
  rw [if_pos hid]

theorem reconcile_cons_insert (request : ExternalLinkDto)
    (all : List ExternalLinkClusterMapping) (c : Int) (rest : List Int) (e : Env)
    (hn : reuseId all c = none) :
    reconcile request all (c :: rest) e =
      match MappingRepository.Save
          { Id := 0, ExternalLinkId := request.Id, ClusterId := c, Active := true,
            CreatedOn := (timeNow e).1, CreatedBy := request.UserId,
            UpdatedOn := (timeNow (timeNow e).2).1, UpdatedBy := request.UserId }
          (timeNow (timeNow e).2).2 with
      | (.error _, e1) => (.error clusterIdFailed, e1)
      | (.ok _, e1) => reconcile request all rest e1 := by
  unfold reuseId at hn
  rw [reconcile]
  cases hf : all.find? (fun model => c == model.ClusterId) with
  | none => rfl
  | some model =>
    simp only [hf] at hn
    have hid : ¬ model.Id > 0 := by
      intro h
      simp [h] at hn
    simp only [hid, if_false]

theorem mem_of_map_rowKey_eq {all1 all : List ExternalLinkClusterMapping}
    (h : all1.map rowKey = all.map rowKey) {m : ExternalLinkClusterMapping} (hm : m ∈ all1) :
    ∃ m0 ∈ all, rowKey m0 = rowKey m := by
  have : rowKey m ∈ all.map rowKey := h ▸ List.mem_map_of_mem rowKey hm
  obtain ⟨m0, hm0, hk⟩ := List.mem_map.1 this
  exact ⟨m0, hm0, hk⟩

theorem rowKey_id {a b : ExternalLinkClusterMapping} (h : rowKey a = rowKey b) : a.Id = b.Id :=
  congrArg (·.1) h

theorem map_id_replace (ms : List ExternalLinkClusterMapping) (m : ExternalLinkClusterMapping) :
    (ms.map (fun r => if r.Id = m.Id then m else r)).map (·.Id) = ms.map (·.Id) := by
  rw [List.map_map]
  apply List.map_congr_left
  intro r _
  by_cases h : r.Id = m.Id
  · simp [h]
  · simp [h]

/-- Effect of the reconciliation loop when no repository call fails.  The fetched
slice `all` must consist of rows of the table (`hsub`, `hinv`).  The table becomes
`map G` of itself followed by the inserted rows `new`: `G` keeps the stable columns
of every row, activates the rows that a requested cluster id reuses and leaves the
others alone; one row is inserted for each requested cluster id that reuses nothing. -/
theorem reconcile_ok (request : ExternalLinkDto) (S : List Int) :
    ∀ (all : List ExternalLinkClusterMapping) (e : Env), e.NoFaults →
    (∀ m ∈ all, m.Id ∈ e.store.mappings.map (·.Id)) →
    (∀ m ∈ all, ∀ r ∈ e.store.mappings, r.Id = m.Id → rowKey r = rowKey m) →
    ∃ (G : ExternalLinkClusterMapping → ExternalLinkClusterMapping)
      (new : List ExternalLinkClusterMapping) (e1 : Env),
      reconcile request all S e = (.ok (), e1) ∧ e1.NoFaults ∧
      e1.store.links = e.store.links ∧ e1.store.tools = e.store.tools ∧
      e1.store.mappings = e.store.mappings.map G ++ new ∧
      (∀ r ∈ e.store.mappings, rowKey (G r) = rowKey r) ∧
      (∀ r ∈ e.store.mappings, (∃ c ∈ S, reuseId all c = some r.Id) → (G r).Active = true) ∧
      (∀ r, (∀ c ∈ S, reuseId all c ≠ some r.Id) → G r = r) ∧
      new.map (fun n => (n.ExternalLinkId, n.ClusterId, n.Active)) =
        (S.filter (fun c => (reuseId all c).isNone)).map (fun c => (request.Id, c, true)) ∧
      (∀ n ∈ new, n.Id ∉ e.store.mappings.map (·.Id)) ∧ (new.map (·.Id)).Nodup := by
  induction S with
  | nil =>
    intro all e he _ _
    exact ⟨id, [], e, rfl, he, rfl, rfl, by simp, by simp, by simp, by simp, by simp,
      by simp, by simp⟩
  | cons c rest ih =>
    intro all e he hsub hinv
    have h1 : (timeNow e).2.NoFaults := noFaults_timeNow he
    cases hre : reuseId all c with
    | some i =>
      obtain ⟨model, hmem, hmid, _, hpos, hf⟩ := reuseId_some hre
      have hpos1 : 0 < model.Id := hmid ▸ hpos
      obtain ⟨model1, hmodel1⟩ : ∃ x : ExternalLinkClusterMapping,
        x = { model with Active := true, UpdatedOn := (timeNow e).1,
                         UpdatedBy := request.UserId } := ⟨_, rfl⟩
      have hk : rowKey model1 = rowKey model := by rw [hmodel1]; rfl
      have hact : model1.Active = true := by rw [hmodel1]
      have hid1 : model1.Id = model.Id := rowKey_id hk
      obtain ⟨all1, hall1⟩ : ∃ x, x = setFirst (fun model => c == model.ClusterId)
        (fun _ => model1) all := ⟨_, rfl⟩
      have hkeys : all1.map rowKey = all.map rowKey := by
        rw [hall1]; exact setFirst_rowKey hf hk
      obtain ⟨e0, he0⟩ : ∃ x, x = (timeNow e).2.pop.setMappings
        (e.store.mappings.map (fun r => if r.Id = model1.Id then model1 else r)) := ⟨_, rfl⟩
      have hstep : reconcile request all (c :: rest) e = reconcile request all1 rest e0 := by
        rw [reconcile_cons_reuse request all c rest e model hf hpos1, ← hmodel1,
          mappingUpdate_ok h1, hall1, he0]
        rfl
      have he0nf : e0.NoFaults := by
        rw [he0]; exact noFaults_setMappings (noFaults_pop h1) _
      have he0m : e0.store.mappings =
          e.store.mappings.map (fun r => if r.Id = model1.Id then model1 else r) := by
        rw [he0]; rfl
      have he0l : e0.store.links = e.store.links := by rw [he0]; rfl
      have he0t : e0.store.tools = e.store.tools := by rw [he0]; rfl
      have hrow : ∀ r ∈ e.store.mappings, r.Id = model.Id → rowKey r = rowKey model :=
        fun r hr h => hinv model hmem r hr h
      have hsub0 : ∀ m ∈ all1, m.Id ∈ e0.store.mappings.map (·.Id) := by
        intro m hm
        obtain ⟨m0, hm0, hk0⟩ := mem_of_map_rowKey_eq hkeys hm
        rw [he0m, map_id_replace, ← rowKey_id hk0]
        exact hsub m0 hm0
      have hinv0 : ∀ m ∈ all1, ∀ r ∈ e0.store.mappings, r.Id = m.Id → rowKey r = rowKey m := by
        intro m hm r hr hrid
        obtain ⟨m0, hm0, hk0⟩ := mem_of_map_rowKey_eq hkeys hm
        rw [he0m] at hr
        obtain ⟨r0, hr0, hr0e⟩ := List.mem_map.1 hr
        by_cases hc : r0.Id = model1.Id
        · simp only [hc, if_true] at hr0e
          subst hr0e
          have e1 := hrow r0 hr0 (hc.trans hid1)
          have e2 := hinv m0 hm0 r0 hr0 (by rw [hc, hrid, rowKey_id hk0])
          rw [hk, ← e1, e2, hk0]
        · simp only [hc, if_false] at hr0e
          subst hr0e
          rw [← hk0]
          exact hinv m0 hm0 r0 hr0 (by rw [hrid, rowKey_id hk0])
      obtain ⟨G, new, e1, hrun, hnf, hl, ht, hm, hG0, hG1, hG2, hnew, hfresh, hnd⟩ :=
        ih all1 e0 he0nf hsub0 hinv0
      have hreuse : ∀ c1, reuseId all1 c1 = reuseId all c1 := reuseId_congr all1 all hkeys
      refine ⟨fun r => G (if r.Id = model1.Id then model1 else r), new, e1,
        hstep.trans hrun, hnf, hl.trans he0l, ht.trans he0t, ?_, ?_, ?_, ?_, ?_, ?_, hnd⟩
      · rw [hm, he0m, List.map_map]; rfl
      · intro r hr
        have hr0 : (if r.Id = model1.Id then model1 else r) ∈ e0.store.mappings := by
          rw [he0m]; exact List.mem_map_of_mem _ hr
        rw [hG0 _ hr0]
        by_cases hc : r.Id = model1.Id
        · simp only [hc, if_true]
          rw [hk, hrow r hr (hc.trans hid1)]
        · simp only [hc, if_false]
      · intro r hr hex
        have hr0 : (if r.Id = model1.Id then model1 else r) ∈ e0.store.mappings := by
          rw [he0m]; exact List.mem_map_of_mem _ hr
        have hidr : (if r.Id = model1.Id then model1 else r).Id = r.Id := by
          by_cases hc : r.Id = model1.Id
          · simp [hc]
          · simp [hc]
        by_cases hlater : ∃ c1 ∈ rest, reuseId all1 c1 = some r.Id
        · obtain ⟨c1, hc1, hc1r⟩ := hlater
          exact hG1 _ hr0 ⟨c1, hc1, by rw [hidr]; exact hc1r⟩
        · have hfix := hG2 (if r.Id = model1.Id then model1 else r)
            (fun c1 hc1 h => hlater ⟨c1, hc1, by rw [← hidr]; exact h⟩)
          show (G (if r.Id = model1.Id then model1 else r)).Active = true
          rw [hfix]
          obtain ⟨c1, hc1, hc1r⟩ := hex
          rcases List.mem_cons.1 hc1 with hcc | hcc
          · subst hcc
            rw [hre] at hc1r
            have : r.Id = model1.Id := by
              rw [hid1, hmid]; exact (Option.some.inj hc1r).symm
            simp only [this, if_true]
            exact hact
          · exact absurd ⟨c1, hcc, (hreuse c1).trans hc1r⟩ hlater
      · intro r hr
        have hne : r.Id ≠ model1.Id := by
          intro h
          apply hr c (by simp)
          rw [hre, h, hid1, hmid]
        simp only [hne, if_false]
        exact hG2 r (fun c1 hc1 h => hr c1 (by simp [hc1]) ((hreuse c1).symm.trans h))
      · rw [hnew]
        simp only [hreuse, List.filter_cons, hre, Option.isNone_some]
        rfl
      · intro n hn
        have := hfresh n hn
        rwa [he0m, map_id_replace] at this
    | none =>
      have h2 : (timeNow (timeNow e).2).2.NoFaults := noFaults_timeNow h1
      obtain ⟨n, hn⟩ : ∃ x : ExternalLinkClusterMapping,
        x = { Id := freshId (e.store.mappings.map (·.Id)), ExternalLinkId := request.Id,
              ClusterId := c, Active := true,
              CreatedOn := (timeNow e).1, CreatedBy := request.UserId,
              UpdatedOn := (timeNow (timeNow e).2).1, UpdatedBy := request.UserId } := ⟨_, rfl⟩
      have hnid : n.Id = freshId (e.store.mappings.map (·.Id)) := by rw [hn]
      have hnfresh : n.Id ∉ e.store.mappings.map (·.Id) := by
        rw [hnid]; exact freshId_not_mem _
      obtain ⟨e0, he0⟩ : ∃ x, x = (timeNow (timeNow e).2).2.pop.setMappings
        (e.store.mappings ++ [n]) := ⟨_, rfl⟩
      have hstep : reconcile request all (c :: rest) e = reconcile request all rest e0 := by
        rw [reconcile_cons_insert request all c rest e hre, mappingSave_ok h2, he0, hn]
        rfl
      have he0nf : e0.NoFaults := by
        rw [he0]; exact noFaults_setMappings (noFaults_pop h2) _
      have he0m : e0.store.mappings = e.store.mappings ++ [n] := by rw [he0]; rfl
      have he0l : e0.store.links = e.store.links := by rw [he0]; rfl
      have he0t : e0.store.tools = e.store.tools := by rw [he0]; rfl
      have hsub0 : ∀ m ∈ all, m.Id ∈ e0.store.mappings.map (·.Id) := by
        intro m hm
        rw [he0m, List.map_append]
        exact List.mem_append_left _ (hsub m hm)
      have hinv0 : ∀ m ∈ all, ∀ r ∈ e0.store.mappings, r.Id = m.Id → rowKey r = rowKey m := by
        intro m hm r hr hrid
        rw [he0m] at hr
        rcases List.mem_append.1 hr with h | h
        · exact hinv m hm r h hrid
        · simp only [List.mem_singleton] at h
          subst h
          exact absurd (hrid ▸ hsub m hm) hnfresh
      obtain ⟨G, new, e1, hrun, hnf, hl, ht, hm, hG0, hG1, hG2, hnew, hfresh, hnd⟩ :=
        ih all e0 he0nf hsub0 hinv0
      have hGn : G n = n := by
        apply hG2
        intro c1 _ h
        obtain ⟨m, hmm, hmi, _⟩ := reuseId_some h
        exact hnfresh (hmi ▸ hsub m hmm)
      have hsplit : ∀ x ∈ new, x.Id ∉ e.store.mappings.map (·.Id) ∧ x.Id ≠ n.Id := by
        intro x hx
        have := hfresh x hx
        rw [he0m, List.map_append, List.mem_append, not_or] at this
        exact ⟨this.1, by simpa using this.2⟩
      refine ⟨G, n :: new, e1, hstep.trans hrun, hnf, hl.trans he0l, ht.trans he0t,
        ?_, ?_, ?_, ?_, ?_, ?_, ?_⟩
      · rw [hm, he0m, List.map_append, List.append_assoc]
        simp [hGn]
      · intro r hr
        exact hG0 r (by rw [he0m]; exact List.mem_append_left _ hr)
      · intro r hr hex
        apply hG1 r (by rw [he0m]; exact List.mem_append_left _ hr)
        obtain ⟨c1, hc1, hc1r⟩ := hex
        rcases List.mem_cons.1 hc1 with hcc | hcc
        · subst hcc
          rw [hre] at hc1r
          exact absurd hc1r (by simp)
        · exact ⟨c1, hcc, hc1r⟩
      · intro r hr
        exact hG2 r (fun c1 hc1 => hr c1 (by simp [hc1]))
      · simp only [List.map_cons, hnew, List.filter_cons, hre, Option.isNone_none, if_true]
        rw [hn]
      · intro x hx
        rcases List.mem_cons.1 hx with h | h
        · rw [h]; exact hnfresh
        · exact (hsplit x h).1
      · simp only [List.map_cons, List.nodup_cons]
        refine ⟨?_, hnd⟩
        intro h
        obtain ⟨x, hx, hxe⟩ := List.mem_map.1 h
        exact (hsplit x hx).2 hxe

/-! ## Primary keys -/

theorem eq_of_id_eq {ms : List ExternalLinkClusterMapping} (hk : (ms.map (·.Id)).Nodup)
    {a b : ExternalLinkClusterMapping} (ha : a ∈ ms) (hb : b ∈ ms) (h : a.Id = b.Id) : a = b :=
  List.inj_on_of_nodup_map hk ha hb h

/-- The tombstone loop on rows `snap` of a table with primary keys: the fetched
rows become inactive and keep their stable columns, every other row is untouched. -/
theorem deactivateAll_rows (userId : Int) (snap : List ExternalLinkClusterMapping)
    (e : Env) (he : e.NoFaults) (hk : e.store.MappingKeys)
    (hsnap : ∀ m ∈ snap, m ∈ e.store.mappings) :
    ∃ (G : ExternalLinkClusterMapping → ExternalLinkClusterMapping)
      (snap1 : List ExternalLinkClusterMapping) (e1 : Env),
      deactivateAll userId snap e = (.ok snap1, e1) ∧ e1.NoFaults ∧
      e1.store.links = e.store.links ∧ e1.store.tools = e.store.tools ∧
      e1.store.mappings = e.store.mappings.map G ∧
      snap1.map rowKey = snap.map rowKey ∧
      (∀ r ∈ e.store.mappings, r ∈ snap → rowKey (G r) = rowKey r ∧ (G r).Active = false) ∧
      (∀ r ∈ e.store.mappings, r ∉ snap → G r = r) ∧
      (∀ r ∈ e.store.mappings, rowKey (G r) = rowKey r) := by
  obtain ⟨G, snap1, e1, hrun, hnf, hl, ht, hm, hkeys, hG1, hG2⟩ := deactivateAll_ok userId snap e he
  have hA : ∀ r ∈ e.store.mappings, r ∈ snap → rowKey (G r) = rowKey r ∧ (G r).Active = false := by
    intro r hr hrs
    obtain ⟨m, hms, hmid, hkm, hact⟩ := hG2 r ⟨r, hrs, rfl⟩
    have : m = r := eq_of_id_eq hk (hsnap m hms) hr hmid
    subst this
    exact ⟨hkm, hact⟩
  have hB : ∀ r ∈ e.store.mappings, r ∉ snap → G r = r := by
    intro r hr hrs
    apply hG1
    intro m hms hmid
    have : m = r := eq_of_id_eq hk (hsnap m hms) hr hmid
    exact hrs (this ▸ hms)
  refine ⟨G, snap1, e1, hrun, hnf, hl, ht, hm, hkeys, hA, hB, ?_⟩
  intro r hr
  by_cases hrs : r ∈ snap
  · exact (hA r hr hrs).1
  · rw [hB r hr hrs]

theorem linkFindOne_ok {e : Env} (h : e.NoFaults) (id : Int) (found : ExternalLink)
    (hf : e.store.links.find? (fun l => l.Id == id) = some found) :
    LinkRepository.FindOne id e = (.ok found, e.pop) := by
  simp [LinkRepository.FindOne, nextCall_of_noFaults h, hf]

theorem mappingFindAllByLink_ok {e : Env} (h : e.NoFaults) (id : Int) :
    MappingRepository.FindAllByExternalLinkId id e =
      (.ok (e.store.mappings.filter (fun m => m.ExternalLinkId == id)), e.pop) := by
  simp [MappingRepository.FindAllByExternalLinkId, nextCall_of_noFaults h]

theorem mappingFindAllActiveByLink_ok {e : Env} (h : e.NoFaults) (id : Int) :
    MappingRepository.FindAllActiveByExternalLinkId id e =
      (.ok (e.store.mappings.filter (fun m => m.ExternalLinkId == id && m.Active)), e.pop) := by
  simp [MappingRepository.FindAllActiveByExternalLinkId, nextCall_of_noFaults h]

/-- The link record written by `Update` (lines 212-217). -/
theorem Update_shape (request : ExternalLinkDto) (e : Env) (he : e.NoFaults)
    (hk : e.store.MappingKeys) (found : ExternalLink)
    (hf : e.store.links.find? (fun l => l.Id == request.Id) = some found) :
    ∃ (G : ExternalLinkClusterMapping → ExternalLinkClusterMapping)
      (new : List ExternalLinkClusterMapping) (e1 : Env),
      Update request e = (.ok { Success := true }, e1) ∧ e1.NoFaults ∧
      e1.store.tools = e.store.tools ∧
      e1.store.links = e.store.links.map (fun l => if l.Id = found.Id then
        { found with Name := request.Name, Url := request.Url, Active := true,
                     ExternalLinkMonitoringToolId := request.MonitoringToolId,
                     UpdatedBy := request.UserId, UpdatedOn := e.clock } else l) ∧
      e1.store.mappings = e.store.mappings.map G ++ new ∧
      (∀ r ∈ e.store.mappings, rowKey (G r) = rowKey r) ∧
      (∀ r ∈ e.store.mappings, r.ExternalLinkId ≠ request.Id → G r = r) ∧
      (∀ r ∈ e.store.mappings, r.ExternalLinkId = request.Id →
        ((G r).Active = true ↔ ∃ c ∈ request.ClusterIds,
          reuseId (e.store.mappings.filter (fun m => m.ExternalLinkId == request.Id)) c
            = some r.Id)) ∧
      new.map (fun n => (n.ExternalLinkId, n.ClusterId, n.Active)) =
        (request.ClusterIds.filter (fun c =>
          (reuseId (e.store.mappings.filter (fun m => m.ExternalLinkId == request.Id)) c).isNone)).map
          (fun c => (request.Id, c, true)) ∧
      (∀ n ∈ new, n.Id ∉ e.store.mappings.map (·.Id)) ∧ (new.map (·.Id)).Nodup := by
  obtain ⟨snap, hsnap⟩ : ∃ x, x = e.store.mappings.filter (fun m => m.ExternalLinkId == request.Id) :=
    ⟨_, rfl⟩
  rw [← hsnap]
  have hp : e.pop.NoFaults := noFaults_pop he
  have ht : (timeNow e.pop).2.NoFaults := noFaults_timeNow hp
  obtain ⟨eA, heA⟩ : ∃ x, x = (timeNow e.pop).2.pop.setLinks
      (e.store.links.map (fun l => if l.Id = found.Id then
        { found with Name := request.Name, Url := request.Url, Active := true,
                     ExternalLinkMonitoringToolId := request.MonitoringToolId,
                     UpdatedBy := request.UserId, UpdatedOn := e.clock } else l)) := ⟨_, rfl⟩
  have heAnf : eA.NoFaults := by rw [heA]; exact noFaults_setLinks (noFaults_pop ht) _
  have heAm : eA.store.mappings = e.store.mappings := by rw [heA]; rfl
  have heAt : eA.store.tools = e.store.tools := by rw [heA]; rfl
  have heAl : eA.store.links = e.store.links.map (fun l => if l.Id = found.Id then
        { found with Name := request.Name, Url := request.Url, Active := true,
                     ExternalLinkMonitoringToolId := request.MonitoringToolId,
                     UpdatedBy := request.UserId, UpdatedOn := e.clock } else l) := by
    rw [heA]; rfl
  have hpk : eA.pop.store.MappingKeys := by
    show (eA.store.mappings.map (·.Id)).Nodup
    rw [heAm]; exact hk
  have hsnapmem : ∀ m ∈ snap, m ∈ eA.pop.store.mappings := by
    intro m hm
    show m ∈ eA.store.mappings
    rw [heAm]
    rw [hsnap] at hm
    exact List.mem_of_mem_filter hm
  obtain ⟨G1, snap1, eB, hrunB, hnfB, hlB, htB, hmB, hkeysB, hB1, hB2, hB3⟩ :=
    deactivateAll_rows request.UserId snap eA.pop (noFaults_pop heAnf) hpk hsnapmem
  have hmB0 : eB.store.mappings = e.store.mappings.map G1 := by
    rw [hmB]; show eA.store.mappings.map G1 = _; rw [heAm]
  have hB1' : ∀ r ∈ e.store.mappings, r ∈ snap → rowKey (G1 r) = rowKey r ∧ (G1 r).Active = false :=
    fun r hr => hB1 r (by show r ∈ eA.store.mappings; rw [heAm]; exact hr)
  have hB2' : ∀ r ∈ e.store.mappings, r ∉ snap → G1 r = r :=
    fun r hr => hB2 r (by show r ∈ eA.store.mappings; rw [heAm]; exact hr)
  have hB3' : ∀ r ∈ e.store.mappings, rowKey (G1 r) = rowKey r :=
    fun r hr => hB3 r (by show r ∈ eA.store.mappings; rw [heAm]; exact hr)
  have hidsB : eB.store.mappings.map (·.Id) = e.store.mappings.map (·.Id) := by
    rw [hmB0, List.map_map]
    apply List.map_congr_left
    intro r hr
    exact rowKey_id (hB3' r hr)
  have hinSnap : ∀ r ∈ e.store.mappings, (r ∈ snap ↔ r.ExternalLinkId = request.Id) := by
    intro r hr
    rw [hsnap, List.mem_filter]
    simp [hr]
  have hsub : ∀ m ∈ snap1, m.Id ∈ eB.store.mappings.map (·.Id) := by
    intro m hm
    obtain ⟨m0, hm0, hk0⟩ := mem_of_map_rowKey_eq hkeysB hm
    rw [hidsB, ← rowKey_id hk0]
    exact List.mem_map_of_mem _ (by rw [hsnap] at hm0; exact List.mem_of_mem_filter hm0)
  have hinv : ∀ m ∈ snap1, ∀ r ∈ eB.store.mappings, r.Id = m.Id → rowKey r = rowKey m := by
    intro m hm r1 hr1 hid
    obtain ⟨m0, hm0, hk0⟩ := mem_of_map_rowKey_eq hkeysB hm
    rw [hmB0] at hr1
    obtain ⟨r, hr, hre⟩ := List.mem_map.1 hr1
    subst hre
    have hm0mem : m0 ∈ e.store.mappings := by rw [hsnap] at hm0; exact List.mem_of_mem_filter hm0
    have : r = m0 := eq_of_id_eq hk hr hm0mem
      (by rw [← rowKey_id (hB3' r hr), hid, rowKey_id hk0])
    subst this
    rw [hB3' r hr, hk0]
  obtain ⟨G2, new, eC, hrunC, hnfC, hlC, htC, hmC, hC0, hC1, hC2, hnew, hfresh, hnd⟩ :=
    reconcile_ok request request.ClusterIds snap1 eB hnfB hsub hinv
  have hreuse : ∀ c, reuseId snap1 c = reuseId snap c := reuseId_congr snap1 snap hkeysB
  have hrun : Update request e = (.ok { Success := true }, eC) := by
    have hs : eA.store.mappings.filter (fun m => m.ExternalLinkId == request.Id) = snap := by
      rw [heAm, hsnap]
    unfold Update
    rw [linkFindOne_ok he request.Id found hf]
    simp only []
    rw [linkUpdate_ok ht]
    simp only []
    erw [← heA]
    rw [mappingFindAllByLink_ok heAnf]
    simp only []
    rw [hs, hrunB]
    simp only []
    rw [hrunC]
  refine ⟨fun r => G2 (G1 r), new, eC, hrun, hnfC, ?_, ?_, ?_, ?_, ?_, ?_, ?_, ?_, hnd⟩
  · rw [htC, htB]; exact heAt
  · rw [hlC, hlB]; exact heAl
  · rw [hmC, hmB0, List.map_map]; rfl
  · intro r hr
    have : G1 r ∈ eB.store.mappings := by rw [hmB0]; exact List.mem_map_of_mem _ hr
    show rowKey (G2 (G1 r)) = rowKey r
    rw [hC0 _ this, hB3' r hr]
  · intro r hr hne
    have hns : r ∉ snap := fun h => hne ((hinSnap r hr).1 h)
    show G2 (G1 r) = r
    rw [hB2' r hr hns]
    apply hC2
    intro c _ h
    rw [hreuse] at h
    obtain ⟨m, hm, hmid, _⟩ := reuseId_some h
    have hmm : m ∈ e.store.mappings := by rw [hsnap] at hm; exact List.mem_of_mem_filter hm
    have : m = r := eq_of_id_eq hk hmm hr hmid
    exact hns (this ▸ hm)
  · intro r hr hl
    have hs : r ∈ snap := (hinSnap r hr).2 hl
    have hmem : G1 r ∈ eB.store.mappings := by rw [hmB0]; exact List.mem_map_of_mem _ hr
    have hid : (G1 r).Id = r.Id := rowKey_id (hB3' r hr)
    show (G2 (G1 r)).Active = true ↔ _
    constructor
    · intro hact
      by_contra hno
      have hfix : G2 (G1 r) = G1 r := by
        apply hC2
        intro c hc h
        exact hno ⟨c, hc, by rw [← hreuse, h, hid]⟩
      rw [hfix, (hB1' r hr hs).2] at hact
      exact Bool.false_ne_true hact
    · rintro ⟨c, hc, h⟩
      exact hC1 _ hmem ⟨c, hc, by rw [hreuse, h, hid]⟩
  · rw [hnew]
    simp only [hreuse]
  · intro n hn
    have := hfresh n hn
    rwa [hidsB] at this

/-! ## C1: reconciliation of the mapping rows by `Update` -/

/-- C1. `Update` reconciles the mappings of the link: in a store whose mapping rows
have distinct identities and that holds the link `request.Id`, when no repository
call fails, `Update` succeeds; afterwards the cluster ids of the active mapping rows
of the link are exactly the requested cluster ids, and every mapping row the link
had before is still there (same identity, link and cluster), inactive when its
cluster id is not requested. -/
theorem Update_reconciles_mappings (request : ExternalLinkDto) (e : Env)
    (hcalls : e.NoFaults) (hkeys : e.store.MappingKeys)
    (hlink : ∃ l ∈ e.store.links, l.Id = request.Id) :
    ∃ e1, Update request e = (.ok { Success := true }, e1) ∧
      (∀ c, (∃ r ∈ e1.store.mappings,
          r.ExternalLinkId = request.Id ∧ r.Active = true ∧ r.ClusterId = c) ↔
        c ∈ request.ClusterIds) ∧
      (∀ r ∈ e.store.mappings, r.ExternalLinkId = request.Id →
        ∃ r1 ∈ e1.store.mappings, r1.Id = r.Id ∧ r1.ExternalLinkId = r.ExternalLinkId ∧
          r1.ClusterId = r.ClusterId ∧ (r.ClusterId ∉ request.ClusterIds → r1.Active = false)) := by
  obtain ⟨l, hl, hlid⟩ := hlink
  have hsome : (e.store.links.find? (fun l => l.Id == request.Id)).isSome := by
    rw [List.find?_isSome]
    exact ⟨l, hl, by simpa using hlid⟩
  obtain ⟨found, hf⟩ := Option.isSome_iff_exists.1 hsome
  obtain ⟨G, new, e1, hrun, _, _, _, hm, hG0, hG1, hG2, hnew, _, _⟩ :=
    Update_shape request e hcalls hkeys found hf
  have hkey : ∀ r ∈ e.store.mappings, (G r).Id = r.Id ∧
      (G r).ExternalLinkId = r.ExternalLinkId ∧ (G r).ClusterId = r.ClusterId := by
    intro r hr
    have h := hG0 r hr
    exact ⟨congrArg (·.1) h, congrArg (·.2.1) h, congrArg (·.2.2.1) h⟩
  have hcl : ∀ r ∈ e.store.mappings, r.ExternalLinkId = request.Id → (G r).Active = true →
      r.ClusterId ∈ request.ClusterIds := by
    intro r hr hrl hact
    obtain ⟨c, hc, hre⟩ := (hG2 r hr hrl).1 hact
    obtain ⟨m, hmm, hmid, hmc, _, _⟩ := reuseId_some hre
    have : m = r := eq_of_id_eq hkeys (List.mem_of_mem_filter hmm) hr hmid
    subst this
    rw [hmc]; exact hc
  refine ⟨e1, hrun, ?_, ?_⟩
  · intro c
    constructor
    · rintro ⟨r1, hr1, hr1l, hr1a, hr1c⟩
      rw [hm] at hr1
      rcases List.mem_append.1 hr1 with h | h
      · obtain ⟨r, hr, hre⟩ := List.mem_map.1 h
        subst hre
        obtain ⟨_, k2, k3⟩ := hkey r hr
        rw [← hr1c, k3]
        exact hcl r hr (k2 ▸ hr1l) hr1a
      · have : (r1.ExternalLinkId, r1.ClusterId, r1.Active) ∈
            new.map (fun n => (n.ExternalLinkId, n.ClusterId, n.Active)) :=
          List.mem_map_of_mem _ h
        rw [hnew] at this
        obtain ⟨c1, hc1, hce⟩ := List.mem_map.1 this
        have : c1 = r1.ClusterId := congrArg (·.2.1) hce
        rw [← hr1c, ← this]
        exact List.mem_of_mem_filter hc1
    · intro hc
      cases hre : reuseId (e.store.mappings.filter (fun m => m.ExternalLinkId == request.Id)) c with
      | some i =>
        obtain ⟨m, hmm, hmid, hmc, _, _⟩ := reuseId_some hre
        have hmmem : m ∈ e.store.mappings := List.mem_of_mem_filter hmm
        have hml : m.ExternalLinkId = request.Id := by
          simpa using (List.mem_filter.1 hmm).2
        obtain ⟨_, k2, k3⟩ := hkey m hmmem
        refine ⟨G m, ?_, k2.trans hml, ?_, k3.trans hmc⟩
        · rw [hm]; exact List.mem_append_left _ (List.mem_map_of_mem _ hmmem)
        · exact (hG2 m hmmem hml).2 ⟨c, hc, by rw [hre, hmid]⟩
      | none =>
        have : (request.Id, c, true) ∈
            new.map (fun n => (n.ExternalLinkId, n.ClusterId, n.Active)) := by
          rw [hnew]
          exact List.mem_map_of_mem _ (List.mem_filter.2 ⟨hc, by simp [hre]⟩)
        obtain ⟨n, hn, hne⟩ := List.mem_map.1 this
        refine ⟨n, ?_, congrArg (·.1) hne, congrArg (·.2.2) hne, congrArg (·.2.1) hne⟩
        rw [hm]; exact List.mem_append_right _ hn
  · intro r hr hrl
    obtain ⟨k1, k2, k3⟩ := hkey r hr
    refine ⟨G r, ?_, k1, k2, k3, ?_⟩
    · rw [hm]; exact List.mem_append_left _ (List.mem_map_of_mem _ hr)
    · intro hnot
      by_contra hact
      exact hnot (hcl r hr hrl (by simpa using hact))

/-- C1, at the spec's example: link 1 mapped to {10, 30} is updated to {10, 20}; the
rows for 10 and 20 are active, the row for 30 is still there and inactive. -/
theorem Update_reconciles_mappings_witness :
    (envAC.NoFaults ∧ envAC.store.MappingKeys ∧ ∃ l ∈ envAC.store.links, l.Id = reqAB.Id) ∧
    (∃ e1, Update reqAB envAC = (.ok { Success := true }, e1) ∧
      (∀ c, (∃ r ∈ e1.store.mappings,
          r.ExternalLinkId = reqAB.Id ∧ r.Active = true ∧ r.ClusterId = c) ↔
        c ∈ reqAB.ClusterIds) ∧
      (∀ r ∈ envAC.store.mappings, r.ExternalLinkId = reqAB.Id →
        ∃ r1 ∈ e1.store.mappings, r1.Id = r.Id ∧ r1.ExternalLinkId = r.ExternalLinkId ∧
          r1.ClusterId = r.ClusterId ∧ (r.ClusterId ∉ reqAB.ClusterIds → r1.Active = false))) ∧
    (Update reqAB envAC).2.store.mappings.map (fun r => (r.Id, r.ClusterId, r.Active)) =
      [(1, 10, true), (2, 30, false), (3, 20, true)] :=
  ⟨⟨by decide, by decide, by decide⟩,
    Update_reconciles_mappings reqAB envAC (by decide) (by decide) (by decide), by decide⟩

/-! ## Frame lemmas, whatever the repository calls answer -/

theorem nextCall_store (e : Env) : e.nextCall.2.store = e.store := by
  unfold Env.nextCall
  cases e.faults <;> rfl

theorem nextCall_clock (e : Env) : e.nextCall.2.clock = e.clock := by
  unfold Env.nextCall
  cases e.faults <;> rfl

theorem linkFindOne_found (id : Int) (e : Env) (l : ExternalLink) (e1 : Env)
    (h : LinkRepository.FindOne id e = (.ok l, e1)) :
    e.store.links.find? (fun l => l.Id == id) = some l ∧ e1.store = e.store ∧
      e1.clock = e.clock := by
  unfold LinkRepository.FindOne at h
  have hs := nextCall_store e
  have hck := nextCall_clock e
  rcases hc : e.nextCall with ⟨b, e2⟩
  rw [hc] at h hs hck
  cases b
  · simp only [] at h hs hck
    rw [hs] at h
    cases hf : e.store.links.find? (fun l => l.Id == id) with
    | none => simp [hf] at h
    | some l1 =>
      simp only [hf, Prod.mk.injEq, Except.ok.injEq] at h
      obtain ⟨h1, h2⟩ := h
      subst h1 h2
      exact ⟨rfl, hs, hck⟩
  · simp at h

theorem mappingUpdate_frame (m : ExternalLinkClusterMapping) (e : Env) :
    (MappingRepository.Update m e).2.store.links = e.store.links ∧
    (MappingRepository.Update m e).2.store.tools = e.store.tools ∧
    (MappingRepository.Update m e).2.store.mappings.map (·.Id) = e.store.mappings.map (·.Id) := by
  unfold MappingRepository.Update
  have h := nextCall_store e
  rcases hc : e.nextCall with ⟨b, e1⟩
  rw [hc] at h
  simp only [] at h
  cases b
  · simp only [links_setMappings, tools_setMappings, mappings_setMappings, map_id_replace, h]
    trivial
  · simp only [h]; trivial

theorem mappingSave_frame (m : ExternalLinkClusterMapping) (e : Env) :
    (MappingRepository.Save m e).2.store.links = e.store.links ∧
    (MappingRepository.Save m e).2.store.tools = e.store.tools := by
  unfold MappingRepository.Save
  have h := nextCall_store e
  rcases hc : e.nextCall with ⟨b, e1⟩
  rw [hc] at h
  simp only [] at h
  cases b
  · simp only [links_setMappings, tools_setMappings, h]; trivial
  · simp only [h]; trivial

theorem deactivateAll_frame (userId : Int) (snap : List ExternalLinkClusterMapping) :
    ∀ e : Env, (deactivateAll userId snap e).2.store.links = e.store.links ∧
      (deactivateAll userId snap e).2.store.tools = e.store.tools ∧
      (deactivateAll userId snap e).2.store.mappings.map (·.Id) = e.store.mappings.map (·.Id) := by
  induction snap with
  | nil => intro e; exact ⟨rfl, rfl, rfl⟩
  | cons m rest ih =>
    intro e
    have hU := mappingUpdate_frame
      { m with Active := false, UpdatedBy := userId, UpdatedOn := (timeNow e).1 } (timeNow e).2
    simp only [store_timeNow] at hU
    unfold deactivateAll
    simp only []
    rcases hc : MappingRepository.Update
      { m with Active := false, UpdatedBy := userId, UpdatedOn := (timeNow e).1 } (timeNow e).2
      with ⟨r, e1⟩
    rw [hc] at hU
    simp only [] at hU
    cases r with
    | error err => exact hU
    | ok u =>
      simp only []
      have hI := ih e1
      rcases hd : deactivateAll userId rest e1 with ⟨r2, e2⟩
      rw [hd] at hI
      simp only [] at hI
      cases r2 with
      | error err => exact ⟨hI.1.trans hU.1, hI.2.1.trans hU.2.1, hI.2.2.trans hU.2.2⟩
      | ok v => exact ⟨hI.1.trans hU.1, hI.2.1.trans hU.2.1, hI.2.2.trans hU.2.2⟩

theorem reconcile_frame (request : ExternalLinkDto) (S : List Int) :
    ∀ (all : List ExternalLinkClusterMapping) (e : Env),
      (reconcile request all S e).2.store.links = e.store.links ∧
      (reconcile request all S e).2.store.tools = e.store.tools := by
  induction S with
  | nil => intro all e; exact ⟨rfl, rfl⟩
  | cons c rest ih =>
    intro all e
    have hsave : ∀ (m : ExternalLinkClusterMapping) (e0 : Env), e0.store = e.store →
        (match MappingRepository.Save m e0 with
          | (.error _, e1) => ((.error clusterIdFailed : Except Error Unit), e1)
          | (.ok _, e1) => reconcile request all rest e1).2.store.links = e.store.links ∧
        (match MappingRepository.Save m e0 with
          | (.error _, e1) => ((.error clusterIdFailed : Except Error Unit), e1)
          | (.ok _, e1) => reconcile request all rest e1).2.store.tools = e.store.tools := by
      intro m e0 h0
      have hS := mappingSave_frame m e0
      rcases hc : MappingRepository.Save m e0 with ⟨r, e1⟩
      rw [hc] at hS
      simp only [h0] at hS
      cases r with
      | error err => exact hS
      | ok v =>
        have hI := ih all e1
        exact ⟨hI.1.trans hS.1, hI.2.trans hS.2⟩
    cases hre : reuseId all c with
    | some i =>
      obtain ⟨model, _, hmid, _, hpos, hf⟩ := reuseId_some hre
      rw [reconcile_cons_reuse request all c rest e model hf (hmid ▸ hpos)]
      have hU := mappingUpdate_frame
        { model with Active := true, UpdatedOn := (timeNow e).1, UpdatedBy := request.UserId }
        (timeNow e).2
      rcases hc : MappingRepository.Update
        { model with Active := true, UpdatedOn := (timeNow e).1, UpdatedBy := request.UserId }
        (timeNow e).2 with ⟨r, e1⟩
      rw [hc] at hU
      simp only [store_timeNow] at hU
      cases r with
      | error err => exact ⟨hU.1, hU.2.1⟩
      | ok v =>
        simp only []
        have hI := ih (setFirst (fun model => c == model.ClusterId)
          (fun _ => { model with Active := true, UpdatedOn := (timeNow e).1,
                                 UpdatedBy := request.UserId }) all) e1
        exact ⟨hI.1.trans hU.1, hI.2.trans hU.2.1⟩
    | none =>
      rw [reconcile_cons_insert request all c rest e hre]
      exact hsave _ _ rfl

theorem linkUpdate_result (t : ExternalLink) (e : Env) (u : Unit) (e1 : Env)
    (h : LinkRepository.Update t e = (.ok u, e1)) :
    e1.store.links = e.store.links.map (fun l => if l.Id = t.Id then t else l) ∧
    e1.store.mappings = e.store.mappings := by
  unfold LinkRepository.Update at h
  have hs := nextCall_store e
  rcases hc : e.nextCall with ⟨b, e2⟩
  rw [hc] at h hs
  simp only [] at hs
  cases b
  · simp only [Prod.mk.injEq] at h
    rw [← h.2, ← hs]
    exact ⟨rfl, rfl⟩
  · simp at h

theorem mappingFindAllByLink_store (id : Int) (e : Env) :
    (MappingRepository.FindAllByExternalLinkId id e).2.store = e.store := by
  unfold MappingRepository.FindAllByExternalLinkId
  have h := nextCall_store e
  rcases hc : e.nextCall with ⟨b, e1⟩
  rw [hc] at h
  cases b <;> exact h

/-- The link table after a successful `Update`: the record that `FindOne` returned,
with the request's fields, replaces the rows of its identity. -/
theorem Update_result_links (request : ExternalLinkDto) (e : Env)
    (resp : ExternalLinkApiResponse) (e1 : Env) (hok : Update request e = (.ok resp, e1)) :
    ∃ found, e.store.links.find? (fun l => l.Id == request.Id) = some found ∧
      e1.store.links = e.store.links.map (fun l => if l.Id = found.Id then
        { found with Name := request.Name, Url := request.Url, Active := true,
                     ExternalLinkMonitoringToolId := request.MonitoringToolId,
                     UpdatedBy := request.UserId, UpdatedOn := e.clock } else l) := by
  unfold Update at hok
  rcases hF : LinkRepository.FindOne request.Id e with ⟨rF, eF⟩
  rw [hF] at hok
  cases rF with
  | error err => simp at hok
  | ok found =>
    obtain ⟨hfound, hsF, hcF⟩ := linkFindOne_found request.Id e found eF hF
    simp only [] at hok
    have htime : (timeNow eF).1 = e.clock := hcF
    rw [htime] at hok
    rcases hU : LinkRepository.Update
      { found with Name := request.Name, Url := request.Url, Active := true,
                   ExternalLinkMonitoringToolId := request.MonitoringToolId,
                   UpdatedBy := request.UserId, UpdatedOn := e.clock } (timeNow eF).2
      with ⟨rU, eU⟩
    rw [hU] at hok
    cases rU with
    | error err => simp at hok
    | ok u =>
      obtain ⟨hUl, _⟩ := linkUpdate_result _ _ u eU hU
      simp only [store_timeNow, hsF] at hUl
      simp only [] at hok
      have hA := mappingFindAllByLink_store request.Id eU
      rcases hL : MappingRepository.FindAllByExternalLinkId request.Id eU with ⟨rL, eL⟩
      rw [hL] at hok hA
      simp only [] at hA
      cases rL with
      | error err => simp at hok
      | ok snap =>
        simp only [] at hok
        have hD := (deactivateAll_frame request.UserId snap eL).1
        rcases hDe : deactivateAll request.UserId snap eL with ⟨rD, eD⟩
        rw [hDe] at hok hD
        simp only [] at hD
        cases rD with
        | error err => simp at hok
        | ok all =>
          simp only [] at hok
          have hR := (reconcile_frame request request.ClusterIds all eD).1
          rcases hRe : reconcile request all request.ClusterIds eD with ⟨rR, eR⟩
          rw [hRe] at hok hR
          simp only [] at hR
          cases rR with
          | error err => simp at hok
          | ok v =>
            simp only [Prod.mk.injEq] at hok
            refine ⟨found, hfound, ?_⟩
            rw [← hok.2, hR, hD, hA, hUl]

/-! ## C2: `Update` of an unknown link -/

/-- C2. `Update` of a link id that no link record carries returns an error and
writes nothing: the link table and the mapping table are what they were, whatever
the repository calls answer; when the lookup itself is answered, the error is the
not-found error of `FindOne`. -/
theorem Update_unknown_link (request : ExternalLinkDto) (e : Env)
    (hmissing : ∀ l ∈ e.store.links, l.Id ≠ request.Id) :
    (∃ err, (Update request e).1 = .error err) ∧
    (Update request e).2.store.links = e.store.links ∧
    (Update request e).2.store.mappings = e.store.mappings ∧
    (e.NoFaults → (Update request e).1 = .error .noRows) := by
  have hnone : e.store.links.find? (fun l => l.Id == request.Id) = none := by
    rw [List.find?_eq_none]
    intro l hl
    simpa using hmissing l hl
  have hs := nextCall_store e
  have hrun : Update request e =
      (.error (if e.nextCall.1 = true then .dbError else .noRows), e.nextCall.2) := by
    unfold Update LinkRepository.FindOne
    rcases hc : e.nextCall with ⟨b, e1⟩
    rw [hc] at hs
    simp only [] at hs
    cases b
    · simp [hs, hnone]
    · simp
  refine ⟨⟨_, by rw [hrun]⟩, ?_, ?_, ?_⟩
  · rw [hrun]; exact congrArg (·.links) hs
  · rw [hrun]; exact congrArg (·.mappings) hs
  · intro he
    rw [hrun]
    simp [nextCall_of_noFaults he]

/-- C2, at a request for link 5 in a store that holds link 1 only. -/
theorem Update_unknown_link_witness :
    (∀ l ∈ envAC.store.links, l.Id ≠ ({ reqAB with Id := 5 } : ExternalLinkDto).Id) ∧
    ((∃ err, (Update { reqAB with Id := 5 } envAC).1 = .error err) ∧
      (Update { reqAB with Id := 5 } envAC).2.store.links = envAC.store.links ∧
      (Update { reqAB with Id := 5 } envAC).2.store.mappings = envAC.store.mappings ∧
      (envAC.NoFaults → (Update { reqAB with Id := 5 } envAC).1 = .error .noRows)) :=
  ⟨by decide, Update_unknown_link { reqAB with Id := 5 } envAC (by decide)⟩

/-! ## C10: the link record written by `Update` -/

/-- C10. After a successful `Update`, in a link table with distinct identities, the
link record `request.Id` carries the request's name, URL and monitoring tool and is
active (whatever `request.Active` and the record's former flag were); its identity,
creation time and creator are unchanged; every other link record is unchanged.  The
store does hold the link. -/
theorem Update_link_record (request : ExternalLinkDto) (e : Env) (hkeys : e.store.LinkKeys)
    (resp : ExternalLinkApiResponse) (e1 : Env) (hok : Update request e = (.ok resp, e1)) :
    (∃ l ∈ e.store.links, l.Id = request.Id) ∧
    List.Forall₂ (fun l l1 =>
      (l.Id = request.Id → l1.Id = l.Id ∧ l1.Name = request.Name ∧ l1.Url = request.Url ∧
        l1.ExternalLinkMonitoringToolId = request.MonitoringToolId ∧ l1.Active = true ∧
        l1.CreatedOn = l.CreatedOn ∧ l1.CreatedBy = l.CreatedBy) ∧
      (l.Id ≠ request.Id → l1 = l)) e.store.links e1.store.links := by
  obtain ⟨found, hf, hl⟩ := Update_result_links request e resp e1 hok
  have hmem : found ∈ e.store.links := List.mem_of_find?_eq_some hf
  have hid : found.Id = request.Id := by simpa using List.find?_some hf
  refine ⟨⟨found, hmem, hid⟩, ?_⟩
  rw [hl, List.forall₂_map_right_iff, List.forall₂_same]
  intro l hlm
  by_cases h : l.Id = found.Id
  · have : l = found := List.inj_on_of_nodup_map hkeys hlm hmem h
    subst this
    simp [hid]
  · have h2 : l.Id ≠ request.Id := hid ▸ h
    simp [h, h2]

/-- C10, on a soft-deleted link and a request whose `Active` field is false: the
update succeeds and the link record is active again. -/
theorem Update_link_record_witness :
    (envDeleted.store.LinkKeys ∧
      Update reqAB envDeleted = (.ok { Success := true }, (Update reqAB envDeleted).2)) ∧
    ((∃ l ∈ envDeleted.store.links, l.Id = reqAB.Id) ∧
    List.Forall₂ (fun l l1 =>
      (l.Id = reqAB.Id → l1.Id = l.Id ∧ l1.Name = reqAB.Name ∧ l1.Url = reqAB.Url ∧
        l1.ExternalLinkMonitoringToolId = reqAB.MonitoringToolId ∧ l1.Active = true ∧
        l1.CreatedOn = l.CreatedOn ∧ l1.CreatedBy = l.CreatedBy) ∧
      (l.Id ≠ reqAB.Id → l1 = l)) envDeleted.store.links (Update reqAB envDeleted).2.store.links) ∧
    (Update reqAB envDeleted).2.store.links.map (fun l => (l.Id, l.Active)) = [(1, true)] :=
  ⟨⟨by decide, by rfl⟩,
    Update_link_record reqAB envDeleted (by decide) { Success := true }
      (Update reqAB envDeleted).2 (by rfl), by decide⟩

/-! ## C3: `DeleteLink` is a soft delete -/

/-- C3. `DeleteLink` on a store that holds the link, when no repository call fails,
succeeds; afterwards the link record is inactive, the mapping table holds row for
row the identities it held before, every row that was an active mapping of the link
is inactive, and the link table holds the same identities as before. -/
theorem DeleteLink_soft (id userId : Int) (e : Env) (hcalls : e.NoFaults)
    (hlink : ∃ l ∈ e.store.links, l.Id = id) :
    ∃ e1, DeleteLink id userId e = (.ok { Success := true }, e1) ∧
      (∃ l ∈ e1.store.links, l.Id = id) ∧
      (∀ l ∈ e1.store.links, l.Id = id → l.Active = false) ∧
      List.Forall₂ (fun r r1 => r1.Id = r.Id ∧
          (r.ExternalLinkId = id → r.Active = true → r1.Active = false))
        e.store.mappings e1.store.mappings ∧
      e1.store.links.map (·.Id) = e.store.links.map (·.Id) ∧
      e1.store.mappings.map (·.Id) = e.store.mappings.map (·.Id) := by
  obtain ⟨l, hl, hlid⟩ := hlink
  have hsome : (e.store.links.find? (fun l => l.Id == id)).isSome := by
    rw [List.find?_isSome]
    exact ⟨l, hl, by simpa using hlid⟩
  obtain ⟨found, hf⟩ := Option.isSome_iff_exists.1 hsome
  have hfid : found.Id = id := by simpa using List.find?_some hf
  obtain ⟨G, snap1, eB, hrunB, hnfB, hlB, _, hmB, _, hG1, hG2⟩ :=
    deactivateAll_ok userId
      (e.store.mappings.filter (fun m => m.ExternalLinkId == id && m.Active)) e.pop
      (noFaults_pop hcalls)
  have hfB : eB.store.links.find? (fun l => l.Id == id) = some found := by
    rw [hlB]; exact hf
  have htB : (timeNow eB.pop).2.NoFaults := noFaults_timeNow (noFaults_pop hnfB)
  have hGid : ∀ r, (G r).Id = r.Id := by
    intro r
    by_cases hex : ∃ m ∈ e.store.mappings.filter (fun m => m.ExternalLinkId == id && m.Active),
        m.Id = r.Id
    · obtain ⟨m, _, hmid, hk, _⟩ := hG2 r hex
      rw [rowKey_id hk, hmid]
    · rw [hG1 r (fun m hm h => hex ⟨m, hm, h⟩)]
  obtain ⟨eC, heC⟩ : ∃ x, x = (timeNow eB.pop).2.pop.setLinks
      (eB.store.links.map (fun l => if l.Id = found.Id then
        { found with Active := false, UpdatedOn := (timeNow eB.pop).1, UpdatedBy := userId }
        else l)) := ⟨_, rfl⟩
  have hrun : DeleteLink id userId e = (.ok { Success := true }, eC) := by
    unfold DeleteLink
    rw [mappingFindAllActiveByLink_ok hcalls]
    simp only []
    rw [hrunB]
    simp only []
    rw [linkFindOne_ok hnfB id found hfB]
    simp only []
    rw [linkUpdate_ok htB, heC]
    rfl
  have hCl : eC.store.links = e.store.links.map (fun l => if l.Id = found.Id then
        { found with Active := false, UpdatedOn := (timeNow eB.pop).1, UpdatedBy := userId }
        else l) := by
    have hlB0 : eB.store.links = e.store.links := hlB
    rw [heC, ← hlB0]; rfl
  have hCm : eC.store.mappings = e.store.mappings.map G := by
    rw [heC]; exact hmB
  refine ⟨eC, hrun, ?_, ?_, ?_, ?_, ?_⟩
  · refine ⟨{ found with Active := false, UpdatedOn := (timeNow eB.pop).1, UpdatedBy := userId },
      ?_, hfid⟩
    rw [hCl]
    have := List.mem_map_of_mem (fun l : ExternalLink => if l.Id = found.Id then
        ({ found with Active := false, UpdatedOn := (timeNow eB.pop).1, UpdatedBy := userId }
          : ExternalLink) else l) (List.mem_of_find?_eq_some hf)
    simp only [if_true] at this
    exact this
  · intro l1 hl1 hl1id
    rw [hCl] at hl1
    obtain ⟨l0, _, hl0e⟩ := List.mem_map.1 hl1
    by_cases h : l0.Id = found.Id
    · simp only [h, if_true] at hl0e
      rw [← hl0e]
    · simp only [h, if_false] at hl0e
      subst hl0e
      exact absurd (hl1id.trans hfid.symm) h
  · rw [hCm, List.forall₂_map_right_iff, List.forall₂_same]
    intro r hr
    refine ⟨hGid r, ?_⟩
    intro hrl hra
    have hrs : r ∈ e.store.mappings.filter (fun m => m.ExternalLinkId == id && m.Active) := by
      rw [List.mem_filter]
      exact ⟨hr, by simp [hrl, hra]⟩
    obtain ⟨_, _, _, _, hact⟩ := hG2 r ⟨r, hrs, rfl⟩
    exact hact
  · rw [hCl, List.map_map]
    apply List.map_congr_left
    intro l0 _
    by_cases h : l0.Id = found.Id
    · simp [h]
    · simp [h]
  · rw [hCm, List.map_map]
    apply List.map_congr_left
    intro r _
    exact hGid r

/-- C3, on link 1 with its two active mappings. -/
theorem DeleteLink_soft_witness :
    (envAC.NoFaults ∧ ∃ l ∈ envAC.store.links, l.Id = 1) ∧
    (∃ e1, DeleteLink 1 9 envAC = (.ok { Success := true }, e1) ∧
      (∃ l ∈ e1.store.links, l.Id = 1) ∧
      (∀ l ∈ e1.store.links, l.Id = 1 → l.Active = false) ∧
      List.Forall₂ (fun r r1 => r1.Id = r.Id ∧
          (r.ExternalLinkId = 1 → r.Active = true → r1.Active = false))
        envAC.store.mappings e1.store.mappings ∧
      e1.store.links.map (·.Id) = envAC.store.links.map (·.Id) ∧
      e1.store.mappings.map (·.Id) = envAC.store.mappings.map (·.Id)) ∧
    (DeleteLink 1 9 envAC).2.store.mappings.map (fun r => (r.Id, r.ClusterId, r.Active)) =
      [(1, 10, false), (2, 30, false)] :=
  ⟨⟨by decide, by decide⟩, DeleteLink_soft 1 9 envAC (by decide) (by decide), by decide⟩

/-! ## C4: the rows written by `Create` -/

/-- Effect of the inner loop of `Create` when no repository call fails: one active
row per cluster id, in order, each with a fresh identity. -/
theorem createMappings_ok (linkId userId : Int) (cs : List Int) :
    ∀ e : Env, e.NoFaults →
    ∃ (rows : List ExternalLinkClusterMapping) (e1 : Env),
      createMappings linkId userId cs e = (.ok (), e1) ∧ e1.NoFaults ∧
      e1.store.links = e.store.links ∧ e1.store.tools = e.store.tools ∧
      e1.store.mappings = e.store.mappings ++ rows ∧
      rows.map (fun r => (r.ExternalLinkId, r.ClusterId, r.Active)) =
        cs.map (fun c => (linkId, c, true)) ∧
      (∀ r ∈ rows, r.Id ∉ e.store.mappings.map (·.Id)) ∧ (rows.map (·.Id)).Nodup := by
  induction cs with
  | nil =>
    intro e he
    exact ⟨[], e, rfl, he, rfl, rfl, by simp, rfl, by simp, by simp⟩
  | cons c rest ih =>
    intro e he
    have h2 : (timeNow (timeNow e).2).2.NoFaults := noFaults_timeNow (noFaults_timeNow he)
    obtain ⟨n, hn⟩ : ∃ x : ExternalLinkClusterMapping,
      x = { Id := freshId (e.store.mappings.map (·.Id)), ExternalLinkId := linkId,
            ClusterId := c, Active := true,
            CreatedOn := (timeNow e).1, CreatedBy := userId,
            UpdatedOn := (timeNow (timeNow e).2).1, UpdatedBy := userId } := ⟨_, rfl⟩
    have hnfresh : n.Id ∉ e.store.mappings.map (·.Id) := by
      rw [hn]; exact freshId_not_mem _
    obtain ⟨e0, he0⟩ : ∃ x, x = (timeNow (timeNow e).2).2.pop.setMappings
      (e.store.mappings ++ [n]) := ⟨_, rfl⟩
    have hstep : createMappings linkId userId (c :: rest) e =
        createMappings linkId userId rest e0 := by
      rw [createMappings, mappingSave_ok h2, he0, hn]
      rfl
    have he0nf : e0.NoFaults := by
      rw [he0]; exact noFaults_setMappings (noFaults_pop h2) _
    have he0m : e0.store.mappings = e.store.mappings ++ [n] := by rw [he0]; rfl
    have he0l : e0.store.links = e.store.links := by rw [he0]; rfl
    have he0t : e0.store.tools = e.store.tools := by rw [he0]; rfl
    obtain ⟨rows, e1, hrun, hnf, hl, ht, hm, hrows, hfresh, hnd⟩ := ih e0 he0nf
    have hsplit : ∀ x ∈ rows, x.Id ∉ e.store.mappings.map (·.Id) ∧ x.Id ≠ n.Id := by
      intro x hx
      have := hfresh x hx
      rw [he0m, List.map_append, List.mem_append, not_or] at this
      exact ⟨this.1, by simpa using this.2⟩
    refine ⟨n :: rows, e1, hstep.trans hrun, hnf, hl.trans he0l, ht.trans he0t, ?_, ?_, ?_, ?_⟩
    · rw [hm, he0m, List.append_assoc]; rfl
    · simp only [List.map_cons, hrows]
      rw [hn]
    · intro x hx
      rcases List.mem_cons.1 hx with h | h
      · rw [h]; exact hnfresh
      · exact (hsplit x h).1
    · simp only [List.map_cons, List.nodup_cons]
      refine ⟨?_, hnd⟩
      intro h
      obtain ⟨x, hx, hxe⟩ := List.mem_map.1 h
      exact (hsplit x hx).2 hxe

/-- Effect of `Create` when no repository call fails: for each request, in order, one
new active link record with a fresh identity and its mapping rows. -/
theorem Create_ok (userId : Int) (requests : List ExternalLinkDto) :
    ∀ e : Env, e.NoFaults →
    ∃ (items : List (ExternalLink × List ExternalLinkClusterMapping)) (e1 : Env),
      Create requests userId e = (.ok { Success := true }, e1) ∧ e1.NoFaults ∧
      e1.store.tools = e.store.tools ∧
      e1.store.links = e.store.links ++ items.map (·.1) ∧
      e1.store.mappings = e.store.mappings ++ (items.map (·.2)).flatten ∧
      List.Forall₂ (fun req item =>
        item.1.Active = true ∧ item.1.Name = req.Name ∧ item.1.Url = req.Url ∧
        item.1.ExternalLinkMonitoringToolId = req.MonitoringToolId ∧
        item.2.map (fun r => (r.ExternalLinkId, r.ClusterId, r.Active)) =
          req.ClusterIds.map (fun c => (item.1.Id, c, true))) requests items ∧
      (∀ item ∈ items, item.1.Id ∉ e.store.links.map (·.Id)) ∧
      (items.map (·.1.Id)).Nodup ∧
      (∀ r ∈ (items.map (·.2)).flatten, r.Id ∉ e.store.mappings.map (·.Id)) ∧
      (((items.map (·.2)).flatten).map (·.Id)).Nodup := by
  induction requests with
  | nil =>
    intro e he
    exact ⟨[], e, rfl, he, rfl, by simp, by simp, List.Forall₂.nil, by simp, by simp,
      by simp, by simp⟩
  | cons req rest ih =>
    intro e he
    have h2 : (timeNow (timeNow e).2).2.NoFaults := noFaults_timeNow (noFaults_timeNow he)
    obtain ⟨t, ht⟩ : ∃ x : ExternalLink,
      x = { Id := freshId (e.store.links.map (·.Id)), Name := req.Name, Active := true,
            ExternalLinkMonitoringToolId := req.MonitoringToolId, Url := req.Url,
            CreatedOn := (timeNow e).1, CreatedBy := userId,
            UpdatedOn := (timeNow (timeNow e).2).1, UpdatedBy := userId } := ⟨_, rfl⟩
    have htfresh : t.Id ∉ e.store.links.map (·.Id) := by
      rw [ht]; exact freshId_not_mem _
    obtain ⟨eA, heA⟩ : ∃ x, x = (timeNow (timeNow e).2).2.pop.setLinks
      (e.store.links ++ [t]) := ⟨_, rfl⟩
    have heAnf : eA.NoFaults := by
      rw [heA]; exact noFaults_setLinks (noFaults_pop h2) _
    have heAl : eA.store.links = e.store.links ++ [t] := by rw [heA]; rfl
    have heAm : eA.store.mappings = e.store.mappings := by rw [heA]; rfl
    have heAt : eA.store.tools = e.store.tools := by rw [heA]; rfl
    obtain ⟨rows, eB, hrunB, hnfB, hlB, htB, hmB, hrowsB, hfreshB, hndB⟩ :=
      createMappings_ok t.Id userId req.ClusterIds eA heAnf
    obtain ⟨items, e1, hrun, hnf, htl, hl, hm, hF, hlf, hlnd, hmf, hmnd⟩ := ih eB hnfB
    have hstep : Create (req :: rest) userId e = Create rest userId eB := by
      rw [Create, linkSave_ok h2]
      simp only []
      have : (timeNow (timeNow e).2).2.pop.setLinks
          ((timeNow (timeNow e).2).2.store.links ++
            [{ Id := freshId ((timeNow (timeNow e).2).2.store.links.map (·.Id)),
               Name := req.Name, Active := true,
               ExternalLinkMonitoringToolId := req.MonitoringToolId, Url := req.Url,
               CreatedOn := (timeNow e).1, CreatedBy := userId,
               UpdatedOn := (timeNow (timeNow e).2).1, UpdatedBy := userId }]) = eA := by
        rw [heA, ht]; rfl
      rw [this]
      have hid : freshId ((timeNow (timeNow e).2).2.store.links.map (·.Id)) = t.Id := by
        rw [ht]; rfl
      rw [hid, hrunB]
    have hsplitL : ∀ item ∈ items, item.1.Id ∉ e.store.links.map (·.Id) ∧ item.1.Id ≠ t.Id := by
      intro item hitem
      have := hlf item hitem
      rw [hlB, heAl, List.map_append, List.mem_append, not_or] at this
      exact ⟨this.1, by simpa using this.2⟩
    have hsplitM : ∀ r ∈ (items.map (·.2)).flatten,
        r.Id ∉ e.store.mappings.map (·.Id) ∧ r.Id ∉ rows.map (·.Id) := by
      intro r hr
      have := hmf r hr
      rw [hmB, heAm, List.map_append, List.mem_append, not_or] at this
      exact this
    refine ⟨(t, rows) :: items, e1, hstep.trans hrun, hnf, ?_, ?_, ?_, ?_, ?_, ?_, ?_, ?_⟩
    · rw [htl, htB, heAt]
    · rw [hl, hlB, heAl, List.append_assoc]; rfl
    · rw [hm, hmB, heAm, List.append_assoc]; rfl
    · refine List.Forall₂.cons ⟨?_, ?_, ?_, ?_, hrowsB⟩ hF
      all_goals rw [ht]
    · intro item hitem
      rcases List.mem_cons.1 hitem with h | h
      · rw [h]; exact htfresh
      · exact (hsplitL item h).1
    · simp only [List.map_cons, List.nodup_cons]
      refine ⟨?_, hlnd⟩
      intro h
      obtain ⟨item, hitem, hie⟩ := List.mem_map.1 h
      exact (hsplitL item hitem).2 hie
    · intro r hr
      simp only [List.map_cons, List.flatten_cons, List.mem_append] at hr
      rcases hr with h | h
      · have := hfreshB r h
        rwa [heAm] at this
      · exact (hsplitM r h).1
    · simp only [List.map_cons, List.flatten_cons, List.map_append]
      rw [List.nodup_append]
      refine ⟨hndB, hmnd, ?_⟩
      intro i hi1 hi2
      obtain ⟨r, hr, hre⟩ := List.mem_map.1 hi2
      exact (hsplitM r hr).2 (hre ▸ hi1)

theorem filter_flatten_item (items : List (ExternalLink × List ExternalLinkClusterMapping))
    (hnd : (items.map (·.1.Id)).Nodup)
    (hrows : ∀ item ∈ items, ∀ r ∈ item.2, r.ExternalLinkId = item.1.Id) :
    ∀ item ∈ items,
      (items.map (·.2)).flatten.filter (fun r => r.ExternalLinkId == item.1.Id) = item.2 := by
  induction items with
  | nil => intro item h; simp at h
  | cons it rest ih =>
    intro item hitem
    simp only [List.map_cons, List.nodup_cons] at hnd
    simp only [List.map_cons, List.flatten_cons, List.filter_append]
    have hrest : ∀ x ∈ rest, x.1.Id ≠ it.1.Id :=
      fun x hx h => hnd.1 (List.mem_map.2 ⟨x, hx, h⟩)
    by_cases hsame : item.1.Id = it.1.Id
    · have hit : item = it := by
        rcases List.mem_cons.1 hitem with h | h
        · exact h
        · exact absurd hsame (hrest item h)
      subst hit
      have h1 : item.2.filter (fun r => r.ExternalLinkId == item.1.Id) = item.2 := by
        rw [List.filter_eq_self]
        intro r hr
        simpa using hrows item (by simp) r hr
      have h2 : (rest.map (·.2)).flatten.filter (fun r => r.ExternalLinkId == item.1.Id) = [] := by
        rw [List.filter_eq_nil_iff]
        intro r hr
        obtain ⟨rows, hrowsm, hrr⟩ := List.mem_flatten.1 hr
        obtain ⟨x, hx, hxe⟩ := List.mem_map.1 hrowsm
        subst hxe
        have := hrows x (by simp [hx]) r hrr
        simpa [this] using hrest x hx
      rw [h1, h2, List.append_nil]
    · have hir : item ∈ rest := by
        rcases List.mem_cons.1 hitem with h | h
        · exact absurd (h ▸ rfl) hsame
        · exact h
      have h1 : it.2.filter (fun r => r.ExternalLinkId == item.1.Id) = [] := by
        rw [List.filter_eq_nil_iff]
        intro r hr
        have := hrows it (by simp) r hr
        simpa [this] using fun h : it.1.Id = item.1.Id => hsame h.symm
      rw [h1, List.nil_append]
      exact ih hnd.2 (fun x hx => hrows x (by simp [hx])) item hir

/-- C4, as the code has it.  When no repository call fails, `Create` succeeds and
adds, for each request in order, one active link record with a fresh identity and,
among the added mapping rows, exactly the rows `item.2` that reference it: as many
as the request lists cluster ids, all active, their cluster ids being the request's
list entry by entry; they are pairwise distinct when the list has no repetition. -/
theorem Create_mapping_rows (requests : List ExternalLinkDto) (userId : Int) (e : Env)
    (hcalls : e.NoFaults) :
    ∃ (e1 : Env) (items : List (ExternalLink × List ExternalLinkClusterMapping)),
      Create requests userId e = (.ok { Success := true }, e1) ∧
      e1.store.links = e.store.links ++ items.map (·.1) ∧
      e1.store.mappings = e.store.mappings ++ (items.map (·.2)).flatten ∧
      List.Forall₂ (fun req item =>
        item.1.Active = true ∧ item.1.Id ∉ e.store.links.map (·.Id) ∧
        (items.map (·.2)).flatten.filter (fun r => r.ExternalLinkId == item.1.Id) = item.2 ∧
        item.2.length = req.ClusterIds.length ∧
        item.2.map (·.ClusterId) = req.ClusterIds ∧
        (∀ r ∈ item.2, r.Active = true) ∧
        (req.ClusterIds.Nodup → (item.2.map (·.ClusterId)).Nodup)) requests items := by
  obtain ⟨items, e1, hrun, _, _, hl, hm, hF, hlf, hlnd, _, _⟩ := Create_ok userId requests e hcalls
  have hview : ∀ req item, (req, item) ∈ List.zip requests items →
      item.2.map (fun r => (r.ExternalLinkId, r.ClusterId, r.Active)) =
        req.ClusterIds.map (fun c => (item.1.Id, c, true)) :=
    fun req item h => (List.forall₂_zip hF h).2.2.2.2
  have hrows : ∀ item ∈ items, ∀ r ∈ item.2, r.ExternalLinkId = item.1.Id ∧ r.Active = true := by
    intro item hitem r hr
    obtain ⟨req, hreq⟩ : ∃ req, (req, item) ∈ List.zip requests items := by
      have hlen := hF.length_eq
      obtain ⟨i, hi, hie⟩ := List.getElem_of_mem hitem
      have hi2 : i < requests.length := hlen ▸ hi
      refine ⟨requests[i], ?_⟩
      rw [← hie]
      have hz : i < (List.zip requests items).length := by
        rw [List.length_zip]; omega
      have := List.getElem_mem hz
      rwa [List.getElem_zip] at this
    have hv := hview req item hreq
    have : (r.ExternalLinkId, r.ClusterId, r.Active) ∈
        req.ClusterIds.map (fun c => (item.1.Id, c, true)) :=
      hv ▸ List.mem_map_of_mem _ hr
    obtain ⟨c, _, hc⟩ := List.mem_map.1 this
    exact ⟨(congrArg (·.1) hc).symm, (congrArg (·.2.2) hc).symm⟩
  have hfilter := filter_flatten_item items hlnd (fun item hitem r hr => (hrows item hitem r hr).1)
  refine ⟨e1, items, hrun, hl, hm, ?_⟩
  rw [List.forall₂_iff_zip]
  refine ⟨hF.length_eq, ?_⟩
  intro req item hz
  have hitem : item ∈ items := (List.of_mem_zip hz).2
  have hR := List.forall₂_zip hF hz
  have hcl : item.2.map (·.ClusterId) = req.ClusterIds := by
    have := congrArg (List.map (·.2.1)) (hview req item hz)
    simpa [List.map_map, Function.comp_def] using this
  refine ⟨hR.1, hlf item hitem, hfilter item hitem, ?_, hcl,
    fun r hr => (hrows item hitem r hr).2, fun h => hcl ▸ h⟩
  have := congrArg List.length hcl
  simpa using this

/-- C4, the amended statement at the spec's scenario request. -/
theorem Create_mapping_rows_witness :
    env0.NoFaults ∧
    ∃ (e1 : Env) (items : List (ExternalLink × List ExternalLinkClusterMapping)),
      Create [reqGrafana] 7 env0 = (.ok { Success := true }, e1) ∧
      e1.store.links = env0.store.links ++ items.map (·.1) ∧
      e1.store.mappings = env0.store.mappings ++ (items.map (·.2)).flatten ∧
      List.Forall₂ (fun req item =>
        item.1.Active = true ∧ item.1.Id ∉ env0.store.links.map (·.Id) ∧
        (items.map (·.2)).flatten.filter (fun r => r.ExternalLinkId == item.1.Id) = item.2 ∧
        item.2.length = req.ClusterIds.length ∧
        item.2.map (·.ClusterId) = req.ClusterIds ∧
        (∀ r ∈ item.2, r.Active = true) ∧
        (req.ClusterIds.Nodup → (item.2.map (·.ClusterId)).Nodup)) [reqGrafana] items :=
  ⟨by decide, Create_mapping_rows [reqGrafana] 7 env0 (by decide)⟩

/-- C4 as stated fails: a request that lists cluster 1 twice is created without
error and leaves two active mapping rows of the new link with the same cluster id,
so the cluster ids of the rows are not pairwise distinct. -/
theorem Create_repeated_cluster_id :
    (Create [reqDup] 7 env0).1 = .ok { Success := true } ∧
    (Create [reqDup] 7 env0).2.store.links.map (fun l => (l.Id, l.Active)) = [(1, true)] ∧
    (Create [reqDup] 7 env0).2.store.mappings.map
      (fun r => (r.Id, r.ExternalLinkId, r.ClusterId, r.Active)) =
        [(1, 1, 1, true), (2, 1, 1, true)] ∧
    ¬ ((Create [reqDup] 7 env0).2.store.mappings.map (·.ClusterId)).Nodup :=
  ⟨rfl, by decide, by decide, by decide⟩

/-! ## C9: a failed `FindAllActive` in `FetchAllActiveLinks` -/

/-- C9 fails on the code.  `FetchAllActiveLinks` never examines the error of
`FindAllActive`: when that call fails and `FindAllFilterOutByIds` succeeds, the
listing is returned as a success, with the mapped link 1 reported as a link without
clusters. -/
theorem FetchAllActiveLinks_drops_error :
    (MappingRepository.FindAllActive envACFault).1 = .error .dbError ∧
    (FetchAllActiveLinks 0 envACFault).1 =
      .ok [{ Id := 1, Name := "Grafana", Url := "http://g", Active := true,
             MonitoringToolId := 1, ClusterIds := [], UpdatedOn := 0, UserId := 0 }] ∧
    (FetchAllActiveLinks 0 envAC).1 =
      .ok [{ Id := 1, Name := "Grafana", Url := "http://g", Active := true,
             MonitoringToolId := 1, ClusterIds := [10, 30], UpdatedOn := 1, UserId := 0 }] :=
  ⟨rfl, rfl, rfl⟩

/-! ## Go maps and the loops of `FetchAllActiveLinks` -/

theorem mapGet?_mapSet {β : Type} (m : List (Int × β)) (k : Int) (v : β) (k1 : Int) :
    mapGet? (mapSet m k v) k1 = if k1 = k then some v else mapGet? m k1 := by
  induction m with
  | nil =>
    by_cases h : k1 = k
    · simp [mapSet, mapGet?, h]
    · have h2 : ¬ k = k1 := fun h3 => h h3.symm
      simp [mapSet, mapGet?, h, h2]
  | cons p m ih =>
    obtain ⟨k0, v0⟩ := p
    by_cases h0 : k0 = k
    · subst h0
      by_cases h : k1 = k0
      · simp [mapSet, mapGet?, h]
      · have h2 : ¬ k0 = k1 := fun h3 => h h3.symm
        simp [mapSet, mapGet?, h, h2]
    · by_cases h : k0 = k1
      · subst h
        simp [mapSet, mapGet?, h0]
      · simp [mapSet, mapGet?, h0, h, ih]

theorem mapGet?_isSome_iff {β : Type} (m : List (Int × β)) (k : Int) :
    (mapGet? m k).isSome ↔ k ∈ m.map (·.1) := by
  induction m with
  | nil => simp [mapGet?]
  | cons p m ih =>
    obtain ⟨k0, v0⟩ := p
    by_cases h : k0 = k
    · simp [mapGet?, h]
    · have h2 : ¬ k = k0 := fun h3 => h h3.symm
      simp [mapGet?, h, h2, ih]

theorem mapSet_keys {β : Type} (m : List (Int × β)) (k : Int) (v : β) :
    (mapSet m k v).map (·.1) =
      if k ∈ m.map (·.1) then m.map (·.1) else m.map (·.1) ++ [k] := by
  induction m with
  | nil => simp [mapSet]
  | cons p m ih =>
    obtain ⟨k0, v0⟩ := p
    by_cases h : k0 = k
    · simp [mapSet, h]
    · have h2 : ¬ k = k0 := fun h3 => h h3.symm
      simp only [mapSet, h, if_false, List.map_cons, ih, List.mem_cons, h2, false_or]
      by_cases hm : k ∈ m.map (·.1)
      · simp [hm]
      · simp [hm]

theorem mapSet_keys_nodup {β : Type} (m : List (Int × β)) (k : Int) (v : β)
    (h : (m.map (·.1)).Nodup) : ((mapSet m k v).map (·.1)).Nodup := by
  rw [mapSet_keys]
  by_cases hm : k ∈ m.map (·.1)
  · simp only [hm, if_true]; exact h
  · simp only [hm, if_false]
    rw [List.nodup_append]
    exact ⟨h, by simp, by
      intro a ha hb
      simp only [List.mem_singleton] at hb
      exact hm (hb ▸ ha)⟩

theorem mem_iff_mapGet? {β : Type} (m : List (Int × β)) (h : (m.map (·.1)).Nodup)
    (k : Int) (v : β) : (k, v) ∈ m ↔ mapGet? m k = some v := by
  induction m with
  | nil => simp [mapGet?]
  | cons p m ih =>
    obtain ⟨k0, v0⟩ := p
    simp only [List.map_cons, List.nodup_cons] at h
    by_cases hk : k0 = k
    · subst hk
      simp only [mapGet?, if_true, List.mem_cons, Prod.mk.injEq, true_and, Option.some.injEq]
      constructor
      · rintro (h1 | h1)
        · exact h1.symm
        · exact absurd (List.mem_map.2 ⟨(k0, v), h1, rfl⟩) h.1
      · intro h1; exact Or.inl h1.symm
    · have h2 : ¬ k = k0 := fun h3 => hk h3.symm
      simp only [mapGet?, hk, if_false, List.mem_cons, Prod.mk.injEq, h2, false_and, false_or]
      exact ih h.2

/-- The loop of lines 143-148: the ids collected in `mappedExternalLinksIds` are the
link ids of the fetched rows. -/
theorem mappedIds_mem (rows : List (ExternalLinkClusterMapping × ExternalLink)) (i : Int) :
    i ∈ (rows.foldl (fun m link => mapSet m link.1.ExternalLinkId link.1.ExternalLinkId)
      []).map (·.2) ↔ ∃ row ∈ rows, row.1.ExternalLinkId = i := by
  have key : ∀ rows : List (ExternalLinkClusterMapping × ExternalLink),
      (∀ p ∈ rows.foldl (fun m link => mapSet m link.1.ExternalLinkId link.1.ExternalLinkId)
        ([] : List (Int × Int)), p.1 = p.2) ∧
      (∀ i, (mapGet? (rows.foldl
        (fun m link => mapSet m link.1.ExternalLinkId link.1.ExternalLinkId)
        ([] : List (Int × Int))) i).isSome ↔ ∃ row ∈ rows, row.1.ExternalLinkId = i) ∧
      ((rows.foldl (fun m link => mapSet m link.1.ExternalLinkId link.1.ExternalLinkId)
        ([] : List (Int × Int))).map (·.1)).Nodup := by
    intro rows
    induction rows using List.reverseRecOn with
    | nil => simp [mapGet?]
    | append_singleton l a ih =>
      obtain ⟨ih1, ih2, ih3⟩ := ih
      rw [List.foldl_append]
      simp only [List.foldl_cons, List.foldl_nil]
      have hnd := mapSet_keys_nodup _ a.1.ExternalLinkId a.1.ExternalLinkId ih3
      refine ⟨?_, ?_, hnd⟩
      · rintro ⟨k, v⟩ hp
        have := (mem_iff_mapGet? _ hnd k v).1 hp
        rw [mapGet?_mapSet] at this
        by_cases hk : k = a.1.ExternalLinkId
        · simp only [hk, if_true, Option.some.injEq] at this
          simp [hk, this]
        · simp only [hk, if_false] at this
          exact ih1 _ ((mem_iff_mapGet? _ ih3 k v).2 this)
      · intro i
        rw [mapGet?_mapSet]
        by_cases hk : i = a.1.ExternalLinkId
        · simp only [hk, if_true, Option.isSome_some, true_iff]
          exact ⟨a, by simp, rfl⟩
        · simp only [hk, if_false, ih2 i, List.mem_append, List.mem_singleton]
          constructor
          · rintro ⟨row, hr, hre⟩; exact ⟨row, Or.inl hr, hre⟩
          · rintro ⟨row, hr | hr, hre⟩
            · exact ⟨row, hr, hre⟩
            · subst hr; exact absurd hre.symm hk
  obtain ⟨h1, h2, _⟩ := key rows
  rw [← h2 i, mapGet?_isSome_iff]
  constructor
  · intro h
    obtain ⟨p, hp, hpe⟩ := List.mem_map.1 h
    exact List.mem_map.2 ⟨p, hp, (h1 p hp).trans hpe⟩
  · intro h
    obtain ⟨p, hp, hpe⟩ := List.mem_map.1 h
    exact List.mem_map.2 ⟨p, hp, (h1 p hp).symm.trans hpe⟩

theorem groupDto_append_same (rows : List (ExternalLinkClusterMapping × ExternalLink))
    (a : ExternalLinkClusterMapping × ExternalLink) :
    groupDto (rows ++ [a]) a.1.ExternalLinkId =
      some (match groupDto rows a.1.ExternalLinkId with
        | some d => { d with ClusterIds := d.ClusterIds ++ [a.1.ClusterId] }
        | none =>
          { Id := a.1.ExternalLinkId, Name := a.2.Name, Url := a.2.Url,
            Active := a.2.Active, MonitoringToolId := a.2.ExternalLinkMonitoringToolId,
            ClusterIds := [] ++ [a.1.ClusterId], UpdatedOn := a.1.UpdatedOn, UserId := 0 }) := by
  unfold groupDto
  rw [List.find?_append, List.filter_append]
  cases hf : rows.find? (fun row => row.1.ExternalLinkId == a.1.ExternalLinkId) with
  | some row => simp [List.filter_cons]
  | none =>
    have hnil : rows.filter (fun row => row.1.ExternalLinkId == a.1.ExternalLinkId) = [] := by
      rw [List.filter_eq_nil_iff]
      exact List.find?_eq_none.1 hf
    simp [List.filter_cons, hnil]

theorem groupDto_append_other (rows : List (ExternalLinkClusterMapping × ExternalLink))
    (a : ExternalLinkClusterMapping × ExternalLink) (k : Int) (h : k ≠ a.1.ExternalLinkId) :
    groupDto (rows ++ [a]) k = groupDto rows k := by
  have h2 : ¬ a.1.ExternalLinkId = k := fun h3 => h h3.symm
  unfold groupDto
  rw [List.find?_append, List.filter_append]
  cases hf : rows.find? (fun row => row.1.ExternalLinkId == k) with
  | some row => simp [List.filter_cons, h2]
  | none => simp [List.filter_cons, h2]

/-- The loop of lines 152-171: `response` holds, for each link id of the fetched
rows and no other, the entry `groupDto`; `filterByCluster` holds the link ids that
have a row for the positive filter `clusterId`. -/
theorem listStep_fold (clusterId : Int)
    (rows : List (ExternalLinkClusterMapping × ExternalLink)) :
    (((rows.foldl (listStep clusterId) ([], [])).2).map (·.1)).Nodup ∧
    (∀ k, mapGet? (rows.foldl (listStep clusterId) ([], [])).2 k = groupDto rows k) ∧
    (∀ k, (mapGet? (rows.foldl (listStep clusterId) ([], [])).1 k).isSome ↔
      (clusterId > 0 ∧ ∃ row ∈ rows, row.1.ExternalLinkId = k ∧ row.1.ClusterId = clusterId)) := by
  induction rows using List.reverseRecOn with
  | nil => simp [mapGet?, groupDto]
  | append_singleton l a ih =>
    obtain ⟨ih1, ih2, ih3⟩ := ih
    rw [List.foldl_append]
    simp only [List.foldl_cons, List.foldl_nil]
    refine ⟨?_, ?_, ?_⟩
    · exact mapSet_keys_nodup _ _ _ ih1
    · intro k
      simp only [listStep]
      rw [mapGet?_mapSet]
      by_cases hk : k = a.1.ExternalLinkId
      · subst hk
        simp only [if_true]
        rw [groupDto_append_same, ih2]
        cases groupDto l a.1.ExternalLinkId <;> rfl
      · simp only [hk, if_false]
        rw [groupDto_append_other l a k hk, ih2]
    · intro k
      simp only [listStep]
      by_cases hc : clusterId > 0 ∧ a.1.ClusterId = clusterId
      · rw [if_pos hc, mapGet?_mapSet]
        by_cases hk : k = a.1.ExternalLinkId
        · rw [if_pos hk]
          simp only [Option.isSome_some, true_iff]
          exact ⟨hc.1, a, by simp, hk.symm, hc.2⟩
        · rw [if_neg hk, ih3 k]
          simp only [List.mem_append, List.mem_singleton]
          constructor
          · rintro ⟨h0, row, hr, hre⟩; exact ⟨h0, row, Or.inl hr, hre⟩
          · rintro ⟨h0, row, hr | hr, hre⟩
            · exact ⟨h0, row, hr, hre⟩
            · subst hr; exact absurd hre.1.symm hk
      · rw [if_neg hc, ih3 k]
        simp only [List.mem_append, List.mem_singleton]
        constructor
        · rintro ⟨h0, row, hr, hre⟩; exact ⟨h0, row, Or.inl hr, hre⟩
        · rintro ⟨h0, row, hr | hr, hre⟩
          · exact ⟨h0, row, hr, hre⟩
          · subst hr; exact absurd ⟨h0, hre.2⟩ hc

theorem groupDto_some {rows : List (ExternalLinkClusterMapping × ExternalLink)} {k : Int}
    {dto : ExternalLinkDto} (h : groupDto rows k = some dto) :
    dto.Id = k ∧
    dto.ClusterIds = (rows.filter (fun row => row.1.ExternalLinkId == k)).map (·.1.ClusterId) ∧
    ∃ row ∈ rows, row.1.ExternalLinkId = k ∧ dto.Name = row.2.Name ∧ dto.Url = row.2.Url ∧
      dto.Active = row.2.Active ∧ dto.MonitoringToolId = row.2.ExternalLinkMonitoringToolId ∧
      rows.find? (fun row => row.1.ExternalLinkId == k) = some row := by
  unfold groupDto at h
  cases hf : rows.find? (fun row => row.1.ExternalLinkId == k) with
  | none => simp [hf] at h
  | some row =>
    simp only [hf, Option.some.injEq] at h
    have hk : row.1.ExternalLinkId = k := by simpa using List.find?_some hf
    subst h
    exact ⟨hk, rfl, row, List.mem_of_find?_eq_some hf, hk, rfl, rfl, rfl, rfl, rfl⟩

theorem groupDto_isSome (rows : List (ExternalLinkClusterMapping × ExternalLink)) (k : Int) :
    (groupDto rows k).isSome ↔ ∃ row ∈ rows, row.1.ExternalLinkId = k := by
  unfold groupDto
  cases hf : rows.find? (fun row => row.1.ExternalLinkId == k) with
  | none =>
    simp only [Option.isSome_none, Bool.false_eq_true, false_iff]
    rintro ⟨row, hr, hk⟩
    exact List.find?_eq_none.1 hf row hr (by simpa using hk)
  | some row =>
    simp only [Option.isSome_some, true_iff]
    exact ⟨row, List.mem_of_find?_eq_some hf, by simpa using List.find?_some hf⟩

theorem mem_activeRows (s : Store) (row : ExternalLinkClusterMapping × ExternalLink) :
    row ∈ activeRows s ↔ row.1 ∈ s.mappings ∧ row.1.Active = true ∧
      row.2 = joinLink s.links row.1 := by
  unfold activeRows
  rw [List.mem_map]
  constructor
  · rintro ⟨m, hm, hme⟩
    subst hme
    rw [List.mem_filter] at hm
    exact ⟨hm.1, hm.2, rfl⟩
  · rintro ⟨h1, h2, h3⟩
    exact ⟨row.1, List.mem_filter.2 ⟨h1, h2⟩, by rw [← h3]⟩

theorem mappingFindAllActive_ok {e : Env} (h : e.NoFaults) :
    MappingRepository.FindAllActive e = (.ok (activeRows e.store), e.pop) := by
  simp [MappingRepository.FindAllActive, nextCall_of_noFaults h, activeRows]

theorem linkFindAllFilterOutByIds_ok {e : Env} (h : e.NoFaults) (ids : List Int) :
    LinkRepository.FindAllFilterOutByIds ids e =
      (.ok (e.store.links.filter (fun l => l.Active && !(ids.contains l.Id))), e.pop) := by
  simp [LinkRepository.FindAllFilterOutByIds, nextCall_of_noFaults h]

/-- The listing when both repository calls succeed: the entries `mapped` assembled
from the active mappings, at most one per link id, followed by one entry for each
active link record that has no active mapping. -/
theorem FetchAllActiveLinks_ok (clusterId : Int) (e : Env) (he : e.NoFaults) :
    ∃ (mapped : List ExternalLinkDto) (e1 : Env),
      FetchAllActiveLinks clusterId e =
        (.ok (mapped ++ (e.store.links.filter (fun l => l.Active &&
          !decide (∃ r ∈ e.store.mappings, r.Active = true ∧ r.ExternalLinkId = l.Id))).map
            unmappedDto), e1) ∧
      e1.store = e.store ∧ e1.NoFaults ∧
      (mapped.map (·.Id)).Nodup ∧
      (∀ dto, dto ∈ mapped ↔ ∃ k, groupDto (activeRows e.store) k = some dto ∧
        (clusterId = 0 ∨ (clusterId > 0 ∧ ∃ row ∈ activeRows e.store,
          row.1.ExternalLinkId = k ∧ row.1.ClusterId = clusterId))) := by
  obtain ⟨hnd, hget, hfbc⟩ := listStep_fold clusterId (activeRows e.store)
  obtain ⟨maps, hmaps⟩ : ∃ x, x = (activeRows e.store).foldl (listStep clusterId) ([], []) :=
    ⟨_, rfl⟩
  rw [← hmaps] at hnd hget hfbc
  obtain ⟨mapped, hmapped⟩ : ∃ x, x = (maps.2.filter
      (fun kv => (mapGet? maps.1 kv.1).isSome || clusterId == 0)).map (·.2) := ⟨_, rfl⟩
  have hfilter : e.store.links.filter (fun l => l.Active &&
        !(((activeRows e.store).foldl
          (fun m link => mapSet m link.1.ExternalLinkId link.1.ExternalLinkId)
          ([] : List (Int × Int))).map (·.2)).contains l.Id) =
      e.store.links.filter (fun l => l.Active &&
        !decide (∃ r ∈ e.store.mappings, r.Active = true ∧ r.ExternalLinkId = l.Id)) := by
    apply List.filter_congr
    intro l _
    congr 2
    rw [Bool.eq_iff_iff]
    simp only [List.contains_iff_exists_mem_beq, beq_iff_eq, decide_eq_true_eq]
    constructor
    · rintro ⟨i, hi, hie⟩
      obtain ⟨row, hrow, hre⟩ := (mappedIds_mem _ i).1 hi
      obtain ⟨h1, h2, _⟩ := (mem_activeRows _ row).1 hrow
      exact ⟨row.1, h1, h2, hre.trans hie.symm⟩
    · rintro ⟨r, hr, hra, hrl⟩
      refine ⟨l.Id, (mappedIds_mem _ _).2 ⟨(r, joinLink e.store.links r), ?_, hrl⟩, rfl⟩
      exact (mem_activeRows _ _).2 ⟨hr, hra, rfl⟩
  refine ⟨mapped, e.pop.pop, ?_, rfl, noFaults_pop (noFaults_pop he), ?_, ?_⟩
  · unfold FetchAllActiveLinks
    simp only [mappingFindAllActive_ok he]
    rw [linkFindAllFilterOutByIds_ok (noFaults_pop he)]
    simp only [store_pop]
    rw [hfilter, hmapped, hmaps]
  · have hval : ∀ kv ∈ maps.2, kv.2.Id = kv.1 := by
      rintro ⟨k, v⟩ hkv
      have := (mem_iff_mapGet? _ hnd k v).1 hkv
      rw [hget] at this
      exact (groupDto_some this).1
    have : mapped.map (·.Id) = (maps.2.filter
        (fun kv => (mapGet? maps.1 kv.1).isSome || clusterId == 0)).map (·.1) := by
      rw [hmapped, List.map_map]
      apply List.map_congr_left
      intro kv hkv
      exact hval kv (List.mem_of_mem_filter hkv)
    rw [this]
    exact (List.filter_sublist _).map _ |>.nodup hnd
  · intro dto
    rw [hmapped, List.mem_map]
    constructor
    · rintro ⟨⟨k, v⟩, hkv, hv⟩
      simp only at hv
      subst hv
      rw [List.mem_filter] at hkv
      obtain ⟨hmem, hcond⟩ := hkv
      have hg := (mem_iff_mapGet? _ hnd k v).1 hmem
      rw [hget] at hg
      refine ⟨k, hg, ?_⟩
      simp only [Bool.or_eq_true, beq_iff_eq] at hcond
      rcases hcond with h | h
      · exact Or.inr ((hfbc k).1 h)
      · exact Or.inl h
    · rintro ⟨k, hg, hcond⟩
      refine ⟨(k, dto), ?_, rfl⟩
      rw [List.mem_filter]
      refine ⟨(mem_iff_mapGet? _ hnd k dto).2 (by rw [hget]; exact hg), ?_⟩
      simp only [Bool.or_eq_true, beq_iff_eq]
      rcases hcond with h | h
      · exact Or.inr h
      · exact Or.inl ((hfbc k).2 h)

/-! ## C6: the listing with a cluster filter -/

/-- C6, as the code has it.  For a positive cluster filter, when the repository
calls of the listing succeed, the link ids listed are exactly the link ids that have
an active mapping to the filter cluster, together with the ids of the active link
records that have no active mapping; the entries of the latter kind carry an empty
cluster-id list. -/
theorem FetchAllActiveLinks_filtered (clusterId : Int) (hpos : clusterId > 0) (e : Env)
    (hcalls : e.NoFaults) :
    ∃ result, (FetchAllActiveLinks clusterId e).1 = .ok result ∧
      (∀ i, (∃ dto ∈ result, dto.Id = i) ↔
        ((∃ r ∈ e.store.mappings,
            r.Active = true ∧ r.ExternalLinkId = i ∧ r.ClusterId = clusterId) ∨
          (∃ l ∈ e.store.links, l.Id = i ∧ l.Active = true ∧
            ∀ r ∈ e.store.mappings, r.Active = true → r.ExternalLinkId ≠ i))) ∧
      (∀ dto ∈ result,
        (∀ r ∈ e.store.mappings, r.Active = true → r.ExternalLinkId ≠ dto.Id) →
          dto.ClusterIds = []) := by
  obtain ⟨mapped, e1, hrun, _, _, _, hmapped⟩ := FetchAllActiveLinks_ok clusterId e hcalls
  have hne : clusterId ≠ 0 := by omega
  have hadd : ∀ l, l ∈ e.store.links.filter (fun l => l.Active &&
      !decide (∃ r ∈ e.store.mappings, r.Active = true ∧ r.ExternalLinkId = l.Id)) ↔
      l ∈ e.store.links ∧ l.Active = true ∧
        ∀ r ∈ e.store.mappings, r.Active = true → r.ExternalLinkId ≠ l.Id := by
    intro l
    rw [List.mem_filter]
    simp only [Bool.and_eq_true, Bool.not_eq_true', decide_eq_false_iff_not, not_exists,
      not_and]
  refine ⟨_, by rw [hrun], ?_, ?_⟩
  · intro i
    constructor
    · rintro ⟨dto, hdto, hid⟩
      rcases List.mem_append.1 hdto with h | h
      · obtain ⟨k, hg, hc⟩ := (hmapped dto).1 h
        rcases hc with hc | ⟨_, row, hrow, hrl, hrc⟩
        · exact absurd hc hne
        · obtain ⟨h1, h2, _⟩ := (mem_activeRows _ row).1 hrow
          exact Or.inl ⟨row.1, h1, h2, by rw [hrl, ← (groupDto_some hg).1, hid], hrc⟩
      · obtain ⟨l, hl, hle⟩ := List.mem_map.1 h
        obtain ⟨h1, h2, h3⟩ := (hadd l).1 hl
        have hli : l.Id = i := by rw [← hid, ← hle]; rfl
        exact Or.inr ⟨l, h1, hli, h2, hli ▸ h3⟩
    · rintro (⟨r, hr, hra, hrl, hrc⟩ | ⟨l, hl, hli, hla, hnone⟩)
      · have hrow : (r, joinLink e.store.links r) ∈ activeRows e.store :=
          (mem_activeRows _ _).2 ⟨hr, hra, rfl⟩
        obtain ⟨dto, hdto⟩ := Option.isSome_iff_exists.1
          ((groupDto_isSome (activeRows e.store) i).2 ⟨_, hrow, hrl⟩)
        refine ⟨dto, List.mem_append_left _ ((hmapped dto).2 ⟨i, hdto, Or.inr ⟨hpos, _, hrow, hrl, hrc⟩⟩),
          (groupDto_some hdto).1⟩
      · refine ⟨unmappedDto l, List.mem_append_right _ (List.mem_map_of_mem _ ?_), hli⟩
        exact (hadd l).2 ⟨hl, hla, hli ▸ hnone⟩
  · intro dto hdto hnone
    rcases List.mem_append.1 hdto with h | h
    · obtain ⟨k, hg, _⟩ := (hmapped dto).1 h
      obtain ⟨hid, _, row, hrow, hrl, _⟩ := groupDto_some hg
      obtain ⟨h1, h2, _⟩ := (mem_activeRows _ row).1 hrow
      exact absurd (hrl.trans hid.symm) (hnone row.1 h1 h2)
    · obtain ⟨l, _, hle⟩ := List.mem_map.1 h
      rw [← hle]; rfl

/-- C6, the amended statement on link 1 mapped to the clusters 10 and 30, listed with
the filter 10. -/
theorem FetchAllActiveLinks_filtered_witness :
    ((10 : Int) > 0 ∧ envAC.NoFaults) ∧
    ∃ result, (FetchAllActiveLinks 10 envAC).1 = .ok result ∧
      (∀ i, (∃ dto ∈ result, dto.Id = i) ↔
        ((∃ r ∈ envAC.store.mappings,
            r.Active = true ∧ r.ExternalLinkId = i ∧ r.ClusterId = 10) ∨
          (∃ l ∈ envAC.store.links, l.Id = i ∧ l.Active = true ∧
            ∀ r ∈ envAC.store.mappings, r.Active = true → r.ExternalLinkId ≠ i))) ∧
      (∀ dto ∈ result,
        (∀ r ∈ envAC.store.mappings, r.Active = true → r.ExternalLinkId ≠ dto.Id) →
          dto.ClusterIds = []) :=
  ⟨⟨by decide, by decide⟩, FetchAllActiveLinks_filtered 10 (by decide) envAC (by decide)⟩

/-- C6 as stated fails on two counts.  With the filter -1 the listing is empty although
link 1 has an active mapping to cluster -1 (the filter only selects when it is
positive).  And a link record that is inactive and has no active mapping is not
listed, with the filter 10, although it is a link without mapping. -/
theorem FetchAllActiveLinks_filter_counterexample :
    ((FetchAllActiveLinks (-1) envNegative).1 = .ok [] ∧
      ∃ r ∈ envNegative.store.mappings,
        r.Active = true ∧ r.ExternalLinkId = 1 ∧ r.ClusterId = -1) ∧
    ((FetchAllActiveLinks 10 envDeleted).1 = .ok [] ∧
      (∃ l ∈ envDeleted.store.links, l.Id = 1) ∧
      ∀ r ∈ envDeleted.store.mappings, r.Active = false) :=
  ⟨⟨rfl, by decide⟩, ⟨rfl, by decide, by decide⟩⟩

/-! ## Runs with failing repository calls

A repository call that fails writes nothing, so the store a failed loop leaves behind
is the store that the same loop leaves, without failure, on a prefix of its list; a
run that succeeds is the run without scripted failures. -/

@[simp] theorem store_calm (e : Env) : e.calm.store = e.store := rfl

theorem noFaults_calm (e : Env) : e.calm.NoFaults := by
  intro b hb
  simp [Env.calm] at hb

theorem mappingUpdate_outcome (m : ExternalLinkClusterMapping) (e : Env) :
    (∃ e1, MappingRepository.Update m e = (.error .dbError, e1) ∧ e1.store = e.store) ∨
    (∃ e1, MappingRepository.Update m e = (.ok (), e1) ∧
      MappingRepository.Update m e.calm = (.ok (), e1.calm)) := by
  obtain ⟨st, ck, fs⟩ := e
  cases fs with
  | nil => exact Or.inr ⟨_, rfl, rfl⟩
  | cons b rest =>
    cases b
    · exact Or.inr ⟨_, rfl, rfl⟩
    · exact Or.inl ⟨_, rfl, rfl⟩

theorem mappingSave_outcome (m : ExternalLinkClusterMapping) (e : Env) :
    (∃ e1, MappingRepository.Save m e = (.error .dbError, e1) ∧ e1.store = e.store) ∨
    (∃ m1 e1, MappingRepository.Save m e = (.ok m1, e1) ∧
      MappingRepository.Save m e.calm = (.ok m1, e1.calm)) := by
  obtain ⟨st, ck, fs⟩ := e
  cases fs with
  | nil => exact Or.inr ⟨_, _, rfl, rfl⟩
  | cons b rest =>
    cases b
    · exact Or.inr ⟨_, _, rfl, rfl⟩
    · exact Or.inl ⟨_, rfl, rfl⟩

theorem linkSave_outcome (t : ExternalLink) (e : Env) :
    (∃ e1, LinkRepository.Save t e = (.error .dbError, e1) ∧ e1.store = e.store) ∨
    (∃ t1 e1, LinkRepository.Save t e = (.ok t1, e1) ∧
      LinkRepository.Save t e.calm = (.ok t1, e1.calm)) := by
  obtain ⟨st, ck, fs⟩ := e
  cases fs with
  | nil => exact Or.inr ⟨_, _, rfl, rfl⟩
  | cons b rest =>
    cases b
    · exact Or.inr ⟨_, _, rfl, rfl⟩
    · exact Or.inl ⟨_, rfl, rfl⟩

theorem linkUpdate_outcome (t : ExternalLink) (e : Env) :
    (∃ e1, LinkRepository.Update t e = (.error .dbError, e1) ∧ e1.store = e.store) ∨
    (∃ e1, LinkRepository.Update t e = (.ok (), e1) ∧
      LinkRepository.Update t e.calm = (.ok (), e1.calm)) := by
  obtain ⟨st, ck, fs⟩ := e
  cases fs with
  | nil => exact Or.inr ⟨_, rfl, rfl⟩
  | cons b rest =>
    cases b
    · exact Or.inr ⟨_, rfl, rfl⟩
    · exact Or.inl ⟨_, rfl, rfl⟩

theorem linkFindOne_outcome (id : Int) (e : Env) :
    (∃ err e1, LinkRepository.FindOne id e = (.error err, e1) ∧ e1.store = e.store) ∨
    (∃ l e1, LinkRepository.FindOne id e = (.ok l, e1) ∧
      LinkRepository.FindOne id e.calm = (.ok l, e1.calm)) := by
  obtain ⟨st, ck, fs⟩ := e
  have key : ∀ e0 : Env, e0.store = st →
      (∃ err e1, (match e0.store.links.find? (fun l => l.Id == id) with
        | some l => ((.ok l : Except Error ExternalLink), e0)
        | none => (.error .noRows, e0)) = (.error err, e1) ∧ e1.store = st) ∨
      (∃ l e1, (match e0.store.links.find? (fun l => l.Id == id) with
        | some l => ((.ok l : Except Error ExternalLink), e0)
        | none => (.error .noRows, e0)) = (.ok l, e1) ∧
        (match st.links.find? (fun l => l.Id == id) with
        | some l => ((.ok l : Except Error ExternalLink), (⟨st, e0.clock, []⟩ : Env))
        | none => (.error .noRows, ⟨st, e0.clock, []⟩)) = (.ok l, e1.calm)) := by
    intro e0 h0
    rw [h0]
    cases st.links.find? (fun l => l.Id == id) with
    | none => exact Or.inl ⟨_, _, rfl, h0⟩
    | some l => exact Or.inr ⟨_, _, rfl, by rw [Env.calm, h0]⟩
  cases fs with
  | nil => exact key ⟨st, ck, []⟩ rfl
  | cons b rest =>
    cases b
    · exact key ⟨st, ck, rest⟩ rfl
    · exact Or.inl ⟨_, _, rfl, rfl⟩

theorem mappingFindAllByLink_outcome (id : Int) (e : Env) :
    (∃ e1, MappingRepository.FindAllByExternalLinkId id e = (.error .dbError, e1) ∧
      e1.store = e.store) ∨
    (∃ e1, MappingRepository.FindAllByExternalLinkId id e =
        (.ok (e.store.mappings.filter (fun m => m.ExternalLinkId == id)), e1) ∧
      e1.calm = e.calm) := by
  obtain ⟨st, ck, fs⟩ := e
  cases fs with
  | nil => exact Or.inr ⟨_, rfl, rfl⟩
  | cons b rest =>
    cases b
    · exact Or.inr ⟨_, rfl, rfl⟩
    · exact Or.inl ⟨_, rfl, rfl⟩

theorem mappingFindAllActiveByLink_outcome (id : Int) (e : Env) :
    (∃ e1, MappingRepository.FindAllActiveByExternalLinkId id e = (.error .dbError, e1) ∧
      e1.store = e.store) ∨
    (∃ e1, MappingRepository.FindAllActiveByExternalLinkId id e =
        (.ok (e.store.mappings.filter (fun m => m.ExternalLinkId == id && m.Active)), e1) ∧
      e1.calm = e.calm) := by
  obtain ⟨st, ck, fs⟩ := e
  cases fs with
  | nil => exact Or.inr ⟨_, rfl, rfl⟩
  | cons b rest =>
    cases b
    · exact Or.inr ⟨_, rfl, rfl⟩
    · exact Or.inl ⟨_, rfl, rfl⟩

/-- A run of the tombstone loop either succeeds, as it does without scripted
failures, or stops at a failed write and leaves the store of the loop run, without
failure, on a prefix of the fetched rows. -/
theorem deactivateAll_outcome (userId : Int) (snap : List ExternalLinkClusterMapping) :
    ∀ e : Env,
    (∃ s1 eD, deactivateAll userId snap e = (.ok s1, eD) ∧
      deactivateAll userId snap e.calm = (.ok s1, eD.calm)) ∨
    (∃ err eD snap1 s1 e1, deactivateAll userId snap e = (.error err, eD) ∧
      snap1 <+: snap ∧ deactivateAll userId snap1 e.calm = (.ok s1, e1) ∧
      eD.store = e1.store) := by
  induction snap with
  | nil => intro e; exact Or.inl ⟨[], e, rfl, rfl⟩
  | cons m rest ih =>
    intro e
    rcases mappingUpdate_outcome
      { m with Active := false, UpdatedBy := userId, UpdatedOn := (timeNow e).1 } (timeNow e).2
      with ⟨e1, hU, hs⟩ | ⟨e1, hU, hUc⟩
    · refine Or.inr ⟨.dbError, e1, [], [], e.calm, ?_, List.nil_prefix, rfl, hs⟩
      rw [deactivateAll]
      simp only [hU]
    · have hUc2 : MappingRepository.Update
          { m with Active := false, UpdatedBy := userId, UpdatedOn := (timeNow e.calm).1 }
          (timeNow e.calm).2 = (.ok (), e1.calm) := hUc
      rcases ih e1 with ⟨s1, eD, hD, hDc⟩ | ⟨err, eD, snap1, s1, e2, hD, hpre, hDc, hst⟩
      · refine Or.inl
          ⟨{ m with Active := false, UpdatedBy := userId, UpdatedOn := (timeNow e).1 } :: s1,
            eD, ?_, ?_⟩
        · rw [deactivateAll]
          simp only [hU, hD]
        · rw [deactivateAll]
          simp only [hUc2, hDc]
          rfl
      · refine Or.inr ⟨err, eD, m :: snap1,
          { m with Active := false, UpdatedBy := userId, UpdatedOn := (timeNow e).1 } :: s1,
          e2, ?_, ?_, ?_, hst⟩
        · rw [deactivateAll]
          simp only [hU, hD]
        · exact (List.prefix_cons_inj m).2 hpre
        · rw [deactivateAll]
          simp only [hUc2, hDc]
          rfl

/-- A run of the inner loop of `Create`: success as without scripted failures, or the
fixed error and the store of the loop run on a prefix of the cluster ids. -/
theorem createMappings_outcome (linkId userId : Int) (cs : List Int) :
    ∀ e : Env,
    (∃ eD, createMappings linkId userId cs e = (.ok (), eD) ∧
      createMappings linkId userId cs e.calm = (.ok (), eD.calm)) ∨
    (∃ eD cs1 e1, createMappings linkId userId cs e = (.error clusterIdFailed, eD) ∧
      cs1 <+: cs ∧ cs1 ≠ cs ∧ createMappings linkId userId cs1 e.calm = (.ok (), e1) ∧
      eD.store = e1.store) := by
  induction cs with
  | nil => intro e; exact Or.inl ⟨e, rfl, rfl⟩
  | cons c rest ih =>
    intro e
    rcases mappingSave_outcome
      { Id := 0, ExternalLinkId := linkId, ClusterId := c, Active := true,
        CreatedOn := (timeNow e).1, CreatedBy := userId,
        UpdatedOn := (timeNow (timeNow e).2).1, UpdatedBy := userId }
      (timeNow (timeNow e).2).2 with ⟨e1, hS, hs⟩ | ⟨m1, e1, hS, hSc⟩
    · refine Or.inr ⟨e1, [], e.calm, ?_, List.nil_prefix, by simp, rfl, hs⟩
      rw [createMappings]
      simp only [hS]
    · have hSc2 : MappingRepository.Save
          { Id := 0, ExternalLinkId := linkId, ClusterId := c, Active := true,
            CreatedOn := (timeNow e.calm).1, CreatedBy := userId,
            UpdatedOn := (timeNow (timeNow e.calm).2).1, UpdatedBy := userId }
          (timeNow (timeNow e.calm).2).2 = (.ok m1, e1.calm) := hSc
      rcases ih e1 with ⟨eD, hD, hDc⟩ | ⟨eD, cs1, e2, hD, hpre, hne, hDc, hst⟩
      · refine Or.inl ⟨eD, ?_, ?_⟩
        · rw [createMappings]
          simp only [hS, hD]
        · rw [createMappings]
          simp only [hSc2, hDc]
      · refine Or.inr ⟨eD, c :: cs1, e2, ?_, ?_, ?_, ?_, hst⟩
        · rw [createMappings]
          simp only [hS, hD]
        · exact (List.prefix_cons_inj c).2 hpre
        · simpa using hne
        · rw [createMappings]
          simp only [hSc2, hDc]

/-- A run of the reconciliation loop: success as without scripted failures, or the
fixed error and the store of the loop run on a prefix of the requested ids. -/
theorem reconcile_outcome (request : ExternalLinkDto) (S : List Int) :
    ∀ (all : List ExternalLinkClusterMapping) (e : Env),
    (∃ eD, reconcile request all S e = (.ok (), eD) ∧
      reconcile request all S e.calm = (.ok (), eD.calm)) ∨
    (∃ eD S1 e1, reconcile request all S e = (.error clusterIdFailed, eD) ∧
      S1 <+: S ∧ S1 ≠ S ∧ reconcile request all S1 e.calm = (.ok (), e1) ∧
      eD.store = e1.store) := by
  induction S with
  | nil => intro all e; exact Or.inl ⟨e, rfl, rfl⟩
  | cons c rest ih =>
    intro all e
    cases hre : reuseId all c with
    | some i =>
      obtain ⟨model, _, hmid, _, hpos, hf⟩ := reuseId_some hre
      have hpos1 : 0 < model.Id := hmid ▸ hpos
      have hfail : ∀ e0, reconcile request all [] e0 = (.ok (), e0) := fun e0 => by
        cases all <;> rfl
      rcases mappingUpdate_outcome
        { model with Active := true, UpdatedOn := (timeNow e).1, UpdatedBy := request.UserId }
        (timeNow e).2 with ⟨e1, hU, hs⟩ | ⟨e1, hU, hUc⟩
      · refine Or.inr ⟨e1, [], e.calm, ?_, List.nil_prefix, by simp, hfail _, hs⟩
        rw [reconcile_cons_reuse request all c rest e model hf hpos1]
        simp only [hU]
      · have hUc2 : MappingRepository.Update
            { model with Active := true, UpdatedOn := (timeNow e.calm).1,
                         UpdatedBy := request.UserId }
            (timeNow e.calm).2 = (.ok (), e1.calm) := hUc
        rcases ih (setFirst (fun model => c == model.ClusterId)
            (fun _ => { model with Active := true, UpdatedOn := (timeNow e).1,
                                   UpdatedBy := request.UserId }) all) e1
          with ⟨eD, hD, hDc⟩ | ⟨eD, S1, e2, hD, hpre, hne, hDc, hst⟩
        · refine Or.inl ⟨eD, ?_, ?_⟩
          · rw [reconcile_cons_reuse request all c rest e model hf hpos1]
            simp only [hU, hD]
          · rw [reconcile_cons_reuse request all c rest e.calm model hf hpos1]
            simp only [hUc2]
            exact hDc
        · refine Or.inr ⟨eD, c :: S1, e2, ?_, (List.prefix_cons_inj c).2 hpre,
            by simpa using hne, ?_, hst⟩
          · rw [reconcile_cons_reuse request all c rest e model hf hpos1]
            simp only [hU, hD]
          · rw [reconcile_cons_reuse request all c S1 e.calm model hf hpos1]
            simp only [hUc2]
            exact hDc
    | none =>
      have hfail : ∀ e0, reconcile request all [] e0 = (.ok (), e0) := fun e0 => by
        cases all <;> rfl
      rcases mappingSave_outcome
        { Id := 0, ExternalLinkId := request.Id, ClusterId := c, Active := true,
          CreatedOn := (timeNow e).1, CreatedBy := request.UserId,
          UpdatedOn := (timeNow (timeNow e).2).1, UpdatedBy := request.UserId }
        (timeNow (timeNow e).2).2 with ⟨e1, hS, hs⟩ | ⟨m1, e1, hS, hSc⟩
      · refine Or.inr ⟨e1, [], e.calm, ?_, List.nil_prefix, by simp, hfail _, hs⟩
        rw [reconcile_cons_insert request all c rest e hre]
        simp only [hS]
      · have hSc2 : MappingRepository.Save
            { Id := 0, ExternalLinkId := request.Id, ClusterId := c, Active := true,
              CreatedOn := (timeNow e.calm).1, CreatedBy := request.UserId,
              UpdatedOn := (timeNow (timeNow e.calm).2).1, UpdatedBy := request.UserId }
            (timeNow (timeNow e.calm).2).2 = (.ok m1, e1.calm) := hSc
        rcases ih all e1 with ⟨eD, hD, hDc⟩ | ⟨eD, S1, e2, hD, hpre, hne, hDc, hst⟩
        · refine Or.inl ⟨eD, ?_, ?_⟩
          · rw [reconcile_cons_insert request all c rest e hre]
            simp only [hS, hD]
          · rw [reconcile_cons_insert request all c rest e.calm hre]
            simp only [hSc2, hDc]
        · refine Or.inr ⟨eD, c :: S1, e2, ?_, (List.prefix_cons_inj c).2 hpre,
            by simpa using hne, ?_, hst⟩
          · rw [reconcile_cons_insert request all c rest e hre]
            simp only [hS, hD]
          · rw [reconcile_cons_insert request all c S1 e.calm hre]
            simp only [hSc2, hDc]

theorem reconcile_congr_request (r1 r2 : ExternalLinkDto) (hid : r1.Id = r2.Id)
    (hu : r1.UserId = r2.UserId) (S : List Int) :
    ∀ (all : List ExternalLinkClusterMapping) (e : Env),
      reconcile r1 all S e = reconcile r2 all S e := by
  induction S with
  | nil => intro all e; cases all <;> rfl
  | cons c rest ih =>
    intro all e
    cases hre : reuseId all c with
    | some i =>
      obtain ⟨model, _, hmid, _, hpos, hf⟩ := reuseId_some hre
      have hpos1 : 0 < model.Id := hmid ▸ hpos
      rw [reconcile_cons_reuse r1 all c rest e model hf hpos1,
        reconcile_cons_reuse r2 all c rest e model hf hpos1, hu]
      rcases MappingRepository.Update
        { model with Active := true, UpdatedOn := (timeNow e).1, UpdatedBy := r2.UserId }
        (timeNow e).2 with ⟨r, e1⟩
      cases r with
      | error err => rfl
      | ok v => exact ih _ _
    | none =>
      rw [reconcile_cons_insert r1 all c rest e hre,
        reconcile_cons_insert r2 all c rest e hre, hu, hid]
      rcases MappingRepository.Save
        { Id := 0, ExternalLinkId := r2.Id, ClusterId := c, Active := true,
          CreatedOn := (timeNow e).1, CreatedBy := r2.UserId,
          UpdatedOn := (timeNow (timeNow e).2).1, UpdatedBy := r2.UserId }
        (timeNow (timeNow e).2).2 with ⟨r, e1⟩
      cases r with
      | error err => rfl
      | ok v => exact ih _ _

/-- The stores a run of `Update` can leave behind, whatever the repository calls
answer: the store it started from; or the store with the link record written and a
prefix of the fetched mapping rows tombstoned; or the store of a run without failure
of the same request with a prefix of its cluster ids. -/
theorem Update_outcome (request : ExternalLinkDto) (e : Env) :
    (Update request e).2.store = e.store ∨
    (∃ found eA snap1 s1 e1,
      e.store.links.find? (fun l => l.Id == request.Id) = some found ∧ eA.NoFaults ∧
      eA.store.links = e.store.links.map (fun l => if l.Id = found.Id then
        { found with Name := request.Name, Url := request.Url, Active := true,
                     ExternalLinkMonitoringToolId := request.MonitoringToolId,
                     UpdatedBy := request.UserId, UpdatedOn := e.clock } else l) ∧
      eA.store.mappings = e.store.mappings ∧
      snap1 <+: e.store.mappings.filter (fun m => m.ExternalLinkId == request.Id) ∧
      deactivateAll request.UserId snap1 eA = (.ok s1, e1) ∧
      (Update request e).2.store = e1.store) ∨
    (∃ S1 e1, S1 <+: request.ClusterIds ∧
      Update { request with ClusterIds := S1 } e.calm = (.ok { Success := true }, e1) ∧
      (Update request e).2.store = e1.store) := by
  rcases linkFindOne_outcome request.Id e with ⟨err, eF, hF, hFs⟩ | ⟨found, eF, hF, hFc⟩
  · left
    unfold Update
    rw [hF]
    exact hFs
  obtain ⟨hfound, hFs, hFck⟩ := linkFindOne_found request.Id e found eF hF
  have htime : (timeNow eF).1 = e.clock := hFck
  rcases linkUpdate_outcome
    { found with Name := request.Name, Url := request.Url, Active := true,
                 ExternalLinkMonitoringToolId := request.MonitoringToolId,
                 UpdatedBy := request.UserId, UpdatedOn := (timeNow eF).1 } (timeNow eF).2
    with ⟨eU, hU, hUs⟩ | ⟨eU, hU, hUc⟩
  · left
    unfold Update
    rw [hF]
    simp only []
    rw [hU]
    exact hUs.trans hFs
  obtain ⟨hUl, hUm⟩ := linkUpdate_result _ _ () eU hU
  simp only [store_timeNow, hFs, htime] at hUl hUm
  have hAl : eU.calm.store.links = e.store.links.map (fun l => if l.Id = found.Id then
        { found with Name := request.Name, Url := request.Url, Active := true,
                     ExternalLinkMonitoringToolId := request.MonitoringToolId,
                     UpdatedBy := request.UserId, UpdatedOn := e.clock } else l) := hUl
  have hAm : eU.calm.store.mappings = e.store.mappings := hUm
  have hnil : ∀ e0 : Env, deactivateAll request.UserId [] e0 = (.ok [], e0) := fun _ => rfl
  rcases mappingFindAllByLink_outcome request.Id eU with ⟨eL, hL, hLs⟩ | ⟨eL, hL, hLc⟩
  · right; left
    refine ⟨found, eU.calm, [], [], eU.calm, hfound, noFaults_calm _, hAl, hAm,
      List.nil_prefix, hnil _, ?_⟩
    unfold Update
    rw [hF]
    simp only []
    rw [hU]
    simp only []
    rw [hL]
    exact hLs
  rw [hUm] at hL
  rcases deactivateAll_outcome request.UserId
      (e.store.mappings.filter (fun m => m.ExternalLinkId == request.Id)) eL
    with ⟨s1, eD, hD, hDc⟩ | ⟨err, eD, snap1, s1, e1, hD, hpre, hDc, hDs⟩
  swap
  · right; left
    refine ⟨found, eU.calm, snap1, s1, e1, hfound, noFaults_calm _, hAl, hAm, hpre,
      hLc ▸ hDc, ?_⟩
    unfold Update
    rw [hF]
    simp only []
    rw [hU]
    simp only []
    rw [hL]
    simp only []
    rw [hD]
    exact hDs
  have hcalm : ∀ S1 eR, reconcile request s1 S1 eD.calm = (.ok (), eR) →
      Update { request with ClusterIds := S1 } e.calm = (.ok { Success := true }, eR) := by
    intro S1 eR hR
    have hR2 : reconcile { request with ClusterIds := S1 } s1 S1 eD.calm = (.ok (), eR) := by
      rw [reconcile_congr_request { request with ClusterIds := S1 } request rfl rfl]
      exact hR
    have hLcalm : MappingRepository.FindAllByExternalLinkId request.Id eU.calm =
        (.ok (e.store.mappings.filter (fun m => m.ExternalLinkId == request.Id)), eL.calm) := by
      rw [mappingFindAllByLink_ok (noFaults_calm eU), hLc]
      exact congrArg (fun ms => (Except.ok (List.filter
        (fun m : ExternalLinkClusterMapping => m.ExternalLinkId == request.Id) ms), eU.calm)) hUm
    unfold Update
    simp only []
    rw [hFc]
    simp only []
    erw [hUc]
    simp only []
    rw [hLcalm]
    simp only []
    rw [hDc]
    simp only []
    rw [hR2]
  right; right
  rcases reconcile_outcome request request.ClusterIds s1 eD
    with ⟨eR, hR, hRc⟩ | ⟨eR, S1, e1, hR, hpre, _, hRc, hRs⟩
  · refine ⟨request.ClusterIds, eR.calm, List.prefix_refl _, hcalm _ _ hRc, ?_⟩
    unfold Update
    rw [hF]
    simp only []
    rw [hU]
    simp only []
    rw [hL]
    simp only []
    rw [hD]
    simp only []
    rw [hR]
    rfl
  · refine ⟨S1, e1, hpre, hcalm _ _ hRc, ?_⟩
    unfold Update
    rw [hF]
    simp only []
    rw [hU]
    simp only []
    rw [hL]
    simp only []
    rw [hD]
    simp only []
    rw [hR]
    exact hRs

/-- Effect of `DeleteLink` without failure on a store with primary keys that holds
the link: the link record is rewritten inactive, the mapping table is rewritten row
by row, the rows of the link end inactive and every row that was not an active
mapping of the link is untouched. -/
theorem DeleteLink_shape (id userId : Int) (e : Env) (he : e.NoFaults)
    (hk : e.store.MappingKeys) (found : ExternalLink)
    (hf : e.store.links.find? (fun l => l.Id == id) = some found) :
    ∃ (G : ExternalLinkClusterMapping → ExternalLinkClusterMapping) (t : Nat) (e1 : Env),
      DeleteLink id userId e = (.ok { Success := true }, e1) ∧ e1.NoFaults ∧
      e1.store.tools = e.store.tools ∧
      e1.store.links = e.store.links.map (fun l => if l.Id = found.Id then
        { found with Active := false, UpdatedOn := t, UpdatedBy := userId } else l) ∧
      e1.store.mappings = e.store.mappings.map G ∧
      (∀ r ∈ e.store.mappings, rowKey (G r) = rowKey r) ∧
      (∀ r ∈ e.store.mappings, r.ExternalLinkId = id → (G r).Active = false) ∧
      (∀ r ∈ e.store.mappings, (r.ExternalLinkId ≠ id ∨ r.Active = false) → G r = r) := by
  have hsnapmem : ∀ m ∈ e.store.mappings.filter (fun m => m.ExternalLinkId == id && m.Active),
      m ∈ e.pop.store.mappings := fun m hm => List.mem_of_mem_filter hm
  obtain ⟨G, snap1, eB, hrunB, hnfB, hlB, htB, hmB, _, hB1, hB2, hB3⟩ :=
    deactivateAll_rows userId
      (e.store.mappings.filter (fun m => m.ExternalLinkId == id && m.Active)) e.pop
      (noFaults_pop he) hk hsnapmem
  have hlB0 : eB.store.links = e.store.links := hlB
  have hfB : eB.store.links.find? (fun l => l.Id == id) = some found := by
    rw [hlB0]; exact hf
  have htBnf : (timeNow eB.pop).2.NoFaults := noFaults_timeNow (noFaults_pop hnfB)
  obtain ⟨eC, heC⟩ : ∃ x, x = (timeNow eB.pop).2.pop.setLinks
      (eB.store.links.map (fun l => if l.Id = found.Id then
        { found with Active := false, UpdatedOn := (timeNow eB.pop).1, UpdatedBy := userId }
        else l)) := ⟨_, rfl⟩
  have hrun : DeleteLink id userId e = (.ok { Success := true }, eC) := by
    unfold DeleteLink
    rw [mappingFindAllActiveByLink_ok he]
    simp only []
    rw [hrunB]
    simp only []
    rw [linkFindOne_ok hnfB id found hfB]
    simp only []
    rw [linkUpdate_ok htBnf, heC]
    rfl
  have hin : ∀ r ∈ e.store.mappings,
      (r ∈ e.store.mappings.filter (fun m => m.ExternalLinkId == id && m.Active) ↔
        r.ExternalLinkId = id ∧ r.Active = true) := by
    intro r hr
    rw [List.mem_filter]
    simp [hr]
  refine ⟨G, (timeNow eB.pop).1, eC, hrun, ?_, ?_, ?_, ?_, hB3, ?_, ?_⟩
  · rw [heC]; exact noFaults_setLinks (noFaults_pop htBnf) _
  · rw [heC]; exact htB
  · rw [heC, ← hlB0]; rfl
  · rw [heC]; exact hmB
  · intro r hr hrl
    by_cases hra : r.Active = true
    · exact (hB1 r hr ((hin r hr).2 ⟨hrl, hra⟩)).2
    · have hns : r ∉ e.store.mappings.filter (fun m => m.ExternalLinkId == id && m.Active) :=
        fun h => hra ((hin r hr).1 h).2
      rw [hB2 r hr hns]
      simpa using hra
  · intro r hr hcond
    apply hB2 r hr
    intro h
    obtain ⟨h1, h2⟩ := (hin r hr).1 h
    rcases hcond with hc | hc
    · exact hc h1
    · rw [h2] at hc; exact Bool.noConfusion hc

/-- The stores a run of `DeleteLink` can leave behind, whatever the repository calls
answer: the store with a prefix of the active mapping rows of the link tombstoned
(the link record untouched); or the store of the run without failure. -/
theorem DeleteLink_outcome (id userId : Int) (e : Env) :
    (∃ snap1 s1 e1,
      snap1 <+: e.store.mappings.filter (fun m => m.ExternalLinkId == id && m.Active) ∧
      deactivateAll userId snap1 e.calm = (.ok s1, e1) ∧
      (DeleteLink id userId e).2.store = e1.store) ∨
    (∃ found e1, e.store.links.find? (fun l => l.Id == id) = some found ∧
      DeleteLink id userId e.calm = (.ok { Success := true }, e1) ∧
      (DeleteLink id userId e).2.store = e1.store) := by
  have hnil : ∀ e0 : Env, deactivateAll userId [] e0 = (.ok [], e0) := fun _ => rfl
  rcases mappingFindAllActiveByLink_outcome id e with ⟨eL, hL, hLs⟩ | ⟨eL, hL, hLc⟩
  · left
    refine ⟨[], [], e.calm, List.nil_prefix, hnil _, ?_⟩
    unfold DeleteLink
    rw [hL]
    exact hLs
  rcases deactivateAll_outcome userId
      (e.store.mappings.filter (fun m => m.ExternalLinkId == id && m.Active)) eL
    with ⟨s1, eD, hD, hDc⟩ | ⟨err, eD, snap1, s1, e1, hD, hpre, hDc, hDs⟩
  swap
  · left
    refine ⟨snap1, s1, e1, hpre, hLc ▸ hDc, ?_⟩
    unfold DeleteLink
    rw [hL]
    simp only []
    rw [hD]
    exact hDs
  rw [hLc] at hDc
  rcases linkFindOne_outcome id eD with ⟨err, eF, hF, hFs⟩ | ⟨found, eF, hF, hFc⟩
  · left
    refine ⟨_, s1, eD.calm, List.prefix_refl _, hDc, ?_⟩
    unfold DeleteLink
    rw [hL]
    simp only []
    rw [hD]
    simp only []
    rw [hF]
    exact hFs
  obtain ⟨hfound, hFs, _⟩ := linkFindOne_found id eD found eF hF
  rcases linkUpdate_outcome
    { found with Active := false, UpdatedOn := (timeNow eF).1, UpdatedBy := userId }
    (timeNow eF).2 with ⟨eU, hU, hUs⟩ | ⟨eU, hU, hUc⟩
  · left
    refine ⟨_, s1, eD.calm, List.prefix_refl _, hDc, ?_⟩
    unfold DeleteLink
    rw [hL]
    simp only []
    rw [hD]
    simp only []
    rw [hF]
    simp only []
    rw [hU]
    exact hUs.trans hFs
  · right
    have hlinks : eD.store.links = e.store.links := by
      have h1 := (deactivateAll_frame userId
        (e.store.mappings.filter (fun m => m.ExternalLinkId == id && m.Active)) eL).1
      rw [hD] at h1
      have h2 : eL.calm.store = e.calm.store := congrArg (fun x : Env => x.store) hLc
      exact h1.trans (congrArg Store.links h2)
    refine ⟨found, eU.calm, hlinks ▸ hfound, ?_, ?_⟩
    · unfold DeleteLink
      rw [mappingFindAllActiveByLink_ok (noFaults_calm e)]
      simp only []
      erw [hDc]
      simp only []
      rw [hFc]
      simp only []
      erw [hUc]
    · unfold DeleteLink
      rw [hL]
      simp only []
      rw [hD]
      simp only []
      rw [hF]
      simp only []
      rw [hU]
      rfl

/-- The stores a run of `Create` can leave behind, whatever the repository calls
answer: the store of a run without failure on requests whose cluster-id lists are
prefixes of cluster-id lists of the given requests. -/
theorem Create_outcome (userId : Int) (requests : List ExternalLinkDto) :
    ∀ e : Env, ∃ requests1 e1,
      Create requests1 userId e.calm = (.ok { Success := true }, e1) ∧
      (Create requests userId e).2.store = e1.store ∧
      (∀ r1 ∈ requests1, ∃ r ∈ requests, r1.ClusterIds <+: r.ClusterIds) := by
  induction requests with
  | nil => intro e; exact ⟨[], e.calm, rfl, rfl, by simp⟩
  | cons req rest ih =>
    intro e
    rcases linkSave_outcome
      { Id := 0, Name := req.Name, Active := true,
        ExternalLinkMonitoringToolId := req.MonitoringToolId, Url := req.Url,
        CreatedOn := (timeNow e).1, CreatedBy := userId,
        UpdatedOn := (timeNow (timeNow e).2).1, UpdatedBy := userId }
      (timeNow (timeNow e).2).2 with ⟨eS, hS, hSs⟩ | ⟨t1, eS, hS, hSc⟩
    · refine ⟨[], e.calm, rfl, ?_, by simp⟩
      rw [Create]
      simp only [hS]
      exact hSs
    have hSc2 : ∀ cs : List Int, LinkRepository.Save
        { Id := 0, Name := ({ req with ClusterIds := cs } : ExternalLinkDto).Name, Active := true,
          ExternalLinkMonitoringToolId := ({ req with ClusterIds := cs } : ExternalLinkDto).MonitoringToolId,
          Url := ({ req with ClusterIds := cs } : ExternalLinkDto).Url,
          CreatedOn := (timeNow e.calm).1, CreatedBy := userId,
          UpdatedOn := (timeNow (timeNow e.calm).2).1, UpdatedBy := userId }
        (timeNow (timeNow e.calm).2).2 = (.ok t1, eS.calm) := fun _ => hSc
    rcases createMappings_outcome t1.Id userId req.ClusterIds eS
      with ⟨eD, hD, hDc⟩ | ⟨eD, cs1, e1, hD, hpre, _, hDc, hDs⟩
    · obtain ⟨requests1, e1, hrun, hst, hpre⟩ := ih eD
      refine ⟨req :: requests1, e1, ?_, ?_, ?_⟩
      · rw [Create]
        have := hSc2 req.ClusterIds
        simp only [] at this
        simp only [this, hDc]
        exact hrun
      · rw [Create]
        simp only [hS, hD]
        exact hst
      · intro r1 hr1
        rcases List.mem_cons.1 hr1 with h | h
        · exact ⟨req, by simp, h ▸ List.prefix_refl _⟩
        · obtain ⟨r, hr, hp⟩ := hpre r1 h
          exact ⟨r, by simp [hr], hp⟩
    · refine ⟨[{ req with ClusterIds := cs1 }], e1, ?_, ?_, ?_⟩
      · rw [Create]
        simp only [hSc2 cs1, hDc]
        rfl
      · rw [Create]
        simp only [hS, hD]
        exact hDs
      · intro r1 hr1
        simp only [List.mem_singleton] at hr1
        exact ⟨req, by simp, hr1 ▸ hpre⟩

/-! ## Invariants of the store -/

theorem length_le_one_of_same_id (l : List ExternalLinkClusterMapping)
    (hnd : (l.map (·.Id)).Nodup) (h : ∀ a ∈ l, ∀ b ∈ l, a.Id = b.Id) : l.length ≤ 1 := by
  match l, hnd, h with
  | [], _, _ => simp
  | [_], _, _ => simp
  | a :: b :: t, hnd, h =>
    exfalso
    simp only [List.map_cons, List.nodup_cons, List.mem_cons, not_or] at hnd
    exact hnd.1.1 (h a (by simp) b (by simp))

theorem eq_of_length_le_one {α : Type} {l : List α} (h : l.length ≤ 1) {a b : α}
    (ha : a ∈ l) (hb : b ∈ l) : a = b := by
  match l, h, ha, hb with
  | [x], _, ha, hb =>
    simp only [List.mem_singleton] at ha hb
    rw [ha, hb]
  | x :: y :: t, h, _, _ => simp at h

/-- With primary keys, "at most one active row per pair" says that two active rows of
the same link and cluster are the same row. -/
theorem atMostOne_iff_ids (s : Store) (hk : s.MappingKeys) :
    s.AtMostOneActive ↔
      ∀ a ∈ s.mappings, ∀ b ∈ s.mappings, a.Active = true → b.Active = true →
        a.ExternalLinkId = b.ExternalLinkId → a.ClusterId = b.ClusterId → a.Id = b.Id := by
  constructor
  · intro h a ha b hb haa hba hl hc
    have hfa : a ∈ s.mappings.filter (fun r => r.Active && r.ExternalLinkId == a.ExternalLinkId
        && r.ClusterId == a.ClusterId) := by
      rw [List.mem_filter]; exact ⟨ha, by simp [haa]⟩
    have hfb : b ∈ s.mappings.filter (fun r => r.Active && r.ExternalLinkId == a.ExternalLinkId
        && r.ClusterId == a.ClusterId) := by
      rw [List.mem_filter]; exact ⟨hb, by simp [hba, hl, hc]⟩
    rw [eq_of_length_le_one (h a.ExternalLinkId a.ClusterId) hfa hfb]
  · intro h l c
    apply length_le_one_of_same_id
    · exact ((List.filter_sublist _).map _).nodup hk
    · intro a ha b hb
      rw [List.mem_filter] at ha hb
      simp only [Bool.and_eq_true, beq_iff_eq] at ha hb
      exact h a ha.1 b hb.1 ha.2.1.1 hb.2.1.1 (ha.2.1.2.trans hb.2.1.2.symm)
        (ha.2.2.trans hb.2.2.symm)

theorem rowKey_fields {a b : ExternalLinkClusterMapping} (h : rowKey a = rowKey b) :
    a.Id = b.Id ∧ a.ExternalLinkId = b.ExternalLinkId ∧ a.ClusterId = b.ClusterId :=
  ⟨congrArg (·.1) h, congrArg (·.2.1) h, congrArg (·.2.2.1) h⟩

theorem map_id_of_rowKey (ms : List ExternalLinkClusterMapping)
    (G : ExternalLinkClusterMapping → ExternalLinkClusterMapping)
    (hG : ∀ r ∈ ms, rowKey (G r) = rowKey r) : (ms.map G).map (·.Id) = ms.map (·.Id) := by
  rw [List.map_map]
  apply List.map_congr_left
  intro r hr
  exact rowKey_id (hG r hr)

theorem map_id_replace_link (ls : List ExternalLink) (i : Int) (t : ExternalLink)
    (ht : t.Id = i) :
    (ls.map (fun l => if l.Id = i then t else l)).map (·.Id) = ls.map (·.Id) := by
  rw [List.map_map]
  apply List.map_congr_left
  intro l _
  by_cases h : l.Id = i
  · simp [h, ht]
  · simp [h]

/-- Rows that are only tombstoned: the invariants of the store survive, provided the
link table keeps its identities and every link record that was active is still
active or has no active mapping left. -/
theorem invariants_of_tombstones (s s1 : Store)
    (G : ExternalLinkClusterMapping → ExternalLinkClusterMapping)
    (hm : s1.mappings = s.mappings.map G)
    (hG : ∀ r ∈ s.mappings, G r = r ∨ (rowKey (G r) = rowKey r ∧ (G r).Active = false))
    (hl : s1.links.map (·.Id) = s.links.map (·.Id))
    (hla : ∀ l ∈ s.links, l.Active = true →
      (∃ l1 ∈ s1.links, l1.Id = l.Id ∧ l1.Active = true) ∨
      (∀ r ∈ s1.mappings, r.ExternalLinkId = l.Id → r.Active = false))
    (hwf : s.WellFormed) :
    s1.WellFormed ∧ (s.Referential → s1.Referential) ∧
      (s.AtMostOneActive → s1.AtMostOneActive) := by
  obtain ⟨hlk, hmk, hfk⟩ := hwf
  have hkey : ∀ r ∈ s.mappings, rowKey (G r) = rowKey r := by
    intro r hr
    rcases hG r hr with h | h
    · rw [h]
    · exact h.1
  have hact : ∀ r ∈ s.mappings, (G r).Active = true → G r = r := by
    intro r hr ha
    rcases hG r hr with h | h
    · exact h
    · rw [h.2] at ha; exact Bool.noConfusion ha
  have hmk1 : s1.MappingKeys := by
    show (s1.mappings.map (·.Id)).Nodup
    rw [hm, map_id_of_rowKey _ _ hkey]; exact hmk
  refine ⟨⟨?_, hmk1, ?_⟩, ?_, ?_⟩
  · show (s1.links.map (·.Id)).Nodup
    rw [hl]; exact hlk
  · intro r1 hr1
    rw [hm] at hr1
    obtain ⟨r, hr, hre⟩ := List.mem_map.1 hr1
    subst hre
    rw [hl, (rowKey_fields (hkey r hr)).2.1]
    exact hfk r hr
  · intro href r1 hr1 ha
    have hr1' := hr1
    rw [hm] at hr1
    obtain ⟨r, hr, hre⟩ := List.mem_map.1 hr1
    subst hre
    have hfix := hact r hr ha
    rw [hfix] at ha hr1' ⊢
    obtain ⟨l, hlm, hlid, hlact⟩ := href r hr ha
    rcases hla l hlm hlact with ⟨l1, hl1, hl1id, hl1a⟩ | hnone
    · exact ⟨l1, hl1, hl1id.trans hlid, hl1a⟩
    · have := hnone r hr1' hlid.symm
      rw [this] at ha; exact Bool.noConfusion ha
  · intro hamo
    rw [atMostOne_iff_ids s1 hmk1]
    have h0 := (atMostOne_iff_ids s hmk).1 hamo
    intro a ha b hb haa hba hlk2 hcl
    rw [hm] at ha hb
    obtain ⟨ra, hra, hrae⟩ := List.mem_map.1 ha
    obtain ⟨rb, hrb, hrbe⟩ := List.mem_map.1 hb
    subst hrae hrbe
    have fa := hact ra hra haa
    have fb := hact rb hrb hba
    rw [fa] at haa hlk2 hcl ⊢
    rw [fb] at hba hlk2 hcl ⊢
    exact h0 ra hra rb hrb haa hba hlk2 hcl

theorem view_nodup (L : Int) (cs : List Int) (h : cs.Nodup) :
    (cs.map (fun c => (L, c, true))).Nodup := by
  apply List.Nodup.map _ h
  intro a b hab
  exact congrArg (·.2.1) hab

/-- The store after an `Update` without failure keeps the invariants of the store;
"at most one active row per pair" needs a request without repeated cluster id. -/
theorem invariants_of_update (s s1 : Store) (L : Int) (S : List Int)
    (found found1 : ExternalLink)
    (G : ExternalLinkClusterMapping → ExternalLinkClusterMapping)
    (new : List ExternalLinkClusterMapping)
    (hfound : found ∈ s.links) (hfid : found.Id = L)
    (hf1 : found1.Id = found.Id) (hf1a : found1.Active = true)
    (hl : s1.links = s.links.map (fun l => if l.Id = found.Id then found1 else l))
    (hm : s1.mappings = s.mappings.map G ++ new)
    (hG0 : ∀ r ∈ s.mappings, rowKey (G r) = rowKey r)
    (hG1 : ∀ r ∈ s.mappings, r.ExternalLinkId ≠ L → G r = r)
    (hG2 : ∀ r ∈ s.mappings, r.ExternalLinkId = L →
      ((G r).Active = true ↔ ∃ c ∈ S,
        reuseId (s.mappings.filter (fun m => m.ExternalLinkId == L)) c = some r.Id))
    (hnew : new.map (fun n => (n.ExternalLinkId, n.ClusterId, n.Active)) =
      (S.filter (fun c =>
        (reuseId (s.mappings.filter (fun m => m.ExternalLinkId == L)) c).isNone)).map
        (fun c => (L, c, true)))
    (hfresh : ∀ n ∈ new, n.Id ∉ s.mappings.map (·.Id)) (hnd : (new.map (·.Id)).Nodup)
    (hwf : s.WellFormed) :
    s1.WellFormed ∧ (s.Referential → s1.Referential) ∧
      (S.Nodup → s.AtMostOneActive → s1.AtMostOneActive) := by
  obtain ⟨hlk, hmk, hfk⟩ := hwf
  have hnewrow : ∀ n ∈ new, n.ExternalLinkId = L ∧ n.Active = true ∧
      reuseId (s.mappings.filter (fun m => m.ExternalLinkId == L)) n.ClusterId = none := by
    intro n hn
    have : (n.ExternalLinkId, n.ClusterId, n.Active) ∈
        new.map (fun n => (n.ExternalLinkId, n.ClusterId, n.Active)) :=
      List.mem_map_of_mem _ hn
    rw [hnew] at this
    obtain ⟨c, hc, hce⟩ := List.mem_map.1 this
    have h1 : L = n.ExternalLinkId := congrArg (·.1) hce
    have h2 : c = n.ClusterId := congrArg (·.2.1) hce
    have h3 : true = n.Active := congrArg (·.2.2) hce
    rw [List.mem_filter] at hc
    refine ⟨h1.symm, h3.symm, ?_⟩
    rw [← h2]
    simpa using hc.2
  have hids : s1.mappings.map (·.Id) = s.mappings.map (·.Id) ++ new.map (·.Id) := by
    rw [hm, List.map_append, map_id_of_rowKey _ _ hG0]
  have hlids : s1.links.map (·.Id) = s.links.map (·.Id) := by
    rw [hl]
    rw [List.map_map]
    apply List.map_congr_left
    intro l _
    by_cases h : l.Id = found.Id
    · simp [h, hf1]
    · simp [h]
  have hmk1 : s1.MappingKeys := by
    show (s1.mappings.map (·.Id)).Nodup
    rw [hids, List.nodup_append]
    refine ⟨hmk, hnd, ?_⟩
    intro i hi1 hi2
    obtain ⟨n, hn, hne⟩ := List.mem_map.1 hi2
    exact hfresh n hn (hne ▸ hi1)
  have hLmem : L ∈ s.links.map (·.Id) := List.mem_map.2 ⟨found, hfound, hfid⟩
  have hf1mem : found1 ∈ s1.links := by
    rw [hl]
    have := List.mem_map_of_mem (fun l : ExternalLink => if l.Id = found.Id then found1 else l)
      hfound
    simpa using this
  have hreuse : ∀ r ∈ s.mappings, r.ExternalLinkId = L → (G r).Active = true →
      reuseId (s.mappings.filter (fun m => m.ExternalLinkId == L)) r.ClusterId = some r.Id := by
    intro r hr hrl ha
    obtain ⟨c, _, hre⟩ := (hG2 r hr hrl).1 ha
    obtain ⟨m, hmm, hmid, hmc, _, _⟩ := reuseId_some hre
    have : m = r := eq_of_id_eq hmk (List.mem_of_mem_filter hmm) hr hmid
    subst this
    rw [hmc]; exact hre
  refine ⟨⟨?_, hmk1, ?_⟩, ?_, ?_⟩
  · show (s1.links.map (·.Id)).Nodup
    rw [hlids]; exact hlk
  · intro r1 hr1
    rw [hlids]
    rw [hm] at hr1
    rcases List.mem_append.1 hr1 with h | h
    · obtain ⟨r, hr, hre⟩ := List.mem_map.1 h
      subst hre
      rw [(rowKey_fields (hG0 r hr)).2.1]
      exact hfk r hr
    · rw [(hnewrow r1 h).1]; exact hLmem
  · intro href r1 hr1 ha
    have hL : r1.ExternalLinkId = L → ∃ l ∈ s1.links, l.Id = r1.ExternalLinkId ∧ l.Active = true :=
      fun h => ⟨found1, hf1mem, by rw [hf1, hfid, h], hf1a⟩
    rw [hm] at hr1
    rcases List.mem_append.1 hr1 with h | h
    · obtain ⟨r, hr, hre⟩ := List.mem_map.1 h
      subst hre
      by_cases hrl : r.ExternalLinkId = L
      · exact hL ((rowKey_fields (hG0 r hr)).2.1.trans hrl)
      · rw [hG1 r hr hrl] at ha ⊢
        obtain ⟨l, hlm, hlid, hla⟩ := href r hr ha
        refine ⟨l, ?_, hlid, hla⟩
        rw [hl]
        have hne : ¬ l.Id = found.Id := by
          rw [hlid, hfid]; exact hrl
        have := List.mem_map_of_mem
          (fun l : ExternalLink => if l.Id = found.Id then found1 else l) hlm
        simpa [hne] using this
    · exact hL (hnewrow r1 h).1
  · intro hS hamo
    rw [atMostOne_iff_ids s1 hmk1]
    have h0 := (atMostOne_iff_ids s hmk).1 hamo
    have hviews : (new.map (fun n => (n.ExternalLinkId, n.ClusterId, n.Active))).Nodup := by
      rw [hnew]
      exact view_nodup L _ (hS.filter _)
    have hold_new : ∀ ra ∈ s.mappings, ∀ b ∈ new, (G ra).Active = true →
        (G ra).ExternalLinkId = b.ExternalLinkId → (G ra).ClusterId = b.ClusterId → False := by
      intro ra hra b hb haa hlk2 hcl
      obtain ⟨_, k2, k3⟩ := rowKey_fields (hG0 ra hra)
      obtain ⟨hbl, _, hbn⟩ := hnewrow b hb
      have hral : ra.ExternalLinkId = L := by rw [← k2, hlk2, hbl]
      have := hreuse ra hra hral haa
      rw [← k3, hcl, hbn] at this
      exact Option.noConfusion this
    intro a ha b hb haa hba hlk2 hcl
    rw [hm] at ha hb
    rcases List.mem_append.1 ha with h1 | h1 <;> rcases List.mem_append.1 hb with h2 | h2
    · obtain ⟨ra, hra, hrae⟩ := List.mem_map.1 h1
      obtain ⟨rb, hrb, hrbe⟩ := List.mem_map.1 h2
      subst hrae hrbe
      obtain ⟨a1, a2, a3⟩ := rowKey_fields (hG0 ra hra)
      obtain ⟨b1, b2, b3⟩ := rowKey_fields (hG0 rb hrb)
      rw [a1, b1]
      by_cases hral : ra.ExternalLinkId = L
      · have hrbl : rb.ExternalLinkId = L := by rw [← b2, ← hlk2, a2, hral]
        have ea := hreuse ra hra hral haa
        have eb := hreuse rb hrb hrbl hba
        have hc : ra.ClusterId = rb.ClusterId := by rw [← a3, ← b3, hcl]
        rw [hc, eb] at ea
        exact (Option.some.inj ea).symm
      · have hrbl : rb.ExternalLinkId ≠ L := by
          rw [← b2, ← hlk2, a2]; exact hral
        rw [hG1 ra hra hral] at haa hlk2 hcl
        rw [hG1 rb hrb hrbl] at hba hlk2 hcl
        exact h0 ra hra rb hrb haa hba hlk2 hcl
    · obtain ⟨ra, hra, hrae⟩ := List.mem_map.1 h1
      subst hrae
      exact (hold_new ra hra b h2 haa hlk2 hcl).elim
    · obtain ⟨rb, hrb, hrbe⟩ := List.mem_map.1 h2
      subst hrbe
      exact (hold_new rb hrb a h1 hba hlk2.symm hcl.symm).elim
    · have : a = b := List.inj_on_of_nodup_map hviews h1 h2 (by
        simp only [Prod.mk.injEq]
        exact ⟨hlk2, hcl, haa.trans hba.symm⟩)
      rw [this]

theorem forall₂_exists_left {α β : Type} {R : α → β → Prop} {l1 : List α} {l2 : List β}
    (h : List.Forall₂ R l1 l2) : ∀ b ∈ l2, ∃ a ∈ l1, R a b := by
  induction h with
  | nil => intro b hb; simp at hb
  | cons hab _ ih =>
    intro b hb
    rcases List.mem_cons.1 hb with h1 | h1
    · subst h1; exact ⟨_, by simp, hab⟩
    · obtain ⟨a, ha, hr⟩ := ih b h1
      exact ⟨a, by simp [ha], hr⟩

/-- The store after a `Create` without failure keeps the invariants of the store;
"at most one active row per pair" needs requests without repeated cluster id. -/
theorem invariants_of_create (s s1 : Store) (requests : List ExternalLinkDto)
    (items : List (ExternalLink × List ExternalLinkClusterMapping))
    (hl : s1.links = s.links ++ items.map (·.1))
    (hm : s1.mappings = s.mappings ++ (items.map (·.2)).flatten)
    (hF : List.Forall₂ (fun req item =>
        item.1.Active = true ∧ item.1.Name = req.Name ∧ item.1.Url = req.Url ∧
        item.1.ExternalLinkMonitoringToolId = req.MonitoringToolId ∧
        item.2.map (fun r => (r.ExternalLinkId, r.ClusterId, r.Active)) =
          req.ClusterIds.map (fun c => (item.1.Id, c, true))) requests items)
    (hlf : ∀ item ∈ items, item.1.Id ∉ s.links.map (·.Id))
    (hlnd : (items.map (·.1.Id)).Nodup)
    (hmf : ∀ r ∈ (items.map (·.2)).flatten, r.Id ∉ s.mappings.map (·.Id))
    (hmnd : (((items.map (·.2)).flatten).map (·.Id)).Nodup)
    (hwf : s.WellFormed) :
    s1.WellFormed ∧ (s.Referential → s1.Referential) ∧
      ((∀ req ∈ requests, req.ClusterIds.Nodup) → s.AtMostOneActive → s1.AtMostOneActive) := by
  obtain ⟨hlk, hmk, hfk⟩ := hwf
  have hitem : ∀ item ∈ items, item.1.Active = true ∧ ∃ req ∈ requests,
      item.2.map (fun r => (r.ExternalLinkId, r.ClusterId, r.Active)) =
        req.ClusterIds.map (fun c => (item.1.Id, c, true)) := by
    intro item hi
    obtain ⟨req, hreq, hR⟩ := forall₂_exists_left hF item hi
    exact ⟨hR.1, req, hreq, hR.2.2.2.2⟩
  have hrow : ∀ r ∈ (items.map (·.2)).flatten, ∃ item ∈ items, r ∈ item.2 ∧
      r.ExternalLinkId = item.1.Id ∧ r.Active = true := by
    intro r hr
    obtain ⟨rows, hrows, hrr⟩ := List.mem_flatten.1 hr
    obtain ⟨item, hi, hie⟩ := List.mem_map.1 hrows
    subst hie
    obtain ⟨_, req, _, hv⟩ := hitem item hi
    have : (r.ExternalLinkId, r.ClusterId, r.Active) ∈
        req.ClusterIds.map (fun c => (item.1.Id, c, true)) :=
      hv ▸ List.mem_map_of_mem _ hrr
    obtain ⟨c, _, hc⟩ := List.mem_map.1 this
    exact ⟨item, hi, hrr, (congrArg (·.1) hc).symm, (congrArg (·.2.2) hc).symm⟩
  have hmk1 : s1.MappingKeys := by
    show (s1.mappings.map (·.Id)).Nodup
    rw [hm, List.map_append, List.nodup_append]
    refine ⟨hmk, hmnd, ?_⟩
    intro i hi1 hi2
    obtain ⟨r, hr, hre⟩ := List.mem_map.1 hi2
    exact hmf r hr (hre ▸ hi1)
  have hlids : s1.links.map (·.Id) = s.links.map (·.Id) ++ items.map (·.1.Id) := by
    rw [hl, List.map_append, List.map_map]; rfl
  refine ⟨⟨?_, hmk1, ?_⟩, ?_, ?_⟩
  · show (s1.links.map (·.Id)).Nodup
    rw [hlids, List.nodup_append]
    refine ⟨hlk, hlnd, ?_⟩
    intro i hi1 hi2
    obtain ⟨item, hit, hie⟩ := List.mem_map.1 hi2
    exact hlf item hit (hie ▸ hi1)
  · intro r hr
    rw [hlids]
    rw [hm] at hr
    rcases List.mem_append.1 hr with h | h
    · exact List.mem_append_left _ (hfk r h)
    · obtain ⟨item, hi, _, hrl, _⟩ := hrow r h
      exact List.mem_append_right _ (List.mem_map.2 ⟨item, hi, hrl.symm⟩)
  · intro href r hr ha
    rw [hm] at hr
    rcases List.mem_append.1 hr with h | h
    · obtain ⟨l, hlm, hlid, hla⟩ := href r h ha
      exact ⟨l, by rw [hl]; exact List.mem_append_left _ hlm, hlid, hla⟩
    · obtain ⟨item, hi, _, hrl, _⟩ := hrow r h
      refine ⟨item.1, ?_, hrl.symm, (hitem item hi).1⟩
      rw [hl]
      exact List.mem_append_right _ (List.mem_map_of_mem _ hi)
  · intro hS hamo
    rw [atMostOne_iff_ids s1 hmk1]
    have h0 := (atMostOne_iff_ids s hmk).1 hamo
    have hold_new : ∀ a ∈ s.mappings, ∀ b ∈ (items.map (·.2)).flatten,
        a.ExternalLinkId = b.ExternalLinkId → False := by
      intro a ha b hb hlk2
      obtain ⟨item, hi, _, hrl, _⟩ := hrow b hb
      exact hlf item hi (by rw [← hrl, ← hlk2]; exact hfk a ha)
    intro a ha b hb haa hba hlk2 hcl
    rw [hm] at ha hb
    rcases List.mem_append.1 ha with h1 | h1 <;> rcases List.mem_append.1 hb with h2 | h2
    · exact h0 a h1 b h2 haa hba hlk2 hcl
    · exact (hold_new a h1 b h2 hlk2).elim
    · exact (hold_new b h2 a h1 hlk2.symm).elim
    · obtain ⟨ia, hia, hra, hal, _⟩ := hrow a h1
      obtain ⟨ib, hib, hrb, hbl, _⟩ := hrow b h2
      have hsame : ia = ib := List.inj_on_of_nodup_map hlnd hia hib (by
        show ia.1.Id = ib.1.Id
        rw [← hal, ← hbl, hlk2])
      subst hsame
      obtain ⟨_, req, hreq, hv⟩ := hitem ia hia
      have hviews : (ia.2.map (fun r => (r.ExternalLinkId, r.ClusterId, r.Active))).Nodup := by
        rw [hv]; exact view_nodup _ _ (hS req hreq)
      have : a = b := List.inj_on_of_nodup_map hviews hra hrb (by
        simp only [Prod.mk.injEq]
        exact ⟨hlk2, hcl, haa.trans hba.symm⟩)
      rw [this]

theorem nodup_of_initial {α : Type} {l1 l2 : List α} (h : l1 <+: l2) (hnd : l2.Nodup) :
    l1.Nodup := h.sublist.nodup hnd

/-- Whatever the repository calls answer, `Create` keeps the invariants of the store. -/
theorem Create_invariants (userId : Int) (requests : List ExternalLinkDto) (e : Env)
    (hwf : e.store.WellFormed) :
    (Create requests userId e).2.store.WellFormed ∧
    (e.store.Referential → (Create requests userId e).2.store.Referential) ∧
    ((∀ req ∈ requests, req.ClusterIds.Nodup) → e.store.AtMostOneActive →
      (Create requests userId e).2.store.AtMostOneActive) := by
  obtain ⟨requests1, e1, hrun, hst, hpre⟩ := Create_outcome userId requests e
  obtain ⟨items, e2, hrun2, _, _, hl, hm, hF, hlf, hlnd, hmf, hmnd⟩ :=
    Create_ok userId requests1 e.calm (noFaults_calm e)
  have he : e2 = e1 := by
    have := hrun2.symm.trans hrun
    exact (Prod.mk.inj this).2
  subst he
  rw [hst]
  obtain ⟨h1, h2, h3⟩ := invariants_of_create e.store e2.store requests1 items hl hm hF hlf hlnd
    hmf hmnd hwf
  refine ⟨h1, h2, fun hS => h3 ?_⟩
  intro r1 hr1
  obtain ⟨r, hr, hp⟩ := hpre r1 hr1
  exact nodup_of_initial hp (hS r hr)

/-- Whatever the repository calls answer, `Update` keeps the invariants of the store. -/
theorem Update_invariants (request : ExternalLinkDto) (e : Env) (hwf : e.store.WellFormed) :
    (Update request e).2.store.WellFormed ∧
    (e.store.Referential → (Update request e).2.store.Referential) ∧
    (request.ClusterIds.Nodup → e.store.AtMostOneActive →
      (Update request e).2.store.AtMostOneActive) := by
  rcases Update_outcome request e with hA | ⟨found, eA, snap1, s1, e1, hf, hnfA, hAl, hAm, hpre,
      hD, hst⟩ | ⟨S1, e1, hpre, hrun, hst⟩
  · rw [hA]; exact ⟨hwf, id, fun _ => id⟩
  · rw [hst]
    have hkA : eA.store.MappingKeys := by
      show (eA.store.mappings.map (·.Id)).Nodup
      rw [hAm]; exact hwf.2.1
    have hsnap : ∀ m ∈ snap1, m ∈ eA.store.mappings := by
      intro m hm
      rw [hAm]
      exact List.mem_of_mem_filter (hpre.subset hm)
    obtain ⟨G, snap2, e2, hrun2, _, hl2, _, hm2, _, hB1, hB2, _⟩ :=
      deactivateAll_rows request.UserId snap1 eA hnfA hkA hsnap
    have he : e2 = e1 := (Prod.mk.inj (hrun2.symm.trans hD)).2
    subst he
    have hmem : found ∈ e.store.links := List.mem_of_find?_eq_some hf
    obtain ⟨h1, h2, h3⟩ := invariants_of_tombstones e.store e2.store G (by rw [hm2, hAm])
      (by
        intro r hr
        by_cases hrs : r ∈ snap1
        · exact Or.inr (hB1 r (hAm ▸ hr) hrs)
        · exact Or.inl (hB2 r (hAm ▸ hr) hrs))
      (by rw [hl2, hAl]; exact map_id_replace_link _ found.Id _ rfl)
      (by
        intro l hlm hla
        left
        rw [hl2, hAl]
        by_cases hid : l.Id = found.Id
        · refine ⟨_, List.mem_map_of_mem _ hlm, ?_, ?_⟩
          · simp only [hid, if_true]
          · simp only [hid, if_true]
        · refine ⟨l, ?_, rfl, hla⟩
          have := List.mem_map_of_mem (fun l : ExternalLink => if l.Id = found.Id then
            { found with Name := request.Name, Url := request.Url, Active := true,
                         ExternalLinkMonitoringToolId := request.MonitoringToolId,
                         UpdatedBy := request.UserId, UpdatedOn := e.clock } else l) hlm
          simpa [hid] using this)
      hwf
    exact ⟨h1, h2, fun _ => h3⟩
  · rw [hst]
    obtain ⟨found, hf, _⟩ := Update_result_links _ e.calm _ e1 hrun
    obtain ⟨G, new, e2, hrun2, _, _, hl, hm, hG0, hG1, hG2, hnew, hfresh, hnd⟩ :=
      Update_shape { request with ClusterIds := S1 } e.calm (noFaults_calm e) hwf.2.1 found hf
    have he : e2 = e1 := (Prod.mk.inj (hrun2.symm.trans hrun)).2
    subst he
    have hfid : found.Id = request.Id := by simpa using List.find?_some hf
    obtain ⟨f1, hf1⟩ : ∃ x : ExternalLink, x =
      { found with Name := request.Name, Url := request.Url, Active := true,
                   ExternalLinkMonitoringToolId := request.MonitoringToolId,
                   UpdatedBy := request.UserId, UpdatedOn := e.clock } := ⟨_, rfl⟩
    have hl1 : e2.store.links = e.store.links.map (fun l => if l.Id = found.Id then f1 else l) := by
      rw [hf1]; exact hl
    obtain ⟨h1, h2, h3⟩ := invariants_of_update e.store e2.store request.Id S1 found f1 G new
      (List.mem_of_find?_eq_some hf) hfid (by rw [hf1]) (by rw [hf1]) hl1 hm hG0 hG1 hG2 hnew
      hfresh hnd hwf
    exact ⟨h1, h2, fun hS => h3 (nodup_of_initial hpre hS)⟩

/-- Whatever the repository calls answer, `DeleteLink` keeps the invariants of the
store. -/
theorem DeleteLink_invariants (id userId : Int) (e : Env) (hwf : e.store.WellFormed) :
    (DeleteLink id userId e).2.store.WellFormed ∧
    (e.store.Referential → (DeleteLink id userId e).2.store.Referential) ∧
    (e.store.AtMostOneActive → (DeleteLink id userId e).2.store.AtMostOneActive) := by
  rcases DeleteLink_outcome id userId e with ⟨snap1, s1, e1, hpre, hD, hst⟩ |
      ⟨found, e1, hf, hrun, hst⟩
  · rw [hst]
    have hsnap : ∀ m ∈ snap1, m ∈ e.calm.store.mappings :=
      fun m hm => List.mem_of_mem_filter (hpre.subset hm)
    obtain ⟨G, snap2, e2, hrun2, _, hl2, _, hm2, _, hB1, hB2, _⟩ :=
      deactivateAll_rows userId snap1 e.calm (noFaults_calm e) hwf.2.1 hsnap
    have he : e2 = e1 := (Prod.mk.inj (hrun2.symm.trans hD)).2
    subst he
    exact invariants_of_tombstones e.store e2.store G hm2
      (by
        intro r hr
        by_cases hrs : r ∈ snap1
        · exact Or.inr (hB1 r hr hrs)
        · exact Or.inl (hB2 r hr hrs))
      (by rw [hl2]; rfl)
      (fun l hlm hla => Or.inl ⟨l, by rw [hl2]; exact hlm, rfl, hla⟩) hwf
  · rw [hst]
    obtain ⟨G, t, e2, hrun2, _, _, hl, hm, hG0, hG1, hG2⟩ :=
      DeleteLink_shape id userId e.calm (noFaults_calm e) hwf.2.1 found hf
    have he : e2 = e1 := (Prod.mk.inj (hrun2.symm.trans hrun)).2
    subst he
    have hfid : found.Id = id := by simpa using List.find?_some hf
    exact invariants_of_tombstones e.store e2.store G hm
      (by
        intro r hr
        by_cases hrl : r.ExternalLinkId = id
        · exact Or.inr ⟨hG0 r hr, hG1 r hr hrl⟩
        · exact Or.inl (hG2 r hr (Or.inl hrl)))
      (by rw [hl]; exact map_id_replace_link _ found.Id _ rfl)
      (by
        intro l hlm hla
        by_cases hid : l.Id = found.Id
        · right
          intro r1 hr1 hr1l
          rw [hm] at hr1
          obtain ⟨r, hr, hre⟩ := List.mem_map.1 hr1
          subst hre
          apply hG1 r hr
          rw [← (rowKey_fields (hG0 r hr)).2.1, hr1l, hid, hfid]
        · left
          refine ⟨l, ?_, rfl, hla⟩
          rw [hl]
          have := List.mem_map_of_mem (fun l : ExternalLink => if l.Id = found.Id then
            { found with Active := false, UpdatedOn := t, UpdatedBy := userId } else l) hlm
          simpa [hid] using this)
      hwf

/-- Every reached store is well formed and referential. -/
theorem Reachable.invariants {s : Store} (h : Reachable s) : s.WellFormed ∧ s.Referential := by
  induction h with
  | empty =>
    refine ⟨⟨?_, ?_, ?_⟩, ?_⟩
    · show (([] : List ExternalLink).map (·.Id)).Nodup
      simp
    · show (([] : List ExternalLinkClusterMapping).map (·.Id)).Nodup
      simp
    · intro r hr; simp [Store.empty] at hr
    · intro r hr; simp [Store.empty] at hr
  | create s clock faults requests userId _ ih =>
    obtain ⟨h1, h2, _⟩ := Create_invariants userId requests ⟨s, clock, faults⟩ ih.1
    exact ⟨h1, h2 ih.2⟩
  | update s clock faults request _ ih =>
    obtain ⟨h1, h2, _⟩ := Update_invariants request ⟨s, clock, faults⟩ ih.1
    exact ⟨h1, h2 ih.2⟩
  | delete s clock faults id userId _ ih =>
    obtain ⟨h1, h2, _⟩ := DeleteLink_invariants id userId ⟨s, clock, faults⟩ ih.1
    exact ⟨h1, h2 ih.2⟩

/-! ## C5: at most one active mapping per (link, cluster) pair -/

/-- C5, as the code has it.  In a well-formed store where every (link, cluster) pair
has at most one active mapping row, the same holds after `DeleteLink`, after `Create`
of requests none of which repeats a cluster id, and after `Update` by a request that
repeats no cluster id, whether the call succeeds or stops at a failed repository
call. -/
theorem AtMostOneActive_preserved (e : Env) (hwf : e.store.WellFormed)
    (hinv : e.store.AtMostOneActive) :
    (∀ (requests : List ExternalLinkDto) (userId : Int),
      (∀ req ∈ requests, req.ClusterIds.Nodup) →
        (Create requests userId e).2.store.AtMostOneActive) ∧
    (∀ request : ExternalLinkDto, request.ClusterIds.Nodup →
      (Update request e).2.store.AtMostOneActive) ∧
    (∀ id userId : Int, (DeleteLink id userId e).2.store.AtMostOneActive) := by
  refine ⟨?_, ?_, ?_⟩
  · intro requests userId hS
    exact (Create_invariants userId requests e hwf).2.2 hS hinv
  · intro request hS
    exact (Update_invariants request e hwf).2.2 hS hinv
  · intro id userId
    exact (DeleteLink_invariants id userId e hwf).2.2 hinv

/-- C5, the amended statement on the store of link 1 mapped to the clusters 10 and 30. -/
theorem AtMostOneActive_preserved_witness :
    (envAC.store.WellFormed ∧ envAC.store.AtMostOneActive) ∧
    ((∀ (requests : List ExternalLinkDto) (userId : Int),
      (∀ req ∈ requests, req.ClusterIds.Nodup) →
        (Create requests userId envAC).2.store.AtMostOneActive) ∧
    (∀ request : ExternalLinkDto, request.ClusterIds.Nodup →
      (Update request envAC).2.store.AtMostOneActive) ∧
    (∀ id userId : Int, (DeleteLink id userId envAC).2.store.AtMostOneActive)) :=
  ⟨⟨by decide, (atMostOne_iff_ids envAC.store (by decide)).2 (by decide)⟩,
    AtMostOneActive_preserved envAC (by decide)
      ((atMostOne_iff_ids envAC.store (by decide)).2 (by decide))⟩

/-- C5 as stated fails.  On the empty store, `Create` of a request that lists cluster 1
twice leaves two active mapping rows for the pair (link 1, cluster 1); on the store of
link 1, `Update` to the cluster ids [20, 20] leaves two active rows for the pair
(link 1, cluster 20).  Both stores satisfied the invariant before the call. -/
theorem AtMostOneActive_counterexample :
    (env0.store.AtMostOneActive ∧ (Create [reqDup] 7 env0).1 = .ok { Success := true } ∧
      ¬ (Create [reqDup] 7 env0).2.store.AtMostOneActive) ∧
    (envAC.store.AtMostOneActive ∧
      (Update { reqAB with ClusterIds := [20, 20] } envAC).1 = .ok { Success := true } ∧
      ¬ (Update { reqAB with ClusterIds := [20, 20] } envAC).2.store.AtMostOneActive) := by
  refine ⟨⟨?_, rfl, ?_⟩, ⟨?_, rfl, ?_⟩⟩
  · exact (atMostOne_iff_ids env0.store (by decide)).2 (by decide)
  · intro h
    exact absurd (h 1 1) (by decide)
  · exact (atMostOne_iff_ids envAC.store (by decide)).2 (by decide)
  · intro h
    exact absurd (h 1 20) (by decide)

/-! ## C7: the listing without filter on reached stores -/

theorem activeRows_clusters (s : Store) (k : Int) :
    ((activeRows s).filter (fun row => row.1.ExternalLinkId == k)).map (·.1.ClusterId) =
      (s.mappings.filter (fun r => r.Active && r.ExternalLinkId == k)).map (·.ClusterId) := by
  unfold activeRows
  induction s.mappings with
  | nil => rfl
  | cons m ms ih =>
    by_cases ha : m.Active = true
    · by_cases hk : m.ExternalLinkId = k
      · simp [List.filter_cons, ha, hk] at ih ⊢
        exact ih
      · simp [List.filter_cons, ha, hk] at ih ⊢
        exact ih
    · simp [List.filter_cons, ha] at ih ⊢
      exact ih

theorem joinLink_eq (ls : List ExternalLink) (hk : (ls.map (·.Id)).Nodup)
    (m : ExternalLinkClusterMapping) (l : ExternalLink) (hl : l ∈ ls)
    (hid : l.Id = m.ExternalLinkId) : joinLink ls m = l := by
  unfold joinLink
  cases hf : ls.find? (fun l => l.Id == m.ExternalLinkId) with
  | none =>
    have := List.find?_eq_none.1 hf l hl
    simp [hid] at this
  | some l1 =>
    have h1 : l1.Id = m.ExternalLinkId := by simpa using List.find?_some hf
    exact List.inj_on_of_nodup_map hk (List.mem_of_find?_eq_some hf) hl (h1.trans hid.symm)

/-- C7. On a store reached from the empty store by `Create`, `Update` and
`DeleteLink` calls, when the repository calls of the listing succeed,
`FetchAllActiveLinks 0` lists no link id twice, lists every active link record,
lists only link ids of active link records (with the record's name, URL and tool),
and every entry carries the cluster ids of the active mappings of its link, which is
the empty list for a link without active mapping. -/
theorem FetchAllActiveLinks_all (e : Env) (hreach : Reachable e.store) (hcalls : e.NoFaults) :
    ∃ result, (FetchAllActiveLinks 0 e).1 = .ok result ∧
      (result.map (·.Id)).Nodup ∧
      (∀ l ∈ e.store.links, l.Active = true → ∃ dto ∈ result, dto.Id = l.Id) ∧
      (∀ dto ∈ result, ∃ l ∈ e.store.links, l.Id = dto.Id ∧ l.Active = true ∧
        dto.Name = l.Name ∧ dto.Url = l.Url ∧
        dto.MonitoringToolId = l.ExternalLinkMonitoringToolId ∧ dto.Active = true) ∧
      (∀ dto ∈ result, dto.ClusterIds =
        (e.store.mappings.filter (fun r => r.Active && r.ExternalLinkId == dto.Id)).map
          (·.ClusterId)) := by
  obtain ⟨⟨hlk, _, _⟩, href⟩ := hreach.invariants
  obtain ⟨mapped, e1, hrun, _, _, hnd, hmapped⟩ := FetchAllActiveLinks_ok 0 e hcalls
  have hadd : ∀ l, l ∈ e.store.links.filter (fun l => l.Active &&
      !decide (∃ r ∈ e.store.mappings, r.Active = true ∧ r.ExternalLinkId = l.Id)) ↔
      l ∈ e.store.links ∧ l.Active = true ∧
        ∀ r ∈ e.store.mappings, r.Active = true → r.ExternalLinkId ≠ l.Id := by
    intro l
    rw [List.mem_filter]
    simp only [Bool.and_eq_true, Bool.not_eq_true', decide_eq_false_iff_not, not_exists,
      not_and]
  have hmap : ∀ dto ∈ mapped, ∃ row ∈ activeRows e.store,
      groupDto (activeRows e.store) dto.Id = some dto ∧ row.1.ExternalLinkId = dto.Id ∧
      dto.Name = row.2.Name ∧ dto.Url = row.2.Url ∧ dto.Active = row.2.Active ∧
      dto.MonitoringToolId = row.2.ExternalLinkMonitoringToolId := by
    intro dto hdto
    obtain ⟨k, hg, _⟩ := (hmapped dto).1 hdto
    obtain ⟨hid, _, row, hrow, hrl, h1, h2, h3, h4, _⟩ := groupDto_some hg
    exact ⟨row, hrow, hid ▸ hg, hrl.trans hid.symm, h1, h2, h3, h4⟩
  refine ⟨_, by rw [hrun], ?_, ?_, ?_, ?_⟩
  · rw [List.map_append, List.nodup_append]
    refine ⟨hnd, ?_, ?_⟩
    · rw [List.map_map]
      exact ((List.filter_sublist _).map _).nodup hlk
    · intro i hi1 hi2
      obtain ⟨dto, hdto, hde⟩ := List.mem_map.1 hi1
      obtain ⟨row, hrow, _, hrl, _⟩ := hmap dto hdto
      obtain ⟨h1, h2, _⟩ := (mem_activeRows _ row).1 hrow
      rw [List.map_map] at hi2
      obtain ⟨l, hl, hle⟩ := List.mem_map.1 hi2
      have hli : l.Id = i := hle
      exact ((hadd l).1 hl).2.2 row.1 h1 h2 (by rw [hrl, hde, hli])
  · intro l hl hla
    by_cases hex : ∃ r ∈ e.store.mappings, r.Active = true ∧ r.ExternalLinkId = l.Id
    · obtain ⟨r, hr, hra, hrl⟩ := hex
      have hrow : (r, joinLink e.store.links r) ∈ activeRows e.store :=
        (mem_activeRows _ _).2 ⟨hr, hra, rfl⟩
      obtain ⟨dto, hdto⟩ := Option.isSome_iff_exists.1
        ((groupDto_isSome (activeRows e.store) l.Id).2 ⟨_, hrow, hrl⟩)
      exact ⟨dto, List.mem_append_left _ ((hmapped dto).2 ⟨l.Id, hdto, Or.inl rfl⟩),
        (groupDto_some hdto).1⟩
    · refine ⟨unmappedDto l, List.mem_append_right _ (List.mem_map_of_mem _ ?_), rfl⟩
      refine (hadd l).2 ⟨hl, hla, ?_⟩
      intro r hr hra hrl
      exact hex ⟨r, hr, hra, hrl⟩
  · intro dto hdto
    rcases List.mem_append.1 hdto with h | h
    · obtain ⟨row, hrow, _, hrl, h1, h2, h3, h4⟩ := hmap dto h
      obtain ⟨hm1, hm2, hm3⟩ := (mem_activeRows _ row).1 hrow
      obtain ⟨l, hl, hlid, hla⟩ := href row.1 hm1 hm2
      have hj : row.2 = l := by
        rw [hm3]; exact joinLink_eq _ hlk _ l hl hlid
      rw [hj] at h1 h2 h3 h4
      exact ⟨l, hl, hlid.trans hrl, hla, h1, h2, h4, h3.trans hla⟩
    · obtain ⟨l, hl, hle⟩ := List.mem_map.1 h
      obtain ⟨hl1, hl2, _⟩ := (hadd l).1 hl
      subst hle
      exact ⟨l, hl1, rfl, hl2, rfl, rfl, rfl, hl2⟩
  · intro dto hdto
    rcases List.mem_append.1 hdto with h | h
    · obtain ⟨row, _, hg, _⟩ := hmap dto h
      rw [(groupDto_some hg).2.1, activeRows_clusters]
    · obtain ⟨l, hl, hle⟩ := List.mem_map.1 h
      obtain ⟨_, _, hnone⟩ := (hadd l).1 hl
      subst hle
      have : e.store.mappings.filter
          (fun r => r.Active && r.ExternalLinkId == (unmappedDto l).Id) = [] := by
        rw [List.filter_eq_nil_iff]
        intro r hr
        simp only [Bool.and_eq_true, beq_iff_eq, not_and]
        intro hra
        exact hnone r hr hra
      rw [this]
      rfl

/-- C7, on the store reached by creating two links and deleting the first: the
listing holds the second link only, with the cluster ids of its two active mappings. -/
theorem FetchAllActiveLinks_all_witness :
    (Reachable envReached.store ∧ envReached.NoFaults) ∧
    (∃ result, (FetchAllActiveLinks 0 envReached).1 = .ok result ∧
      (result.map (·.Id)).Nodup ∧
      (∀ l ∈ envReached.store.links, l.Active = true → ∃ dto ∈ result, dto.Id = l.Id) ∧
      (∀ dto ∈ result, ∃ l ∈ envReached.store.links, l.Id = dto.Id ∧ l.Active = true ∧
        dto.Name = l.Name ∧ dto.Url = l.Url ∧
        dto.MonitoringToolId = l.ExternalLinkMonitoringToolId ∧ dto.Active = true) ∧
      (∀ dto ∈ result, dto.ClusterIds =
        (envReached.store.mappings.filter
          (fun r => r.Active && r.ExternalLinkId == dto.Id)).map (·.ClusterId))) ∧
    (FetchAllActiveLinks 0 envReached).1 =
      .ok [{ Id := 2, Name := "Kibana", Url := "http://k", Active := true,
             MonitoringToolId := 2, ClusterIds := [1, 1], UpdatedOn := 9, UserId := 0 }] :=
  ⟨⟨Reachable.delete _ 10 [] 1 9 (Reachable.create Store.empty 0 [] [reqGrafana, reqDup] 7
      Reachable.empty), by decide⟩,
    FetchAllActiveLinks_all envReached
      (Reachable.delete _ 10 [] 1 9 (Reachable.create Store.empty 0 [] [reqGrafana, reqDup] 7
        Reachable.empty)) (by decide),
    rfl⟩

/-! ## C8: the scenario of the spec -/

/-- After a successful `Update` without failure, the active mapping rows of the link
are the rows of the requested cluster ids. -/
theorem Update_active_iff (request : ExternalLinkDto) (e : Env) (he : e.NoFaults)
    (hk : e.store.MappingKeys) (resp : ExternalLinkApiResponse) (e1 : Env)
    (hrun : Update request e = (.ok resp, e1)) :
    e1.NoFaults ∧ ∀ c, (∃ r ∈ e1.store.mappings,
        r.ExternalLinkId = request.Id ∧ r.Active = true ∧ r.ClusterId = c) ↔
      c ∈ request.ClusterIds := by
  obtain ⟨found, hf, _⟩ := Update_result_links request e resp e1 hrun
  obtain ⟨G, new, e2, hrun2, hnf, _, _, hm, hG0, _, hG2, hnew, _, _⟩ :=
    Update_shape request e he hk found hf
  have he2 : e2 = e1 := (Prod.mk.inj (hrun2.symm.trans hrun)).2
  subst he2
  refine ⟨hnf, ?_⟩
  intro c
  constructor
  · rintro ⟨r1, hr1, hr1l, hr1a, hr1c⟩
    rw [hm] at hr1
    rcases List.mem_append.1 hr1 with h | h
    · obtain ⟨r, hr, hre⟩ := List.mem_map.1 h
      subst hre
      obtain ⟨_, k2, k3⟩ := rowKey_fields (hG0 r hr)
      obtain ⟨c1, hc1, hre⟩ := (hG2 r hr (k2 ▸ hr1l)).1 hr1a
      obtain ⟨m, hmm, hmid, hmc, _, _⟩ := reuseId_some hre
      have : m = r := eq_of_id_eq hk (List.mem_of_mem_filter hmm) hr hmid
      subst this
      rw [← hr1c, k3, hmc]; exact hc1
    · have : (r1.ExternalLinkId, r1.ClusterId, r1.Active) ∈
          new.map (fun n => (n.ExternalLinkId, n.ClusterId, n.Active)) :=
        List.mem_map_of_mem _ h
      rw [hnew] at this
      obtain ⟨c1, hc1, hce⟩ := List.mem_map.1 this
      have : c1 = r1.ClusterId := congrArg (·.2.1) hce
      rw [← hr1c, ← this]
      exact List.mem_of_mem_filter hc1
  · intro hc
    cases hre : reuseId (e.store.mappings.filter (fun m => m.ExternalLinkId == request.Id)) c with
    | some i =>
      obtain ⟨m, hmm, hmid, hmc, _, _⟩ := reuseId_some hre
      have hmmem : m ∈ e.store.mappings := List.mem_of_mem_filter hmm
      have hml : m.ExternalLinkId = request.Id := by
        simpa using (List.mem_filter.1 hmm).2
      obtain ⟨_, k2, k3⟩ := rowKey_fields (hG0 m hmmem)
      refine ⟨G m, ?_, k2.trans hml, ?_, k3.trans hmc⟩
      · rw [hm]; exact List.mem_append_left _ (List.mem_map_of_mem _ hmmem)
      · exact (hG2 m hmmem hml).2 ⟨c, hc, by rw [hre, hmid]⟩
    | none =>
      have : (request.Id, c, true) ∈
          new.map (fun n => (n.ExternalLinkId, n.ClusterId, n.Active)) := by
        rw [hnew]
        exact List.mem_map_of_mem _ (List.mem_filter.2 ⟨hc, by simp [hre]⟩)
      obtain ⟨n, hn, hne⟩ := List.mem_map.1 this
      refine ⟨n, ?_, congrArg (·.1) hne, congrArg (·.2.2) hne, congrArg (·.2.1) hne⟩
      rw [hm]; exact List.mem_append_right _ hn

/-- A link with an active mapping to the positive filter cluster is listed, with the
cluster ids of all its active mappings and the fields of its joined link record. -/
theorem fetch_lists (clusterId : Int) (hpos : clusterId > 0) (e : Env) (he : e.NoFaults)
    (r : ExternalLinkClusterMapping) (hr : r ∈ e.store.mappings) (hra : r.Active = true)
    (hrc : r.ClusterId = clusterId) :
    ∃ result e1 dto, FetchAllActiveLinks clusterId e = (.ok result, e1) ∧
      e1.store = e.store ∧ e1.NoFaults ∧ dto ∈ result ∧ dto.Id = r.ExternalLinkId ∧
      (∀ r2 ∈ e.store.mappings, r2.Active = true → r2.ExternalLinkId = r.ExternalLinkId →
        r2.ClusterId ∈ dto.ClusterIds) ∧
      ∃ r0 ∈ e.store.mappings, r0.ExternalLinkId = r.ExternalLinkId ∧
        dto.Name = (joinLink e.store.links r0).Name ∧
        dto.Url = (joinLink e.store.links r0).Url ∧
        dto.MonitoringToolId = (joinLink e.store.links r0).ExternalLinkMonitoringToolId := by
  obtain ⟨mapped, e1, hrun, hst, hnf, _, hmapped⟩ := FetchAllActiveLinks_ok clusterId e he
  have hrow : (r, joinLink e.store.links r) ∈ activeRows e.store :=
    (mem_activeRows _ _).2 ⟨hr, hra, rfl⟩
  obtain ⟨dto, hdto⟩ := Option.isSome_iff_exists.1
    ((groupDto_isSome (activeRows e.store) r.ExternalLinkId).2 ⟨_, hrow, rfl⟩)
  obtain ⟨hid, hcl, row0, hrow0, hr0l, h1, h2, _, h4, _⟩ := groupDto_some hdto
  obtain ⟨hm1, _, hm3⟩ := (mem_activeRows _ row0).1 hrow0
  refine ⟨_, e1, dto, hrun, hst, hnf, ?_, hid, ?_, row0.1, hm1, hr0l, ?_, ?_, ?_⟩
  · exact List.mem_append_left _
      ((hmapped dto).2 ⟨_, hdto, Or.inr ⟨hpos, _, hrow, rfl, hrc⟩⟩)
  · intro r2 hr2 hr2a hr2l
    rw [hcl, activeRows_clusters]
    exact List.mem_map.2 ⟨r2, List.mem_filter.2 ⟨hr2, by simp [hr2a, hr2l]⟩, rfl⟩
  · rw [h1, hm3]
  · rw [h2, hm3]
  · rw [h4, hm3]

/-- A link that has active mappings, none of them to the positive filter cluster, is
not listed. -/
theorem fetch_omits (clusterId : Int) (hpos : clusterId > 0) (e : Env) (he : e.NoFaults)
    (i : Int)
    (hno : ∀ r ∈ e.store.mappings, r.Active = true → r.ExternalLinkId = i →
      r.ClusterId ≠ clusterId)
    (hsome : ∃ r ∈ e.store.mappings, r.Active = true ∧ r.ExternalLinkId = i) :
    ∃ result e1, FetchAllActiveLinks clusterId e = (.ok result, e1) ∧
      e1.store = e.store ∧ e1.NoFaults ∧ ∀ dto ∈ result, dto.Id ≠ i := by
  obtain ⟨mapped, e1, hrun, hst, hnf, _, hmapped⟩ := FetchAllActiveLinks_ok clusterId e he
  refine ⟨_, e1, hrun, hst, hnf, ?_⟩
  intro dto hdto hid
  rcases List.mem_append.1 hdto with h | h
  · obtain ⟨k, hg, hc⟩ := (hmapped dto).1 h
    rcases hc with hc | ⟨_, row, hrow, hrl, hrc⟩
    · omega
    · obtain ⟨h1, h2, _⟩ := (mem_activeRows _ row).1 hrow
      exact hno row.1 h1 h2 (by rw [hrl, ← (groupDto_some hg).1, hid]) hrc
  · obtain ⟨l, hl, hle⟩ := List.mem_map.1 h
    rw [List.mem_filter] at hl
    obtain ⟨r, hr, hra, hrl⟩ := hsome
    have hli : l.Id = i := by rw [← hid, ← hle]; rfl
    have h2 := hl.2
    simp only [Bool.and_eq_true, Bool.not_eq_true', decide_eq_false_iff_not] at h2
    exact h2.2 ⟨r, hr, hra, hrl.trans hli.symm⟩

theorem joinLink_appended (ls : List ExternalLink) (t : ExternalLink)
    (hfresh : t.Id ∉ ls.map (·.Id)) (m : ExternalLinkClusterMapping)
    (hm : m.ExternalLinkId = t.Id) : joinLink (ls ++ [t]) m = t := by
  unfold joinLink
  have hnone : ls.find? (fun l => l.Id == m.ExternalLinkId) = none := by
    rw [List.find?_eq_none]
    intro l hl
    simp only [beq_iff_eq]
    intro h
    exact hfresh (List.mem_map.2 ⟨l, hl, h.trans hm⟩)
  rw [List.find?_append, hnone]
  simp [hm]

/-- C8. From any store whose mapping rows have distinct identities, when no repository
call fails: `Create` of the Grafana link with the clusters 1 and 2 inserts a link
record `L`; the listing for cluster 1 then holds an entry for `L` with the link's
name, URL and tool, whose cluster ids contain 1 and 2; after `Update` of `L` to the
clusters 2 and 3 the listing for cluster 1 holds no entry for `L` and the listing
for cluster 3 holds one. -/
theorem scenario_create_list_update (e : Env) (hcalls : e.NoFaults)
    (hkeys : e.store.MappingKeys) (userId : Int) :
    ∃ (eC eF1 eU eF2 eF3 : Env) (L : Int) (res1 res2 res3 : List ExternalLinkDto),
      Create [reqGrafana] userId e = (.ok { Success := true }, eC) ∧
      L ∉ e.store.links.map (·.Id) ∧
      (∃ l ∈ eC.store.links, l.Id = L ∧ l.Name = "Grafana" ∧ l.Url = "http://g" ∧
        l.ExternalLinkMonitoringToolId = 1 ∧ l.Active = true) ∧
      FetchAllActiveLinks 1 eC = (.ok res1, eF1) ∧
      (∃ dto ∈ res1, dto.Id = L ∧ dto.Name = "Grafana" ∧ dto.Url = "http://g" ∧
        dto.MonitoringToolId = 1 ∧ 1 ∈ dto.ClusterIds ∧ 2 ∈ dto.ClusterIds) ∧
      Update { reqGrafana with Id := L, ClusterIds := [2, 3] } eF1 =
        (.ok { Success := true }, eU) ∧
      FetchAllActiveLinks 1 eU = (.ok res2, eF2) ∧ (∀ dto ∈ res2, dto.Id ≠ L) ∧
      FetchAllActiveLinks 3 eF2 = (.ok res3, eF3) ∧ (∃ dto ∈ res3, dto.Id = L) := by
  obtain ⟨items, eC, hrunC, hnfC, _, hl, hm, hF, hlf, _, hmf, hmnd⟩ :=
    Create_ok userId [reqGrafana] e hcalls
  cases hF with
  | @cons _ item _ rest hR hrest =>
  cases hrest
  obtain ⟨ha, hn, hu, ht, hv⟩ := hR
  simp only [List.map_cons, List.map_nil, List.flatten_cons, List.flatten_nil,
    List.append_nil] at hl hm hmf hmnd
  have hfreshL : item.1.Id ∉ e.store.links.map (·.Id) := hlf item (by simp)
  have hrowOf : ∀ c ∈ ([1, 2] : List Int), ∃ r ∈ eC.store.mappings,
      r.ExternalLinkId = item.1.Id ∧ r.ClusterId = c ∧ r.Active = true := by
    intro c hc
    have : (item.1.Id, c, true) ∈
        item.2.map (fun r => (r.ExternalLinkId, r.ClusterId, r.Active)) := by
      rw [hv]
      exact List.mem_map_of_mem (fun c => (item.1.Id, c, true)) hc
    obtain ⟨r, hr, hre⟩ := List.mem_map.1 this
    refine ⟨r, ?_, congrArg (·.1) hre, congrArg (·.2.1) hre, congrArg (·.2.2) hre⟩
    rw [hm]; exact List.mem_append_right _ hr
  have hkC : eC.store.MappingKeys := by
    show (eC.store.mappings.map (·.Id)).Nodup
    rw [hm, List.map_append, List.nodup_append]
    refine ⟨hkeys, hmnd, ?_⟩
    intro i hi1 hi2
    obtain ⟨r, hr, hre⟩ := List.mem_map.1 hi2
    exact hmf r hr (hre ▸ hi1)
  have hLmem : item.1 ∈ eC.store.links := by rw [hl]; simp
  -- the first listing
  obtain ⟨r1, hr1, hr1l, hr1c, hr1a⟩ := hrowOf 1 (by simp)
  obtain ⟨r2, hr2, hr2l, hr2c, hr2a⟩ := hrowOf 2 (by simp)
  obtain ⟨res1, eF1, dto1, hrun1, hst1, hnf1, hd1, hd1id, hd1cl, r0, _, hr0l, hN, hU, hT⟩ :=
    fetch_lists 1 (by decide) eC hnfC r1 hr1 hr1a hr1c
  have hjoin : joinLink eC.store.links r0 = item.1 := by
    rw [hl]
    exact joinLink_appended _ _ hfreshL _ (hr0l.trans hr1l)
  rw [hjoin] at hN hU hT
  -- the update
  have hkF1 : eF1.store.MappingKeys := by rw [hst1]; exact hkC
  have hsome : (eF1.store.links.find? (fun l => l.Id == item.1.Id)).isSome := by
    rw [List.find?_isSome, hst1]
    exact ⟨item.1, hLmem, by simp⟩
  obtain ⟨found, hf⟩ := Option.isSome_iff_exists.1 hsome
  obtain ⟨_, _, eU, hrunU, _⟩ :=
    Update_shape { reqGrafana with Id := item.1.Id, ClusterIds := [2, 3] } eF1 hnf1 hkF1 found hf
  obtain ⟨hnfU, hiff⟩ := Update_active_iff
    { reqGrafana with Id := item.1.Id, ClusterIds := [2, 3] } eF1 hnf1 hkF1 _ eU hrunU
  -- the second listing
  obtain ⟨ra, hra, hral, hraa, _⟩ := (hiff 2).2 (by simp)
  obtain ⟨res2, eF2, hrun2, hst2, hnf2, hres2⟩ := fetch_omits 1 (by decide) eU hnfU item.1.Id
    (by
      intro r hr hact hrl hrc
      have := (hiff 1).1 ⟨r, hr, hrl, hact, hrc⟩
      simp at this)
    ⟨ra, hra, hraa, hral⟩
  -- the third listing
  obtain ⟨rb, hrb, hrbl, hrba, hrbc⟩ := (hiff 3).2 (by simp)
  obtain ⟨res3, eF3, dto3, hrun3, _, _, hd3, hd3id, _⟩ :=
    fetch_lists 3 (by decide) eF2 hnf2 rb (by rw [hst2]; exact hrb) hrba hrbc
  refine ⟨eC, eF1, eU, eF2, eF3, item.1.Id, res1, res2, res3, hrunC, hfreshL,
    ⟨item.1, hLmem, rfl, hn, hu, ht, ha⟩, hrun1, ?_, hrunU, hrun2, hres2, hrun3,
    ⟨dto3, hd3, hd3id.trans hrbl⟩⟩
  refine ⟨dto1, hd1, hd1id.trans hr1l, hN.trans hn, hU.trans hu, hT.trans ht, ?_, ?_⟩
  · have := hd1cl r1 hr1 hr1a rfl
    rwa [hr1c] at this
  · have := hd1cl r2 hr2 hr2a (hr2l.trans hr1l.symm)
    rwa [hr2c] at this

/-- C8, from the empty store; the three listings are evaluated as well. -/
theorem scenario_create_list_update_witness :
    (env0.NoFaults ∧ env0.store.MappingKeys) ∧
    (∃ (eC eF1 eU eF2 eF3 : Env) (L : Int) (res1 res2 res3 : List ExternalLinkDto),
      Create [reqGrafana] 7 env0 = (.ok { Success := true }, eC) ∧
      L ∉ env0.store.links.map (·.Id) ∧
      (∃ l ∈ eC.store.links, l.Id = L ∧ l.Name = "Grafana" ∧ l.Url = "http://g" ∧
        l.ExternalLinkMonitoringToolId = 1 ∧ l.Active = true) ∧
      FetchAllActiveLinks 1 eC = (.ok res1, eF1) ∧
      (∃ dto ∈ res1, dto.Id = L ∧ dto.Name = "Grafana" ∧ dto.Url = "http://g" ∧
        dto.MonitoringToolId = 1 ∧ 1 ∈ dto.ClusterIds ∧ 2 ∈ dto.ClusterIds) ∧
      Update { reqGrafana with Id := L, ClusterIds := [2, 3] } eF1 =
        (.ok { Success := true }, eU) ∧
      FetchAllActiveLinks 1 eU = (.ok res2, eF2) ∧ (∀ dto ∈ res2, dto.Id ≠ L) ∧
      FetchAllActiveLinks 3 eF2 = (.ok res3, eF3) ∧ (∃ dto ∈ res3, dto.Id = L)) ∧
    (FetchAllActiveLinks 1 (Create [reqGrafana] 7 env0).2).1 =
      .ok [{ Id := 1, Name := "Grafana", Url := "http://g", Active := true,
             MonitoringToolId := 1, ClusterIds := [1, 2], UpdatedOn := 3, UserId := 0 }] ∧
    (FetchAllActiveLinks 1 (Update { reqGrafana with Id := 1, ClusterIds := [2, 3] }
      (Create [reqGrafana] 7 env0).2).2).1 = .ok [] ∧
    (FetchAllActiveLinks 3 (Update { reqGrafana with Id := 1, ClusterIds := [2, 3] }
      (Create [reqGrafana] 7 env0).2).2).1 =
      .ok [{ Id := 1, Name := "Grafana", Url := "http://g", Active := true,
             MonitoringToolId := 1, ClusterIds := [2, 3], UpdatedOn := 9, UserId := 0 }] :=
  ⟨⟨by decide, by decide⟩, scenario_create_list_update env0 (by decide) (by decide) 7,
    rfl, rfl, rfl⟩

/-! ## C11: `Create` stops at the first failed `Save` and rolls nothing back -/

theorem mappingSave_fail (m : ExternalLinkClusterMapping) (e : Env) (fs : List Bool)
    (h : e.faults = true :: fs) :
    ∃ e1, MappingRepository.Save m e = (.error .dbError, e1) ∧ e1.faults = fs ∧
      e1.store = e.store := by
  obtain ⟨st, ck, fs0⟩ := e
  simp only at h
  subst h
  exact ⟨_, rfl, rfl, rfl⟩

theorem mappingSave_pass (m : ExternalLinkClusterMapping) (e : Env) (fs : List Bool)
    (h : e.faults = false :: fs) :
    ∃ m1 e1, MappingRepository.Save m e = (.ok m1, e1) ∧ e1.faults = fs ∧
      MappingRepository.Save m e.calm = (.ok m1, e1.calm) := by
  obtain ⟨st, ck, fs0⟩ := e
  simp only at h
  subst h
  exact ⟨_, _, rfl, rfl, rfl⟩

theorem linkSave_fail (t : ExternalLink) (e : Env) (fs : List Bool)
    (h : e.faults = true :: fs) :
    ∃ e1, LinkRepository.Save t e = (.error .dbError, e1) ∧ e1.faults = fs ∧
      e1.store = e.store := by
  obtain ⟨st, ck, fs0⟩ := e
  simp only at h
  subst h
  exact ⟨_, rfl, rfl, rfl⟩

theorem linkSave_pass (t : ExternalLink) (e : Env) (fs : List Bool)
    (h : e.faults = false :: fs) :
    ∃ t1 e1, LinkRepository.Save t e = (.ok t1, e1) ∧ e1.faults = fs ∧
      LinkRepository.Save t e.calm = (.ok t1, e1.calm) := by
  obtain ⟨st, ck, fs0⟩ := e
  simp only at h
  subst h
  exact ⟨_, _, rfl, rfl, rfl⟩

/-- The inner loop of `Create` against a script whose first failure is entry `n`
(counted from 0): either the loop needs more than `n` saves, and it stops with the
fixed error at cluster id number `n`, having consumed the script up to the failure
and written what the loop writes, without failure, for the ids before it; or it
succeeds as it does without failure, the failure still pending. -/
theorem createMappings_script (linkId userId : Int) (cs : List Int) :
    ∀ (e : Env) (n : Nat) (rest : List Bool),
    e.faults = List.replicate n false ++ true :: rest →
    (∃ cs1 c cs2 e1 efree, cs = cs1 ++ c :: cs2 ∧ cs1.length = n ∧
      createMappings linkId userId cs e = (.error clusterIdFailed, e1) ∧ e1.faults = rest ∧
      createMappings linkId userId cs1 e.calm = (.ok (), efree) ∧ e1.store = efree.store) ∨
    (cs.length ≤ n ∧ ∃ e1, createMappings linkId userId cs e = (.ok (), e1) ∧
      e1.faults = List.replicate (n - cs.length) false ++ true :: rest ∧
      createMappings linkId userId cs e.calm = (.ok (), e1.calm)) := by
  induction cs with
  | nil =>
    intro e n rest h
    exact Or.inr ⟨Nat.zero_le _, e, rfl, by simpa using h, rfl⟩
  | cons c cs ih =>
    intro e n rest h
    cases n with
    | zero =>
      obtain ⟨e1, hS, hf, hs⟩ := mappingSave_fail
        { Id := 0, ExternalLinkId := linkId, ClusterId := c, Active := true,
          CreatedOn := (timeNow e).1, CreatedBy := userId,
          UpdatedOn := (timeNow (timeNow e).2).1, UpdatedBy := userId }
        (timeNow (timeNow e).2).2 rest (by simpa using h)
      refine Or.inl ⟨[], c, cs, e1, e.calm, rfl, rfl, ?_, hf, rfl, hs⟩
      rw [createMappings]
      simp only [hS]
    | succ n =>
      obtain ⟨m1, e1, hS, hf, hSc⟩ := mappingSave_pass
        { Id := 0, ExternalLinkId := linkId, ClusterId := c, Active := true,
          CreatedOn := (timeNow e).1, CreatedBy := userId,
          UpdatedOn := (timeNow (timeNow e).2).1, UpdatedBy := userId }
        (timeNow (timeNow e).2).2 (List.replicate n false ++ true :: rest)
        (by simpa [List.replicate_succ] using h)
      have hSc2 : MappingRepository.Save
          { Id := 0, ExternalLinkId := linkId, ClusterId := c, Active := true,
            CreatedOn := (timeNow e.calm).1, CreatedBy := userId,
            UpdatedOn := (timeNow (timeNow e.calm).2).1, UpdatedBy := userId }
          (timeNow (timeNow e.calm).2).2 = (.ok m1, e1.calm) := hSc
      rcases ih e1 n rest hf with ⟨cs1, c1, cs2, e2, efree, hcs, hlen, hrun, hf2, hfree, hst⟩ |
          ⟨hle, e2, hrun, hf2, hfree⟩
      · refine Or.inl ⟨c :: cs1, c1, cs2, e2, efree, by rw [hcs]; rfl, by simp [hlen], ?_, hf2,
          ?_, hst⟩
        · rw [createMappings]
          simp only [hS, hrun]
        · rw [createMappings]
          simp only [hSc2, hfree]
      · refine Or.inr ⟨by simp only [List.length_cons]; omega, e2, ?_, ?_, ?_⟩
        · rw [createMappings]
          simp only [hS, hrun]
        · rw [hf2]
          simp only [List.length_cons, Nat.succ_sub_succ]
        · rw [createMappings]
          simp only [hSc2, hfree]

theorem saveCount_nil : saveCount [] = 0 := rfl

theorem saveCount_cons (r : ExternalLinkDto) (rs : List ExternalLinkDto) :
    saveCount (r :: rs) = 1 + r.ClusterIds.length + saveCount rs := by
  simp [saveCount]

theorem saveCount_append_singleton (rs : List ExternalLinkDto) (r : ExternalLinkDto) :
    saveCount (rs ++ [r]) = saveCount rs + 1 + r.ClusterIds.length := by
  simp [saveCount]
  omega

/-- A run of `Create` against a script whose first failure is entry `n` (counted from
0).  If the call needs more than `n` saves it stops at the failing one: at the save of
the link of a request `req`, with the link error, after the requests `done` before it
have been written in full; or at the save of a cluster id `c` of `req`, with the
cluster error, after `done`, the link of `req` and its cluster ids `cs1` before `c`
have been written.  Nothing of the script after the failure is consumed.  Otherwise
the call succeeds as it does without failure, the failure still pending. -/
theorem Create_script (userId : Int) (requests : List ExternalLinkDto) :
    ∀ (e : Env) (n : Nat) (rest : List Bool),
    e.faults = List.replicate n false ++ true :: rest →
    (∃ done req after e1 efree, requests = done ++ req :: after ∧ e1.faults = rest ∧
      e1.store = efree.store ∧
      ((n = saveCount done ∧ Create requests userId e = (.error linkFailed, e1) ∧
          Create done userId e.calm = (.ok { Success := true }, efree)) ∨
        (∃ cs1 c cs2, req.ClusterIds = cs1 ++ c :: cs2 ∧
          n = saveCount done + 1 + cs1.length ∧
          Create requests userId e = (.error clusterIdFailed, e1) ∧
          Create (done ++ [{ req with ClusterIds := cs1 }]) userId e.calm =
            (.ok { Success := true }, efree)))) ∨
    (saveCount requests ≤ n ∧ ∃ e1, Create requests userId e = (.ok { Success := true }, e1) ∧
      e1.faults = List.replicate (n - saveCount requests) false ++ true :: rest ∧
      Create requests userId e.calm = (.ok { Success := true }, e1.calm)) := by
  induction requests with
  | nil =>
    intro e n rest h
    exact Or.inr ⟨Nat.zero_le _, e, rfl, by simpa [saveCount_nil] using h, rfl⟩
  | cons req rs ih =>
    intro e n rest h
    cases n with
    | zero =>
      obtain ⟨e1, hS, hf, hs⟩ := linkSave_fail
        { Id := 0, Name := req.Name, Active := true,
          ExternalLinkMonitoringToolId := req.MonitoringToolId, Url := req.Url,
          CreatedOn := (timeNow e).1, CreatedBy := userId,
          UpdatedOn := (timeNow (timeNow e).2).1, UpdatedBy := userId }
        (timeNow (timeNow e).2).2 rest (by simpa using h)
      refine Or.inl ⟨[], req, rs, e1, e.calm, rfl, hf, hs, Or.inl ⟨rfl, ?_, rfl⟩⟩
      rw [Create]
      simp only [hS]
    | succ n =>
      obtain ⟨t1, eS, hS, hf, hSc⟩ := linkSave_pass
        { Id := 0, Name := req.Name, Active := true,
          ExternalLinkMonitoringToolId := req.MonitoringToolId, Url := req.Url,
          CreatedOn := (timeNow e).1, CreatedBy := userId,
          UpdatedOn := (timeNow (timeNow e).2).1, UpdatedBy := userId }
        (timeNow (timeNow e).2).2 (List.replicate n false ++ true :: rest)
        (by simpa [List.replicate_succ] using h)
      have hSc2 : ∀ cs : List Int, LinkRepository.Save
          { Id := 0, Name := ({ req with ClusterIds := cs } : ExternalLinkDto).Name, Active := true,
            ExternalLinkMonitoringToolId := ({ req with ClusterIds := cs } : ExternalLinkDto).MonitoringToolId,
            Url := ({ req with ClusterIds := cs } : ExternalLinkDto).Url,
            CreatedOn := (timeNow e.calm).1, CreatedBy := userId,
            UpdatedOn := (timeNow (timeNow e.calm).2).1, UpdatedBy := userId }
          (timeNow (timeNow e.calm).2).2 = (.ok t1, eS.calm) := fun _ => hSc
      rcases createMappings_script t1.Id userId req.ClusterIds eS n rest hf with
          ⟨cs1, c, cs2, eD, efree, hcs, hlen, hrun, hf2, hfree, hst⟩ | ⟨hle, eD, hrun, hf2, hfree⟩
      · refine Or.inl ⟨[], req, rs, eD, efree, rfl, hf2, hst,
          Or.inr ⟨cs1, c, cs2, hcs, by rw [saveCount_nil, hlen]; omega, ?_, ?_⟩⟩
        · rw [Create]
          simp only [hS, hrun]
        · show Create [{ req with ClusterIds := cs1 }] userId e.calm = _
          rw [Create]
          simp only [hSc2 cs1, hfree]
          rfl
      · have hcalm : ∀ (X : List ExternalLinkDto) r, Create X userId eD.calm = r →
            Create (req :: X) userId e.calm = r := by
          intro X r hX
          rw [Create]
          have := hSc2 req.ClusterIds
          simp only [] at this
          simp only [this, hfree]
          exact hX
        rcases ih eD (n - req.ClusterIds.length) rest hf2 with
            ⟨done, req1, after, e1, efree, hreq, hf3, hst, hcase⟩ | ⟨hle2, e1, hrun2, hf3, hfree2⟩
        · refine Or.inl ⟨req :: done, req1, after, e1, efree, by rw [hreq]; rfl, hf3, hst, ?_⟩
          rcases hcase with ⟨hn, hrun2, hfree2⟩ | ⟨cs1, c, cs2, hcs, hn, hrun2, hfree2⟩
          · refine Or.inl ⟨by rw [saveCount_cons]; omega, ?_, hcalm _ _ hfree2⟩
            rw [Create]
            simp only [hS, hrun]
            exact hrun2
          · refine Or.inr ⟨cs1, c, cs2, hcs, by rw [saveCount_cons]; omega, ?_, ?_⟩
            · rw [Create]
              simp only [hS, hrun]
              exact hrun2
            · exact hcalm _ _ hfree2
        · refine Or.inr ⟨by rw [saveCount_cons]; omega, e1, ?_, ?_, hcalm _ _ hfree2⟩
          · rw [Create]
            simp only [hS, hrun]
            exact hrun2
          · rw [hf3, saveCount_cons]
            congr 2
            omega

theorem items_count (requests : List ExternalLinkDto)
    (items : List (ExternalLink × List ExternalLinkClusterMapping))
    (hF : List.Forall₂ (fun req item =>
        item.1.Active = true ∧ item.1.Name = req.Name ∧ item.1.Url = req.Url ∧
        item.1.ExternalLinkMonitoringToolId = req.MonitoringToolId ∧
        item.2.map (fun r => (r.ExternalLinkId, r.ClusterId, r.Active)) =
          req.ClusterIds.map (fun c => (item.1.Id, c, true))) requests items) :
    (items.map (·.1)).length + ((items.map (·.2)).flatten).length = saveCount requests := by
  induction hF with
  | nil => rfl
  | @cons req item reqs its hR _ ih =>
    have hlen : item.2.length = req.ClusterIds.length := by
      have := congrArg List.length hR.2.2.2.2
      simpa using this
    simp only [List.map_cons, List.length_cons, List.flatten_cons, List.length_append,
      saveCount_cons, hlen]
    simp only [List.length_map] at ih ⊢
    omega

/-- C11. `Create` against a script of repository outcomes whose first failure is the
`Save` number `n + 1` of the call: the call returns one of its two fixed
"failed to create in db" errors, message for message as lines 86-89 and 103-106 build
them and whatever the repository error was (the link error when the failed save is
the save of a link, the cluster error when it is the save of a cluster id), consumes
nothing of
the script after the failure, so that no later cluster id and no later request is
processed, and leaves the store that `Create` without failure leaves for `written`,
the requests before the failure with the cluster ids before the failure, which
account for exactly `n` saves: the prior tables followed by `n` new rows. -/
theorem Create_aborts_without_rollback (requests : List ExternalLinkDto) (userId : Int)
    (e : Env) (n : Nat) (rest : List Bool)
    (hscript : e.faults = List.replicate n false ++ true :: rest)
    (hreached : n < saveCount requests) :
    ∃ (done : List ExternalLinkDto) (req : ExternalLinkDto) (after written : List ExternalLinkDto)
      (err : Error) (e1 efree : Env),
      requests = done ++ req :: after ∧
      ((written = done ∧
          err = .apiError "external link failed to create in db" "external link failed to create in db") ∨
        (∃ cs1 c cs2, req.ClusterIds = cs1 ++ c :: cs2 ∧
          written = done ++ [{ req with ClusterIds := cs1 }] ∧
          err = .apiError "cluster id failed to create in db" "cluster id failed to create in db")) ∧
      saveCount written = n ∧
      Create requests userId e = (.error err, e1) ∧
      e1.faults = rest ∧
      Create written userId e.calm = (.ok { Success := true }, efree) ∧
      e1.store = efree.store ∧
      ∃ newLinks newRows, e1.store.links = e.store.links ++ newLinks ∧
        e1.store.mappings = e.store.mappings ++ newRows ∧
        newLinks.length + newRows.length = n := by
  have hrows : ∀ (written : List ExternalLinkDto) (efree : Env),
      Create written userId e.calm = (.ok { Success := true }, efree) →
      ∃ newLinks newRows, efree.store.links = e.store.links ++ newLinks ∧
        efree.store.mappings = e.store.mappings ++ newRows ∧
        newLinks.length + newRows.length = saveCount written := by
    intro written efree hrun
    obtain ⟨items, e2, hrun2, _, _, hl, hm, hF, _⟩ :=
      Create_ok userId written e.calm (noFaults_calm e)
    have he : e2 = efree := (Prod.mk.inj (hrun2.symm.trans hrun)).2
    subst he
    exact ⟨_, _, hl, hm, items_count written items hF⟩
  rcases Create_script userId requests e n rest hscript with
      ⟨done, req, after, e1, efree, hreq, hf, hst, hcase⟩ | ⟨hle, _⟩
  · rcases hcase with ⟨hn, hrun, hfree⟩ | ⟨cs1, c, cs2, hcs, hn, hrun, hfree⟩
    · obtain ⟨newLinks, newRows, h1, h2, h3⟩ := hrows done efree hfree
      exact ⟨done, req, after, done, linkFailed, e1, efree, hreq, Or.inl ⟨rfl, rfl⟩, hn.symm,
        hrun, hf, hfree, hst, newLinks, newRows, by rw [hst, h1], by rw [hst, h2],
        by rw [h3, hn]⟩
    · obtain ⟨newLinks, newRows, h1, h2, h3⟩ := hrows _ efree hfree
      have hcount : saveCount (done ++ [{ req with ClusterIds := cs1 }]) = n := by
        rw [saveCount_append_singleton, hn]
      exact ⟨done, req, after, _, clusterIdFailed, e1, efree, hreq,
        Or.inr ⟨cs1, c, cs2, hcs, rfl, rfl⟩, hcount, hrun, hf, hfree, hst, newLinks, newRows,
        by rw [hst, h1], by rw [hst, h2], by rw [h3, hcount]⟩
  · omega

/-- C11, on the Grafana request when the save of its first cluster id fails: the call
returns the cluster error and the link row written before stays in the store. -/
theorem Create_aborts_without_rollback_witness :
    (envSecondSaveFails.faults = List.replicate 1 false ++ true :: [] ∧
      1 < saveCount [reqGrafana]) ∧
    (∃ (done : List ExternalLinkDto) (req : ExternalLinkDto)
      (after written : List ExternalLinkDto) (err : Error) (e1 efree : Env),
      [reqGrafana] = done ++ req :: after ∧
      ((written = done ∧
          err = .apiError "external link failed to create in db" "external link failed to create in db") ∨
        (∃ cs1 c cs2, req.ClusterIds = cs1 ++ c :: cs2 ∧
          written = done ++ [{ req with ClusterIds := cs1 }] ∧
          err = .apiError "cluster id failed to create in db" "cluster id failed to create in db")) ∧
      saveCount written = 1 ∧
      Create [reqGrafana] 7 envSecondSaveFails = (.error err, e1) ∧
      e1.faults = [] ∧
      Create written 7 envSecondSaveFails.calm = (.ok { Success := true }, efree) ∧
      e1.store = efree.store ∧
      ∃ newLinks newRows, e1.store.links = envSecondSaveFails.store.links ++ newLinks ∧
        e1.store.mappings = envSecondSaveFails.store.mappings ++ newRows ∧
        newLinks.length + newRows.length = 1) ∧
    (Create [reqGrafana] 7 envSecondSaveFails).1
      = .error (.apiError "cluster id failed to create in db" "cluster id failed to create in db") ∧
    (Create [reqGrafana] 7 envSecondSaveFails).2.store.links.map
      (fun l => (l.Id, l.Name, l.Active)) = [(1, "Grafana", true)] ∧
    (Create [reqGrafana] 7 envSecondSaveFails).2.store.mappings = [] :=
  ⟨⟨rfl, by decide⟩,
    Create_aborts_without_rollback [reqGrafana] 7 envSecondSaveFails 1 [] rfl (by decide),
    rfl, by decide, by decide⟩

/-! ## C13: active mappings reference active links, also after an aborted call -/

theorem mappingUpdate_store (m : ExternalLinkClusterMapping) (e : Env) :
    (MappingRepository.Update m e).2.store = e.store ∨
    ((MappingRepository.Update m e).2.store.links = e.store.links ∧
      (MappingRepository.Update m e).2.store.mappings =
        e.store.mappings.map (fun r => if r.Id = m.Id then m else r)) := by
  obtain ⟨st, ck, fs⟩ := e
  cases fs with
  | nil => exact Or.inr ⟨rfl, rfl⟩
  | cons b rest =>
    cases b
    · exact Or.inr ⟨rfl, rfl⟩
    · exact Or.inl rfl

theorem mappingSave_store (m : ExternalLinkClusterMapping) (e : Env) :
    (MappingRepository.Save m e).2.store = e.store ∨
    ((MappingRepository.Save m e).2.store.links = e.store.links ∧
      (MappingRepository.Save m e).2.store.mappings =
        e.store.mappings ++ [{ m with Id := freshId (e.store.mappings.map (·.Id)) }]) := by
  obtain ⟨st, ck, fs⟩ := e
  cases fs with
  | nil => exact Or.inr ⟨rfl, rfl⟩
  | cons b rest =>
    cases b
    · exact Or.inr ⟨rfl, rfl⟩
    · exact Or.inl rfl

theorem linkSave_store (t : ExternalLink) (e : Env) :
    (∃ e1, LinkRepository.Save t e = (.error .dbError, e1) ∧ e1.store = e.store) ∨
    (∃ e1, LinkRepository.Save t e =
        (.ok { t with Id := freshId (e.store.links.map (·.Id)) }, e1) ∧
      e1.store.links = e.store.links ++ [{ t with Id := freshId (e.store.links.map (·.Id)) }] ∧
      e1.store.mappings = e.store.mappings) := by
  obtain ⟨st, ck, fs⟩ := e
  cases fs with
  | nil => exact Or.inr ⟨_, rfl, rfl, rfl⟩
  | cons b rest =>
    cases b
    · exact Or.inr ⟨_, rfl, rfl, rfl⟩
    · exact Or.inl ⟨_, rfl, rfl⟩

/-- Writing a mapping row by primary key keeps the store referential when the row
written is inactive or references an active link record. -/
theorem referential_mappingUpdate (m : ExternalLinkClusterMapping) (e : Env)
    (href : e.store.Referential)
    (hm : m.Active = true → ∃ l ∈ e.store.links, l.Id = m.ExternalLinkId ∧ l.Active = true) :
    (MappingRepository.Update m e).2.store.Referential := by
  rcases mappingUpdate_store m e with h | ⟨hl, hmp⟩
  · rw [h]; exact href
  · intro r hr ha
    rw [hl]
    rw [hmp] at hr
    obtain ⟨r0, hr0, hre⟩ := List.mem_map.1 hr
    by_cases hid : r0.Id = m.Id
    · simp only [hid, if_true] at hre
      subst hre
      exact hm ha
    · simp only [hid, if_false] at hre
      subst hre
      exact href r0 hr0 ha

/-- Inserting a mapping row that references an active link record keeps the store
referential. -/
theorem referential_mappingSave (m : ExternalLinkClusterMapping) (e : Env)
    (href : e.store.Referential)
    (hm : ∃ l ∈ e.store.links, l.Id = m.ExternalLinkId ∧ l.Active = true) :
    (MappingRepository.Save m e).2.store.Referential := by
  rcases mappingSave_store m e with h | ⟨hl, hmp⟩
  · rw [h]; exact href
  · intro r hr ha
    rw [hl]
    rw [hmp] at hr
    rcases List.mem_append.1 hr with h | h
    · exact href r h ha
    · simp only [List.mem_singleton] at h
      subst h
      exact hm

/-- The tombstone loop keeps the store referential, wherever it stops. -/
theorem deactivateAll_referential (userId : Int) (snap : List ExternalLinkClusterMapping) :
    ∀ e : Env, e.store.Referential → (deactivateAll userId snap e).2.store.Referential := by
  induction snap with
  | nil => intro e h; exact h
  | cons m rest ih =>
    intro e href
    have hstep := referential_mappingUpdate
      { m with Active := false, UpdatedBy := userId, UpdatedOn := (timeNow e).1 } (timeNow e).2
      href (fun h => Bool.noConfusion h)
    unfold deactivateAll
    simp only []
    rcases hc : MappingRepository.Update
      { m with Active := false, UpdatedBy := userId, UpdatedOn := (timeNow e).1 } (timeNow e).2
      with ⟨r, e1⟩
    rw [hc] at hstep
    simp only [] at hstep
    cases r with
    | error err => exact hstep
    | ok u =>
      simp only []
      have hI := ih e1 hstep
      rcases hd : deactivateAll userId rest e1 with ⟨r2, e2⟩
      rw [hd] at hI
      cases r2 with
      | error err => exact hI
      | ok v => exact hI

/-- The inner loop of `Create` keeps the store referential, wherever it stops, when
the link it writes mappings for is an active link record. -/
theorem createMappings_referential (linkId userId : Int) (cs : List Int) :
    ∀ e : Env, e.store.Referential →
      (∃ l ∈ e.store.links, l.Id = linkId ∧ l.Active = true) →
      (createMappings linkId userId cs e).2.store.Referential := by
  induction cs with
  | nil => intro e h _; exact h
  | cons c rest ih =>
    intro e href hl
    have hstep := referential_mappingSave
      { Id := 0, ExternalLinkId := linkId, ClusterId := c, Active := true,
        CreatedOn := (timeNow e).1, CreatedBy := userId,
        UpdatedOn := (timeNow (timeNow e).2).1, UpdatedBy := userId }
      (timeNow (timeNow e).2).2 href hl
    have hfr := (mappingSave_frame
      { Id := 0, ExternalLinkId := linkId, ClusterId := c, Active := true,
        CreatedOn := (timeNow e).1, CreatedBy := userId,
        UpdatedOn := (timeNow (timeNow e).2).1, UpdatedBy := userId }
      (timeNow (timeNow e).2).2).1
    unfold createMappings
    simp only []
    rcases hc : MappingRepository.Save
      { Id := 0, ExternalLinkId := linkId, ClusterId := c, Active := true,
        CreatedOn := (timeNow e).1, CreatedBy := userId,
        UpdatedOn := (timeNow (timeNow e).2).1, UpdatedBy := userId }
      (timeNow (timeNow e).2).2 with ⟨r, e1⟩
    rw [hc] at hstep hfr
    simp only [store_timeNow] at hstep hfr
    cases r with
    | error err => exact hstep
    | ok v => exact ih e1 hstep (by rw [hfr]; exact hl)

theorem mem_setFirst {α : Type} (p : α → Bool) (f : α → α) (l : List α) :
    ∀ a, a ∈ setFirst p f l → a ∈ l ∨ ∃ b ∈ l, a = f b := by
  induction l with
  | nil => intro a h; simp [setFirst] at h
  | cons x xs ih =>
    intro a h
    cases hp : p x with
    | true =>
      rw [setFirst, hp] at h
      simp only [if_true, List.mem_cons] at h
      rcases h with h1 | h1
      · exact Or.inr ⟨x, by simp, h1⟩
      · exact Or.inl (by simp [h1])
    | false =>
      rw [setFirst, hp] at h
      simp only [Bool.false_eq_true, if_false, List.mem_cons] at h
      rcases h with h1 | h1
      · exact Or.inl (by simp [h1])
      · rcases ih a h1 with h2 | ⟨b, hb, hbe⟩
        · exact Or.inl (by simp [h2])
        · exact Or.inr ⟨b, by simp [hb], hbe⟩

/-- The reconciliation loop keeps the store referential, wherever it stops, when the
fetched rows are rows of the link of the request and that link is an active link
record. -/
theorem reconcile_referential (request : ExternalLinkDto) (S : List Int) :
    ∀ (all : List ExternalLinkClusterMapping) (e : Env), e.store.Referential →
      (∃ l ∈ e.store.links, l.Id = request.Id ∧ l.Active = true) →
      (∀ m ∈ all, m.ExternalLinkId = request.Id) →
      (reconcile request all S e).2.store.Referential := by
  induction S with
  | nil => intro all e h _ _; cases all <;> exact h
  | cons c rest ih =>
    intro all e href hl hall
    cases hre : reuseId all c with
    | some i =>
      obtain ⟨model, hmem, hmid, _, hpos, hf⟩ := reuseId_some hre
      rw [reconcile_cons_reuse request all c rest e model hf (hmid ▸ hpos)]
      have hstep := referential_mappingUpdate
        { model with Active := true, UpdatedOn := (timeNow e).1, UpdatedBy := request.UserId }
        (timeNow e).2 href (fun _ => by
          obtain ⟨l, hlm, hlid, hla⟩ := hl
          exact ⟨l, hlm, hlid.trans (hall model hmem).symm, hla⟩)
      have hfr := (mappingUpdate_frame
        { model with Active := true, UpdatedOn := (timeNow e).1, UpdatedBy := request.UserId }
        (timeNow e).2).1
      rcases hc : MappingRepository.Update
        { model with Active := true, UpdatedOn := (timeNow e).1, UpdatedBy := request.UserId }
        (timeNow e).2 with ⟨r, e1⟩
      rw [hc] at hstep hfr
      simp only [store_timeNow] at hstep hfr
      cases r with
      | error err => exact hstep
      | ok v =>
        simp only []
        apply ih _ e1 hstep (by rw [hfr]; exact hl)
        intro m hm
        rcases mem_setFirst _ _ _ m hm with h | ⟨b, _, hbe⟩
        · exact hall m h
        · rw [hbe]; exact hall model hmem
    | none =>
      rw [reconcile_cons_insert request all c rest e hre]
      have hstep := referential_mappingSave
        { Id := 0, ExternalLinkId := request.Id, ClusterId := c, Active := true,
          CreatedOn := (timeNow e).1, CreatedBy := request.UserId,
          UpdatedOn := (timeNow (timeNow e).2).1, UpdatedBy := request.UserId }
        (timeNow (timeNow e).2).2 href hl
      have hfr := (mappingSave_frame
        { Id := 0, ExternalLinkId := request.Id, ClusterId := c, Active := true,
          CreatedOn := (timeNow e).1, CreatedBy := request.UserId,
          UpdatedOn := (timeNow (timeNow e).2).1, UpdatedBy := request.UserId }
        (timeNow (timeNow e).2).2).1
      rcases hc : MappingRepository.Save
        { Id := 0, ExternalLinkId := request.Id, ClusterId := c, Active := true,
          CreatedOn := (timeNow e).1, CreatedBy := request.UserId,
          UpdatedOn := (timeNow (timeNow e).2).1, UpdatedBy := request.UserId }
        (timeNow (timeNow e).2).2 with ⟨r, e1⟩
      rw [hc] at hstep hfr
      simp only [store_timeNow] at hstep hfr
      cases r with
      | error err => exact hstep
      | ok v => exact ih all e1 hstep (by rw [hfr]; exact hl) hall

theorem deactivateAll_result_keys (userId : Int) (snap : List ExternalLinkClusterMapping) :
    ∀ (e : Env) (s1 : List ExternalLinkClusterMapping) (e1 : Env),
      deactivateAll userId snap e = (.ok s1, e1) → s1.map rowKey = snap.map rowKey := by
  induction snap with
  | nil =>
    intro e s1 e1 h
    simp only [deactivateAll, Prod.mk.injEq, Except.ok.injEq] at h
    rw [← h.1]
  | cons m rest ih =>
    intro e s1 e1 h
    unfold deactivateAll at h
    simp only [] at h
    rcases hc : MappingRepository.Update
      { m with Active := false, UpdatedBy := userId, UpdatedOn := (timeNow e).1 } (timeNow e).2
      with ⟨r, e2⟩
    rw [hc] at h
    cases r with
    | error err => simp at h
    | ok u =>
      simp only [] at h
      rcases hd : deactivateAll userId rest e2 with ⟨r2, e3⟩
      rw [hd] at h
      cases r2 with
      | error err => simp at h
      | ok rest1 =>
        simp only [Prod.mk.injEq, Except.ok.injEq] at h
        rw [← h.1]
        simp only [List.map_cons, ih e2 rest1 e3 hd]
        rfl

/-- `Create` keeps the store referential, wherever it stops. -/
theorem Create_referential (userId : Int) (requests : List ExternalLinkDto) :
    ∀ e : Env, e.store.Referential → (Create requests userId e).2.store.Referential := by
  induction requests with
  | nil => intro e h; exact h
  | cons req rest ih =>
    intro e href
    rcases linkSave_store
      { Id := 0, Name := req.Name, Active := true,
        ExternalLinkMonitoringToolId := req.MonitoringToolId, Url := req.Url,
        CreatedOn := (timeNow e).1, CreatedBy := userId,
        UpdatedOn := (timeNow (timeNow e).2).1, UpdatedBy := userId }
      (timeNow (timeNow e).2).2 with ⟨e1, hS, hs⟩ | ⟨e1, hS, hl, hm⟩
    · rw [Create]
      simp only [hS]
      rw [hs]
      exact href
    · simp only [store_timeNow] at hl hm
      have href1 : e1.store.Referential := by
        intro r hr ha
        rw [hm] at hr
        obtain ⟨l, hlm, hlid, hla⟩ := href r hr ha
        exact ⟨l, by rw [hl]; exact List.mem_append_left _ hlm, hlid, hla⟩
      have hI := createMappings_referential (freshId (e.store.links.map (·.Id))) userId
        req.ClusterIds e1 href1
        ⟨_, by rw [hl]; exact List.mem_append_right _ (List.mem_singleton.2 rfl), rfl, rfl⟩
      rw [Create]
      simp only [hS, store_timeNow]
      rcases hc : createMappings (freshId (e.store.links.map (·.Id))) userId req.ClusterIds e1
        with ⟨r, e2⟩
      rw [hc] at hI ⊢
      cases r with
      | error err => exact hI
      | ok v => exact ih e2 hI

/-- `Update` keeps the store referential, wherever it stops. -/
theorem Update_referential (request : ExternalLinkDto) (e : Env) (href : e.store.Referential) :
    (Update request e).2.store.Referential := by
  rcases linkFindOne_outcome request.Id e with ⟨err, eF, hF, hFs⟩ | ⟨found, eF, hF, _⟩
  · unfold Update
    rw [hF]
    show eF.store.Referential
    rw [hFs]; exact href
  obtain ⟨hfound, hFs, _⟩ := linkFindOne_found request.Id e found eF hF
  have hfid : found.Id = request.Id := by simpa using List.find?_some hfound
  rcases linkUpdate_outcome
    { found with Name := request.Name, Url := request.Url, Active := true,
                 ExternalLinkMonitoringToolId := request.MonitoringToolId,
                 UpdatedBy := request.UserId, UpdatedOn := (timeNow eF).1 } (timeNow eF).2
    with ⟨eU, hU, hUs⟩ | ⟨eU, hU, _⟩
  · unfold Update
    rw [hF]
    simp only []
    rw [hU]
    show eU.store.Referential
    rw [hUs, store_timeNow, hFs]; exact href
  obtain ⟨hUl, hUm⟩ := linkUpdate_result _ _ () eU hU
  simp only [store_timeNow, hFs] at hUl hUm
  have hlinkU : ∃ l ∈ eU.store.links, l.Id = request.Id ∧ l.Active = true := by
    rw [hUl]
    exact ⟨_, List.mem_map.2 ⟨found, List.mem_of_find?_eq_some hfound, if_pos rfl⟩, hfid, rfl⟩
  have hrefU : eU.store.Referential := by
    intro r hr ha
    rw [hUm] at hr
    obtain ⟨l, hlm, hlid, hla⟩ := href r hr ha
    rw [hUl]
    by_cases hid : l.Id = found.Id
    · refine ⟨_, List.mem_map_of_mem _ hlm, ?_, ?_⟩
      · simp only [hid, if_true]
        exact hid.symm.trans hlid
      · simp only [hid, if_true]
    · refine ⟨l, ?_, hlid, hla⟩
      have := List.mem_map_of_mem (fun l : ExternalLink => if l.Id = found.Id then
        { found with Name := request.Name, Url := request.Url, Active := true,
                     ExternalLinkMonitoringToolId := request.MonitoringToolId,
                     UpdatedBy := request.UserId, UpdatedOn := (timeNow eF).1 } else l) hlm
      simpa [hid] using this
  rcases mappingFindAllByLink_outcome request.Id eU with ⟨eL, hL, hLs⟩ | ⟨eL, hL, hLc⟩
  · unfold Update
    rw [hF]
    simp only []
    rw [hU]
    simp only []
    rw [hL]
    show eL.store.Referential
    rw [hLs]; exact hrefU
  have hLst : eL.store = eU.store := by
    have h2 : eL.calm.store = eU.calm.store := congrArg (fun x : Env => x.store) hLc
    exact h2
  have hrefL : eL.store.Referential := by rw [hLst]; exact hrefU
  have hD := deactivateAll_referential request.UserId
    (eU.store.mappings.filter (fun m => m.ExternalLinkId == request.Id)) eL hrefL
  have hDl := (deactivateAll_frame request.UserId
    (eU.store.mappings.filter (fun m => m.ExternalLinkId == request.Id)) eL).1
  unfold Update
  rw [hF]
  simp only []
  rw [hU]
  simp only []
  rw [hL]
  simp only []
  rcases hDe : deactivateAll request.UserId
    (eU.store.mappings.filter (fun m => m.ExternalLinkId == request.Id)) eL with ⟨rD, eD⟩
  rw [hDe] at hD hDl
  simp only [] at hD hDl
  cases rD with
  | error err => exact hD
  | ok all =>
    simp only []
    have hkeys := deactivateAll_result_keys _ _ _ _ _ hDe
    have hall : ∀ m ∈ all, m.ExternalLinkId = request.Id := by
      intro m hm
      obtain ⟨m0, hm0, hk0⟩ := mem_of_map_rowKey_eq hkeys hm
      rw [← (rowKey_fields hk0).2.1]
      simpa using (List.mem_filter.1 hm0).2
    have hR := reconcile_referential request request.ClusterIds all eD hD
      (by rw [hDl, hLst]; exact hlinkU) hall
    rcases hRe : reconcile request all request.ClusterIds eD with ⟨rR, eR⟩
    rw [hRe] at hR
    cases rR with
    | error err => exact hR
    | ok v => exact hR

/-- `DeleteLink` keeps the store referential, wherever it stops: the link record is
written inactive only after every active mapping of the link has been tombstoned. -/
theorem DeleteLink_referential (id userId : Int) (e : Env) (href : e.store.Referential) :
    (DeleteLink id userId e).2.store.Referential := by
  rcases mappingFindAllActiveByLink_outcome id e with ⟨eL, hL, hLs⟩ | ⟨eL, hL, hLc⟩
  · unfold DeleteLink
    rw [hL]
    show eL.store.Referential
    rw [hLs]; exact href
  have hLst : eL.store = e.store := by
    have h2 : eL.calm.store = e.calm.store := congrArg (fun x : Env => x.store) hLc
    exact h2
  have hrefL : eL.store.Referential := by rw [hLst]; exact href
  have hD := deactivateAll_referential userId
    (e.store.mappings.filter (fun m => m.ExternalLinkId == id && m.Active)) eL hrefL
  rcases deactivateAll_outcome userId
      (e.store.mappings.filter (fun m => m.ExternalLinkId == id && m.Active)) eL
    with ⟨s1, eD, hDe, hDc⟩ | ⟨err, eD, _, _, _, hDe, _⟩
  swap
  · unfold DeleteLink
    rw [hL]
    simp only []
    rw [hDe] at hD ⊢
    exact hD
  rw [hDe] at hD
  simp only [] at hD
  -- no active mapping of the link is left
  obtain ⟨G, s2, e2, hrun2, _, _, _, hm2, _, hG1, hG2⟩ := deactivateAll_ok userId
    (e.store.mappings.filter (fun m => m.ExternalLinkId == id && m.Active)) eL.calm
    (noFaults_calm eL)
  have he2 : e2 = eD.calm := (Prod.mk.inj (hrun2.symm.trans hDc)).2
  subst he2
  have hmD : eD.store.mappings = e.store.mappings.map G := by
    have : eD.calm.store.mappings = eL.calm.store.mappings.map G := hm2
    simpa [hLst] using this
  have hnone : ∀ r1 ∈ eD.store.mappings, r1.ExternalLinkId = id → r1.Active = false := by
    intro r1 hr1 hr1l
    rw [hmD] at hr1
    obtain ⟨r, hr, hre⟩ := List.mem_map.1 hr1
    subst hre
    by_cases hex : ∃ m ∈ e.store.mappings.filter (fun m => m.ExternalLinkId == id && m.Active),
        m.Id = r.Id
    · obtain ⟨_, _, _, _, hact⟩ := hG2 r hex
      exact hact
    · have hfix := hG1 r (fun m hm h => hex ⟨m, hm, h⟩)
      rw [hfix] at hr1l ⊢
      by_contra hact
      apply hex
      have hact1 : r.Active = true := by
        cases h : r.Active
        · exact absurd h hact
        · rfl
      exact ⟨r, List.mem_filter.2 ⟨hr, by simp [hr1l, hact1]⟩, rfl⟩
  rcases linkFindOne_outcome id eD with ⟨err, eF, hF, hFs⟩ | ⟨found, eF, hF, _⟩
  · unfold DeleteLink
    rw [hL]
    simp only []
    rw [hDe]
    simp only []
    rw [hF]
    show eF.store.Referential
    rw [hFs]; exact hD
  obtain ⟨hfound, hFs, _⟩ := linkFindOne_found id eD found eF hF
  have hfid : found.Id = id := by simpa using List.find?_some hfound
  rcases linkUpdate_outcome
    { found with Active := false, UpdatedOn := (timeNow eF).1, UpdatedBy := userId }
    (timeNow eF).2 with ⟨eU, hU, hUs⟩ | ⟨eU, hU, _⟩
  · unfold DeleteLink
    rw [hL]
    simp only []
    rw [hDe]
    simp only []
    rw [hF]
    simp only []
    rw [hU]
    show eU.store.Referential
    rw [hUs, store_timeNow, hFs]; exact hD
  · obtain ⟨hUl, hUm⟩ := linkUpdate_result _ _ () eU hU
    simp only [store_timeNow, hFs] at hUl hUm
    unfold DeleteLink
    rw [hL]
    simp only []
    rw [hDe]
    simp only []
    rw [hF]
    simp only []
    rw [hU]
    show eU.store.Referential
    intro r hr ha
    rw [hUm] at hr
    obtain ⟨l, hlm, hlid, hla⟩ := hD r hr ha
    have hne : ¬ l.Id = found.Id := by
      intro h
      have := hnone r hr (by rw [← hlid, h, hfid])
      rw [this] at ha
      exact Bool.noConfusion ha
    refine ⟨l, ?_, hlid, hla⟩
    rw [hUl]
    have := List.mem_map_of_mem (fun l : ExternalLink => if l.Id = found.Id then
      { found with Active := false, UpdatedOn := (timeNow eF).1, UpdatedBy := userId }
      else l) hlm
    simpa [hne] using this

/-- C13. The referential invariant "every active mapping row references a link record
that exists and is active" is preserved by `Create`, `Update` and `DeleteLink`: if it
holds in the store before the call then it holds in the store the call leaves behind,
for every clock and every script of repository failures, hence also when the call
aborts with an error after some of its writes. -/
theorem Referential_preserved (e : Env) (href : e.store.Referential) :
    (∀ (requests : List ExternalLinkDto) (userId : Int),
        (Create requests userId e).2.store.Referential) ∧
      (∀ request : ExternalLinkDto, (Update request e).2.store.Referential) ∧
      (∀ id userId : Int, (DeleteLink id userId e).2.store.Referential) :=
  ⟨fun requests userId => Create_referential userId requests e href,
   fun request => Update_referential request e href,
   fun id userId => DeleteLink_referential id userId e href⟩

/-- A run of `DeleteLink` that aborts at its third repository call, after the first
mapping row has been tombstoned: the invariant holds before and after. -/
theorem Referential_preserved_witness :
    envACThirdFails.store.Referential ∧
      (DeleteLink 1 9 envACThirdFails).1 = .error .dbError ∧
      (DeleteLink 1 9 envACThirdFails).2.store.mappings.map (fun r => (r.Id, r.Active))
        = [(1, false), (2, true)] ∧
      (DeleteLink 1 9 envACThirdFails).2.store.links.map (fun l => (l.Id, l.Active))
        = [(1, true)] ∧
      (DeleteLink 1 9 envACThirdFails).2.store.Referential :=
  ⟨by decide, rfl, rfl, rfl, (Referential_preserved envACThirdFails (by decide)).2.2 1 9⟩

/-! ## C12: a second application of the same Update -/

theorem positive_of_ids {s s1 : Store}
    (h : s1.mappings.map (·.Id) = s.mappings.map (·.Id)) (hp : s.PositiveKeys) :
    s1.PositiveKeys := by
  intro r hr
  have hmem : r.Id ∈ s1.mappings.map (·.Id) := List.mem_map_of_mem _ hr
  rw [h] at hmem
  obtain ⟨r0, hr0, he⟩ := List.mem_map.1 hmem
  rw [← he]
  exact hp r0 hr0

theorem positive_mappingUpdate (m : ExternalLinkClusterMapping) (e : Env)
    (hp : e.store.PositiveKeys) : (MappingRepository.Update m e).2.store.PositiveKeys :=
  positive_of_ids (mappingUpdate_frame m e).2.2 hp

theorem positive_mappingSave (m : ExternalLinkClusterMapping) (e : Env)
    (hp : e.store.PositiveKeys) : (MappingRepository.Save m e).2.store.PositiveKeys := by
  rcases mappingSave_store m e with h | ⟨_, hmp⟩
  · rw [h]; exact hp
  · intro r hr
    rw [hmp] at hr
    rcases List.mem_append.1 hr with h | h
    · exact hp r h
    · simp only [List.mem_singleton] at h
      subst h
      exact freshId_pos _

theorem deactivateAll_positive (userId : Int) (snap : List ExternalLinkClusterMapping)
    (e : Env) (hp : e.store.PositiveKeys) :
    (deactivateAll userId snap e).2.store.PositiveKeys :=
  positive_of_ids (deactivateAll_frame userId snap e).2.2 hp

theorem createMappings_positive (linkId userId : Int) (cs : List Int) :
    ∀ e : Env, e.store.PositiveKeys →
      (createMappings linkId userId cs e).2.store.PositiveKeys := by
  induction cs with
  | nil => intro e h; exact h
  | cons c rest ih =>
    intro e hp
    have hstep := positive_mappingSave
      { Id := 0, ExternalLinkId := linkId, ClusterId := c, Active := true,
        CreatedOn := (timeNow e).1, CreatedBy := userId,
        UpdatedOn := (timeNow (timeNow e).2).1, UpdatedBy := userId }
      (timeNow (timeNow e).2).2 hp
    unfold createMappings
    simp only []
    rcases hc : MappingRepository.Save
      { Id := 0, ExternalLinkId := linkId, ClusterId := c, Active := true,
        CreatedOn := (timeNow e).1, CreatedBy := userId,
        UpdatedOn := (timeNow (timeNow e).2).1, UpdatedBy := userId }
      (timeNow (timeNow e).2).2 with ⟨r, e1⟩
    rw [hc] at hstep
    cases r with
    | error err => exact hstep
    | ok v => exact ih e1 hstep

theorem reconcile_positive (request : ExternalLinkDto) (S : List Int) :
    ∀ (all : List ExternalLinkClusterMapping) (e : Env), e.store.PositiveKeys →
      (reconcile request all S e).2.store.PositiveKeys := by
  induction S with
  | nil => intro all e h; cases all <;> exact h
  | cons c rest ih =>
    intro all e hp
    cases hre : reuseId all c with
    | some i =>
      obtain ⟨model, hmem, hmid, _, hpos, hf⟩ := reuseId_some hre
      rw [reconcile_cons_reuse request all c rest e model hf (hmid ▸ hpos)]
      have hstep := positive_mappingUpdate
        { model with Active := true, UpdatedOn := (timeNow e).1, UpdatedBy := request.UserId }
        (timeNow e).2 hp
      rcases hc : MappingRepository.Update
        { model with Active := true, UpdatedOn := (timeNow e).1, UpdatedBy := request.UserId }
        (timeNow e).2 with ⟨r, e1⟩
      rw [hc] at hstep
      cases r with
      | error err => exact hstep
      | ok v => exact ih _ e1 hstep
    | none =>
      rw [reconcile_cons_insert request all c rest e hre]
      have hstep := positive_mappingSave
        { Id := 0, ExternalLinkId := request.Id, ClusterId := c, Active := true,
          CreatedOn := (timeNow e).1, CreatedBy := request.UserId,
          UpdatedOn := (timeNow (timeNow e).2).1, UpdatedBy := request.UserId }
        (timeNow (timeNow e).2).2 hp
      rcases hc : MappingRepository.Save
        { Id := 0, ExternalLinkId := request.Id, ClusterId := c, Active := true,
          CreatedOn := (timeNow e).1, CreatedBy := request.UserId,
          UpdatedOn := (timeNow (timeNow e).2).1, UpdatedBy := request.UserId }
        (timeNow (timeNow e).2).2 with ⟨r, e1⟩
      rw [hc] at hstep
      cases r with
      | error err => exact hstep
      | ok v => exact ih all e1 hstep

/-- `Create` keeps the identities of the mapping rows positive, wherever it stops. -/
theorem Create_positive (userId : Int) (requests : List ExternalLinkDto) :
    ∀ e : Env, e.store.PositiveKeys → (Create requests userId e).2.store.PositiveKeys := by
  induction requests with
  | nil => intro e h; exact h
  | cons req rest ih =>
    intro e hp
    rcases linkSave_store
      { Id := 0, Name := req.Name, Active := true,
        ExternalLinkMonitoringToolId := req.MonitoringToolId, Url := req.Url,
        CreatedOn := (timeNow e).1, CreatedBy := userId,
        UpdatedOn := (timeNow (timeNow e).2).1, UpdatedBy := userId }
      (timeNow (timeNow e).2).2 with ⟨e1, hS, hs⟩ | ⟨e1, hS, _, hm⟩
    · rw [Create]
      simp only [hS]
      rw [hs]
      exact hp
    · simp only [store_timeNow] at hm
      have hp1 : e1.store.PositiveKeys := fun r hr => hp r (hm ▸ hr)
      have hI := createMappings_positive (freshId (e.store.links.map (·.Id))) userId
        req.ClusterIds e1 hp1
      rw [Create]
      simp only [hS, store_timeNow]
      rcases hc : createMappings (freshId (e.store.links.map (·.Id))) userId req.ClusterIds e1
        with ⟨r, e2⟩
      rw [hc] at hI ⊢
      cases r with
      | error err => exact hI
      | ok v => exact ih e2 hI

/-- `Update` keeps the identities of the mapping rows positive, wherever it stops. -/
theorem Update_positive (request : ExternalLinkDto) (e : Env) (hp : e.store.PositiveKeys) :
    (Update request e).2.store.PositiveKeys := by
  rcases linkFindOne_outcome request.Id e with ⟨err, eF, hF, hFs⟩ | ⟨found, eF, hF, _⟩
  · unfold Update
    rw [hF]
    show eF.store.PositiveKeys
    rw [hFs]; exact hp
  obtain ⟨_, hFs, _⟩ := linkFindOne_found request.Id e found eF hF
  rcases linkUpdate_outcome
    { found with Name := request.Name, Url := request.Url, Active := true,
                 ExternalLinkMonitoringToolId := request.MonitoringToolId,
                 UpdatedBy := request.UserId, UpdatedOn := (timeNow eF).1 } (timeNow eF).2
    with ⟨eU, hU, hUs⟩ | ⟨eU, hU, _⟩
  · unfold Update
    rw [hF]
    simp only []
    rw [hU]
    show eU.store.PositiveKeys
    rw [hUs, store_timeNow, hFs]; exact hp
  obtain ⟨_, hUm⟩ := linkUpdate_result _ _ () eU hU
  simp only [store_timeNow, hFs] at hUm
  have hpU : eU.store.PositiveKeys := fun r hr => hp r (hUm ▸ hr)
  rcases mappingFindAllByLink_outcome request.Id eU with ⟨eL, hL, hLs⟩ | ⟨eL, hL, hLc⟩
  · unfold Update
    rw [hF]
    simp only []
    rw [hU]
    simp only []
    rw [hL]
    show eL.store.PositiveKeys
    rw [hLs]; exact hpU
  have hLst : eL.store = eU.store := by
    have h2 : eL.calm.store = eU.calm.store := congrArg (fun x : Env => x.store) hLc
    exact h2
  have hpL : eL.store.PositiveKeys := by rw [hLst]; exact hpU
  have hD := deactivateAll_positive request.UserId
    (eU.store.mappings.filter (fun m => m.ExternalLinkId == request.Id)) eL hpL
  unfold Update
  rw [hF]
  simp only []
  rw [hU]
  simp only []
  rw [hL]
  simp only []
  rcases hDe : deactivateAll request.UserId
    (eU.store.mappings.filter (fun m => m.ExternalLinkId == request.Id)) eL with ⟨rD, eD⟩
  rw [hDe] at hD
  simp only [] at hD
  cases rD with
  | error err => exact hD
  | ok all =>
    simp only []
    have hR := reconcile_positive request request.ClusterIds all eD hD
    rcases hRe : reconcile request all request.ClusterIds eD with ⟨rR, eR⟩
    rw [hRe] at hR
    cases rR with
    | error err => exact hR
    | ok v => exact hR

/-- `DeleteLink` keeps the identities of the mapping rows positive, wherever it
stops. -/
theorem DeleteLink_positive (id userId : Int) (e : Env) (hp : e.store.PositiveKeys) :
    (DeleteLink id userId e).2.store.PositiveKeys := by
  rcases mappingFindAllActiveByLink_outcome id e with ⟨eL, hL, hLs⟩ | ⟨eL, hL, hLc⟩
  · unfold DeleteLink
    rw [hL]
    show eL.store.PositiveKeys
    rw [hLs]; exact hp
  have hLst : eL.store = e.store := by
    have h2 : eL.calm.store = e.calm.store := congrArg (fun x : Env => x.store) hLc
    exact h2
  have hpL : eL.store.PositiveKeys := by rw [hLst]; exact hp
  have hD := deactivateAll_positive userId
    (e.store.mappings.filter (fun m => m.ExternalLinkId == id && m.Active)) eL hpL
  unfold DeleteLink
  rw [hL]
  simp only []
  rcases hDe : deactivateAll userId
    (e.store.mappings.filter (fun m => m.ExternalLinkId == id && m.Active)) eL with ⟨rD, eD⟩
  rw [hDe] at hD
  simp only [] at hD
  cases rD with
  | error err => exact hD
  | ok all =>
    simp only []
    rcases linkFindOne_outcome id eD with ⟨err, eF, hF, hFs⟩ | ⟨found, eF, hF, _⟩
    · rw [hF]
      show eF.store.PositiveKeys
      rw [hFs]; exact hD
    obtain ⟨_, hFs, _⟩ := linkFindOne_found id eD found eF hF
    rw [hF]
    simp only []
    rcases linkUpdate_outcome
      { found with Active := false, UpdatedOn := (timeNow eF).1, UpdatedBy := userId }
      (timeNow eF).2 with ⟨eU, hU, hUs⟩ | ⟨eU, hU, _⟩
    · rw [hU]
      show eU.store.PositiveKeys
      rw [hUs, store_timeNow, hFs]; exact hD
    · obtain ⟨_, hUm⟩ := linkUpdate_result _ _ () eU hU
      simp only [store_timeNow, hFs] at hUm
      rw [hU]
      exact fun r hr => hD r (hUm ▸ hr)

/-- Every store reached from the empty store by calls of the service, whatever the
repository calls answer, has mapping rows with positive identities. -/
theorem Reachable.positiveKeys {s : Store} (h : Reachable s) : s.PositiveKeys := by
  induction h with
  | empty => intro r hr; simp [Store.empty] at hr
  | create s clock faults requests userId _ ih =>
    exact Create_positive userId requests ⟨s, clock, faults⟩ ih
  | update s clock faults request _ ih => exact Update_positive request ⟨s, clock, faults⟩ ih
  | delete s clock faults id userId _ ih =>
    exact DeleteLink_positive id userId ⟨s, clock, faults⟩ ih

/-- The row found for a cluster id in a table extended by new rows is the row found
before, when there is one. -/
theorem reuseId_append_left (l1 l2 : List ExternalLinkClusterMapping) (c i : Int)
    (h : reuseId l1 c = some i) : reuseId (l1 ++ l2) c = some i := by
  obtain ⟨m, _, _, _, _, hf⟩ := reuseId_some h
  have h2 : (l1 ++ l2).find? (fun model => c == model.ClusterId) = some m := by
    rw [List.find?_append, hf]; rfl
  unfold reuseId at h ⊢
  rw [h2]
  rw [hf] at h
  exact h

/-- Without a row for the cluster id among rows of positive identity, the search goes
on in the rows that follow. -/
theorem reuseId_append_right (l1 l2 : List ExternalLinkClusterMapping) (c : Int)
    (hp : ∀ m ∈ l1, 0 < m.Id) (h : reuseId l1 c = none) :
    reuseId (l1 ++ l2) c = reuseId l2 c := by
  have hf : l1.find? (fun model => c == model.ClusterId) = none := by
    cases hfm : l1.find? (fun model => c == model.ClusterId) with
    | none => rfl
    | some m =>
      exfalso
      unfold reuseId at h
      rw [hfm] at h
      simp only [gt_iff_lt, hp m (List.mem_of_find?_eq_some hfm), if_true] at h
      exact Option.noConfusion h
  unfold reuseId
  rw [List.find?_append, hf]
  rfl

/-- Among rows with pairwise distinct cluster ids, the row found for the cluster id of
a row of positive identity is that row. -/
theorem reuseId_of_mem (l : List ExternalLinkClusterMapping)
    (hn : (l.map (·.ClusterId)).Nodup) (n : ExternalLinkClusterMapping) (hmem : n ∈ l)
    (hpos : 0 < n.Id) : reuseId l n.ClusterId = some n.Id := by
  cases hfm : l.find? (fun model => n.ClusterId == model.ClusterId) with
  | none =>
    exact absurd (by simp) (List.find?_eq_none.1 hfm n hmem)
  | some m =>
    have hc : n.ClusterId = m.ClusterId := by simpa using List.find?_some hfm
    have hmn : m = n :=
      List.inj_on_of_nodup_map hn (List.mem_of_find?_eq_some hfm) hmem hc.symm
    unfold reuseId
    rw [hfm, hmn]
    simp only [gt_iff_lt, hpos, if_true]

/-- Rewriting rows without touching their key columns commutes with the selection of
the rows of a link. -/
theorem filter_link_map (l : List ExternalLinkClusterMapping)
    (G : ExternalLinkClusterMapping → ExternalLinkClusterMapping)
    (hG : ∀ r ∈ l, rowKey (G r) = rowKey r) (L : Int) :
    (l.map G).filter (fun m => m.ExternalLinkId == L)
      = (l.filter (fun m => m.ExternalLinkId == L)).map G := by
  rw [List.filter_map]
  congr 1
  apply List.filter_congr
  intro r hr
  show ((G r).ExternalLinkId == L) = (r.ExternalLinkId == L)
  rw [(rowKey_fields (hG r hr)).2.1]

/-- The lookup by identity in a link table where the rows of that identity have been
replaced by `t` returns `t`. -/
theorem find?_replace_link (t : ExternalLink) (i : Int) (ht : t.Id = i) :
    ∀ (ls : List ExternalLink) (found : ExternalLink),
      ls.find? (fun l => l.Id == i) = some found →
      (ls.map (fun l => if l.Id = i then t else l)).find? (fun l => l.Id == i) = some t := by
  intro ls
  induction ls with
  | nil => intro found h; simp at h
  | cons x xs ih =>
    intro found h
    by_cases hx : x.Id = i
    · simp [List.find?, hx, ht]
    · have hx2 : (x.Id == i) = false := by simpa using hx
      rw [List.find?_cons, hx2] at h
      rw [List.map_cons, if_neg hx, List.find?_cons, hx2]
      exact ih found h

/-- Shape of the store after a second `Update` by the same request: the first run
succeeds, and a second run from the store it leaves (at any later time) succeeds,
adds no mapping row, keeps the key columns and the active flag of every mapping row
and keeps every link record up to `UpdatedOn`. -/
theorem Update_again (request : ExternalLinkDto) (e : Env) (hfaults : e.NoFaults)
    (hkeys : e.store.MappingKeys) (hpos : e.store.PositiveKeys)
    (hlink : ∃ l ∈ e.store.links, l.Id = request.Id)
    (hnodup : request.ClusterIds.Nodup) :
    ∃ e1 : Env, Update request e = (.ok { Success := true }, e1) ∧ e1.NoFaults ∧
      ∀ e1' : Env, e1'.store = e1.store → e1'.NoFaults →
        ∃ e2 : Env, Update request e1' = (.ok { Success := true }, e2) ∧
          e2.store.mappings.map (fun r => (rowKey r, r.Active))
            = e1.store.mappings.map (fun r => (rowKey r, r.Active)) ∧
          e2.store.links.map (fun l => { l with UpdatedOn := 0 })
            = e1.store.links.map (fun l => { l with UpdatedOn := 0 }) ∧
          e2.store.tools = e1.store.tools := by
  obtain ⟨l0, hl0, hl0id⟩ := hlink
  obtain ⟨found, hf⟩ :
      ∃ found, e.store.links.find? (fun l => l.Id == request.Id) = some found := by
    cases h : e.store.links.find? (fun l => l.Id == request.Id) with
    | some f => exact ⟨f, rfl⟩
    | none => exact absurd (by simpa using hl0id) (List.find?_eq_none.1 h l0 hl0)
  have hfid : found.Id = request.Id := by simpa using List.find?_some hf
  obtain ⟨G, new, e1, hrun1, hnf1, _, hlinks1, hmaps1, hGkey, _, hGact, hnew, hfresh, hnewnd⟩ :=
    Update_shape request e hfaults hkeys found hf
  obtain ⟨f1, hf1⟩ : ∃ x : ExternalLink, x =
      { found with Name := request.Name, Url := request.Url, Active := true,
                   ExternalLinkMonitoringToolId := request.MonitoringToolId,
                   UpdatedBy := request.UserId, UpdatedOn := e.clock } := ⟨_, rfl⟩
  have hlinks1' : e1.store.links
      = e.store.links.map (fun l => if l.Id = request.Id then f1 else l) := by
    rw [hf1, ← hfid]; exact hlinks1
  have hf1id : f1.Id = request.Id := by rw [hf1]; exact hfid
  obtain ⟨snap, hsnap⟩ : ∃ x, x
      = e.store.mappings.filter (fun m => m.ExternalLinkId == request.Id) := ⟨_, rfl⟩
  rw [← hsnap] at hGact hnew
  refine ⟨e1, hrun1, hnf1, ?_⟩
  intro e1' hst hnf'
  have hp1 : e1.store.PositiveKeys := by
    have h := Update_positive request e hpos
    rw [hrun1] at h
    exact h
  have hk1 : e1.store.MappingKeys := by
    show (List.map (·.Id) e1.store.mappings).Nodup
    rw [hmaps1, List.map_append, map_id_of_rowKey _ G hGkey]
    refine List.Nodup.append hkeys hnewnd (fun i hi hi2 => ?_)
    obtain ⟨n, hn, hne⟩ := List.mem_map.1 hi2
    exact hfresh n hn (by rw [hne]; exact hi)
  have hfind1 : e1'.store.links.find? (fun l => l.Id == request.Id) = some f1 := by
    rw [hst, hlinks1']
    exact find?_replace_link f1 request.Id hf1id _ found hf
  obtain ⟨G2, new2, e2, hrun2, _, ht2, hlinks2, hmaps2, hG2key, hG2fix, hG2act, hnew2, _, _⟩ :=
    Update_shape request e1' hnf' (by rw [hst]; exact hk1) f1 hfind1
  rw [hst] at ht2 hlinks2 hmaps2 hG2key hG2fix hG2act hnew2
  -- the rows inserted by the first run
  have hnewprops : ∀ n ∈ new, n.ExternalLinkId = request.Id ∧ n.Active = true ∧
      n.ClusterId ∈ request.ClusterIds ∧ reuseId snap n.ClusterId = none := by
    intro n hn
    have hm : (n.ExternalLinkId, n.ClusterId, n.Active)
        ∈ new.map (fun n => (n.ExternalLinkId, n.ClusterId, n.Active)) :=
      List.mem_map_of_mem _ hn
    rw [hnew] at hm
    obtain ⟨c, hc, hce⟩ := List.mem_map.1 hm
    obtain ⟨hcS, hcn⟩ := List.mem_filter.1 hc
    simp only [Prod.mk.injEq] at hce
    obtain ⟨h1, h2, h3⟩ := hce
    refine ⟨h1.symm, h3.symm, h2 ▸ hcS, ?_⟩
    rw [← h2]
    simpa using hcn
  have hnewrow : ∀ c ∈ request.ClusterIds, reuseId snap c = none →
      ∃ n ∈ new, n.ClusterId = c := by
    intro c hc h
    have hm : (request.Id, c, true) ∈ (request.ClusterIds.filter
        (fun c => (reuseId snap c).isNone)).map (fun c => (request.Id, c, true)) :=
      List.mem_map_of_mem _ (List.mem_filter.2 ⟨hc, by simp [h]⟩)
    rw [← hnew] at hm
    obtain ⟨n, hn, hne⟩ := List.mem_map.1 hm
    simp only [Prod.mk.injEq] at hne
    exact ⟨n, hn, hne.2.1⟩
  have hnewcl : (new.map (·.ClusterId)).Nodup := by
    have h2 := congrArg (List.map (fun t : Int × Int × Bool => t.2.1)) hnew
    simp only [List.map_map] at h2
    have h3 : new.map (·.ClusterId)
        = request.ClusterIds.filter (fun c => (reuseId snap c).isNone) := by
      have ha : ((fun t : Int × Int × Bool => t.2.1) ∘
          fun n : ExternalLinkClusterMapping => (n.ExternalLinkId, n.ClusterId, n.Active))
          = fun n => n.ClusterId := rfl
      have hb : ((fun t : Int × Int × Bool => t.2.1) ∘
          fun c : Int => (request.Id, c, true)) = id := rfl
      rw [ha, hb, List.map_id] at h2
      exact h2
    rw [h3]
    exact hnodup.filter _
  have hsnap2 : e1.store.mappings.filter (fun m => m.ExternalLinkId == request.Id)
      = snap.map G ++ new := by
    rw [hmaps1, List.filter_append, filter_link_map _ G hGkey, ← hsnap, List.filter_eq_self.2]
    intro n hn
    simp [(hnewprops n hn).1]
  rw [hsnap2] at hG2act hnew2
  have hposG : ∀ m ∈ snap.map G, 0 < m.Id := by
    intro m hm
    apply hp1 m
    rw [hmaps1]
    apply List.mem_append_left
    obtain ⟨r, hr, hre⟩ := List.mem_map.1 hm
    rw [← hre, hsnap] at *
    exact List.mem_map_of_mem G (List.mem_filter.1 hr).1
  have hposnew : ∀ n ∈ new, 0 < n.Id :=
    fun n hn => hp1 n (by rw [hmaps1]; exact List.mem_append_right _ hn)
  have hcongr : ∀ c, reuseId (snap.map G) c = reuseId snap c := by
    intro c
    apply reuseId_congr
    rw [List.map_map]
    apply List.map_congr_left
    intro r hr
    rw [hsnap] at hr
    exact hGkey r (List.mem_filter.1 hr).1
  have hold : ∀ c i, reuseId snap c = some i → reuseId (snap.map G ++ new) c = some i :=
    fun c i h => reuseId_append_left _ _ c i ((hcongr c).trans h)
  have hnone : ∀ n ∈ new, reuseId (snap.map G ++ new) n.ClusterId = some n.Id := by
    intro n hn
    rw [reuseId_append_right _ _ _ hposG ((hcongr _).trans (hnewprops n hn).2.2.2)]
    exact reuseId_of_mem new hnewcl n hn (hposnew n hn)
  have hall : ∀ c ∈ request.ClusterIds, ∃ i, reuseId (snap.map G ++ new) c = some i := by
    intro c hc
    cases h : reuseId snap c with
    | some i => exact ⟨i, hold c i h⟩
    | none =>
      obtain ⟨n, hn, hnc⟩ := hnewrow c hc h
      exact ⟨n.Id, hnc ▸ hnone n hn⟩
  have hnew2nil : new2 = [] := by
    have hnil : request.ClusterIds.filter
        (fun c => (reuseId (snap.map G ++ new) c).isNone) = [] := by
      rw [List.filter_eq_nil_iff]
      intro c hc
      obtain ⟨i, hi⟩ := hall c hc
      simp [hi]
    rw [hnil] at hnew2
    simpa using hnew2
  have hact : ∀ r1 ∈ e1.store.mappings, (G2 r1).Active = r1.Active := by
    intro r1 hr1
    by_cases hl : r1.ExternalLinkId = request.Id
    swap
    · rw [hG2fix r1 hr1 hl]
    have h2 := hG2act r1 hr1 hl
    rw [Bool.eq_iff_iff, h2]
    rw [hmaps1] at hr1
    rcases List.mem_append.1 hr1 with hm | hn
    · obtain ⟨r, hr, hre⟩ := List.mem_map.1 hm
      subst hre
      have hrl : r.ExternalLinkId = request.Id := by
        rw [← (rowKey_fields (hGkey r hr)).2.1]; exact hl
      have hid : (G r).Id = r.Id := rowKey_id (hGkey r hr)
      rw [hGact r hr hrl, hid]
      constructor
      · rintro ⟨c, hc, hre⟩
        refine ⟨c, hc, ?_⟩
        cases h : reuseId snap c with
        | some i =>
          have h3 := hold c i h
          rw [hre] at h3
          exact h3.symm
        | none =>
          exfalso
          obtain ⟨n, hn, hnc⟩ := hnewrow c hc h
          have h3 := hnone n hn
          rw [hnc, hre] at h3
          apply hfresh n hn
          rw [← Option.some.inj h3]
          exact List.mem_map_of_mem _ hr
      · rintro ⟨c, hc, hre⟩
        exact ⟨c, hc, hold c _ hre⟩
    · obtain ⟨_, hna, hnc, _⟩ := hnewprops r1 hn
      exact iff_of_true ⟨r1.ClusterId, hnc, hnone r1 hn⟩ hna
  refine ⟨e2, hrun2, ?_, ?_, ht2⟩
  · rw [hmaps2, hnew2nil, List.append_nil, List.map_map]
    apply List.map_congr_left
    intro r1 hr1
    show (rowKey (G2 r1), (G2 r1).Active) = (rowKey r1, r1.Active)
    rw [hG2key r1 hr1, hact r1 hr1]
  · rw [hlinks2, List.map_map]
    apply List.map_congr_left
    intro l hl
    by_cases hid : l.Id = f1.Id
    · have hlf : l = f1 := by
        rw [hlinks1'] at hl
        obtain ⟨l1, _, hle⟩ := List.mem_map.1 hl
        by_cases h0 : l1.Id = request.Id
        · rw [if_pos h0] at hle; exact hle.symm
        · rw [if_neg h0] at hle
          subst hle
          exact absurd (hid.trans hf1id) h0
      simp only [Function.comp_apply, if_pos hid]
      subst hlf
      subst hf1
      rfl
    · simp only [Function.comp_apply, if_neg hid]

/-- On every store reached from the empty store by calls of the service, whatever
the repository calls answered, a second `Update` by the same request changes nothing
but timestamps: such a store has pairwise distinct, positive row identities. -/
theorem Update_again_reachable (request : ExternalLinkDto) (e : Env) (hfaults : e.NoFaults)
    (hreach : Reachable e.store)
    (hlink : ∃ l ∈ e.store.links, l.Id = request.Id)
    (hnodup : request.ClusterIds.Nodup) :
    ∃ e1 : Env, Update request e = (.ok { Success := true }, e1) ∧ e1.NoFaults ∧
      ∀ e1' : Env, e1'.store = e1.store → e1'.NoFaults →
        ∃ e2 : Env, Update request e1' = (.ok { Success := true }, e2) ∧
          e2.store.mappings.map (fun r => (rowKey r, r.Active))
            = e1.store.mappings.map (fun r => (rowKey r, r.Active)) ∧
          e2.store.links.map (fun l => { l with UpdatedOn := 0 })
            = e1.store.links.map (fun l => { l with UpdatedOn := 0 }) ∧
          e2.store.tools = e1.store.tools :=
  Update_again request e hfaults hreach.invariants.1.2.1 hreach.positiveKeys hlink hnodup

end ExternalLinks
